import Mathlib

/-!
WRasterImage (Direct2D backend): drawing session, clip layer, brushes and path geometry.

A shallow embedding of `src/Wt/WRasterImage-d2d1.C`.

* Coordinates, angles and colour components live in an ordered field `K`
  (exact arithmetic); `static_cast<FLOAT>` is the identity on `K`.
* The C math library (`cos`, `sin`, `M_PI`) is carried in `Libm K`.
* COM pointers are `Handle`s (`none` is `NULL`); every call made on the render
  target, the factory, a geometry sink or the logger is recorded as an `Event`.
* The results of calls that the environment decides (resource creations,
  `EndDraw`, font lookups) are inputs, collected in `Env`.
* `drawingCount_` is a mathematical integer (no `int` overflow is modelled).
-/

namespace Wt

set_option linter.unusedSectionVars false

/-! ## Plain data -/

/-- A `D2D1_POINT_2F` / `WPointF`. -/
structure Point (K : Type) where
  x : K
  y : K
deriving DecidableEq, Repr

/-- The record kinds of `WPainterPath::Segment::Type`. -/
inductive SegmentType where
  | MoveTo | LineTo | CubicC1 | CubicC2 | CubicEnd
  | QuadC | QuadEnd | ArcC | ArcR | ArcAngleSweep
deriving DecidableEq, Repr

/-- One record of `WPainterPath::segments()`. -/
structure Segment (K : Type) where
  type : SegmentType
  x : K
  y : K
deriving DecidableEq, Repr

/-- The path handed to the device: its records and `positionAtSegment`, a
method of `WPainterPath` whose body is not part of this file of the
repository and is therefore an input. -/
structure WPainterPath (K : Type) where
  segments : List (Segment K)
  positionAtSegment : Nat → Point K

inductive SweepDirection where
  | COUNTER_CLOCKWISE | CLOCKWISE
deriving DecidableEq, Repr

inductive ArcSize where
  | SMALL | LARGE
deriving DecidableEq, Repr

inductive FigureBegin where
  | FILLED | HOLLOW
deriving DecidableEq, Repr

inductive FigureEnd where
  | END_OPEN | END_CLOSED
deriving DecidableEq, Repr

/-- A `D2D1_ARC_SEGMENT` as built by `D2D1::ArcSegment(point, size, rotation, dir, arcSize)`. -/
structure ArcSegment (K : Type) where
  point : Point K
  size : Point K
  rotationAngle : K
  sweepDirection : SweepDirection
  arcSize : ArcSize
deriving DecidableEq, Repr

/-- Calls on an `ID2D1GeometrySink`. -/
inductive SinkCall (K : Type) where
  | BeginFigure (start : Point K) (mode : FigureBegin)
  | EndFigure (mode : FigureEnd)
  | AddLine (p : Point K)
  | AddBezier (p1 p2 p3 : Point K)
  | AddQuadraticBezier (p1 p2 : Point K)
  | AddArc (arc : ArcSegment K)
  | Close
deriving DecidableEq, Repr

/-- Ways in which `drawPlainPath` leaves defined behaviour. -/
inductive PathFault where
  | assertFalse
  | outOfRange
deriving DecidableEq, Repr

/-- The math library used by the arc code: `cos`, `sin` and the constant `M_PI`. -/
structure Libm (K : Type) where
  cos : K → K
  sin : K → K
  M_PI : K

section Geometry

variable {K : Type} [LinearOrderedField K]

/-- The source's `fequal`: `std::fabs(d1 - d2) < 1E-5`. -/
def fequal (d1 d2 : K) : Bool :=
  decide (|d1 - d2| < 1 / 100000)

/-- The effective sweep in radians, `min(sweep / 180.0 * M_PI, 2 * M_PI)`: the
source's `spanAngleRad` in `drawArc` and `sweepAngle` in `drawPlainPath`. -/
def sweepAngleRad (m : Libm K) (sweep : K) : K :=
  min (sweep / 180 * m.M_PI) (2 * m.M_PI)

/-- The body of `case WPainterPath::Segment::ArcC` of `drawPlainPath`: the sink
calls for the arc stored in the records `s` (centre), `s1` (radii) and `s2`
(start angle, sweep), `current` being `path.positionAtSegment(i)`. -/
def arcSegmentCalls (m : Libm K) (current : Point K) (s s1 s2 : Segment K) :
    List (SinkCall K) :=
  let cx := s.x
  let cy := s.y
  let rx := s1.x
  let ry := s1.y
  let startAngle := s2.x / 180 * m.M_PI
  let sweepAngle := sweepAngleRad m s2.y
  let endAngle := startAngle + sweepAngle
  let midAngle := startAngle + sweepAngle / 2
  let startPoint : Point K := ⟨m.cos (-startAngle) * rx + cx, m.sin (-startAngle) * ry + cy⟩
  let midPoint : Point K := ⟨m.cos (-midAngle) * rx + cx, m.sin (-midAngle) * ry + cy⟩
  let endPoint : Point K := ⟨m.cos (-endAngle) * rx + cx, m.sin (-endAngle) * ry + cy⟩
  (if (!fequal startPoint.x current.x) || (!fequal startPoint.y current.y) then
     [SinkCall.AddLine startPoint]
   else []) ++
  [SinkCall.AddArc ⟨midPoint, ⟨rx, ry⟩, 0,
     if 0 < sweepAngle then SweepDirection.COUNTER_CLOCKWISE else SweepDirection.CLOCKWISE,
     ArcSize.SMALL⟩,
   SinkCall.AddArc ⟨endPoint, ⟨rx, ry⟩, 0,
     if 0 < sweepAngle then SweepDirection.COUNTER_CLOCKWISE else SweepDirection.CLOCKWISE,
     ArcSize.SMALL⟩]

/-- State of the `for` loop of `drawPlainPath`: the outer `startPoint`, the
`started` flag and the sink calls made so far. -/
structure PathLoop (K : Type) where
  startPoint : Point K
  started : Bool
  out : List (SinkCall K)

/-- The loop of `Impl::drawPlainPath` from index `i` on. A read of
`segments[j]` with `j` past the end is `PathFault.outOfRange`, a reached
`assert(false)` is `PathFault.assertFalse`. -/
def drawPlainPathLoop (m : Libm K) (path : WPainterPath K) (filled : Bool)
    (i : Nat) (st : PathLoop K) : Except PathFault (PathLoop K) :=
  if h : i < path.segments.length then
    let s := path.segments[i]
    let st1 : PathLoop K :=
      if s.type ≠ SegmentType.MoveTo ∧ st.started = false then
        { st with
          out := st.out ++ [SinkCall.BeginFigure st.startPoint
                  (if filled then FigureBegin.FILLED else FigureBegin.HOLLOW)]
          started := true }
      else st
    match s.type with
    | SegmentType.MoveTo =>
      let st2 : PathLoop K :=
        if st1.started then
          { st1 with out := st1.out ++ [SinkCall.EndFigure FigureEnd.END_OPEN], started := false }
        else st1
      drawPlainPathLoop m path filled (i + 1) { st2 with startPoint := ⟨s.x, s.y⟩ }
    | SegmentType.LineTo =>
      drawPlainPathLoop m path filled (i + 1)
        { st1 with out := st1.out ++ [SinkCall.AddLine ⟨s.x, s.y⟩] }
    | SegmentType.CubicC1 =>
      match path.segments[i + 1]?, path.segments[i + 2]? with
      | some s1, some s2 =>
        drawPlainPathLoop m path filled (i + 2 + 1)
          { st1 with out := st1.out ++
              [SinkCall.AddBezier ⟨s.x, s.y⟩ ⟨s1.x, s1.y⟩ ⟨s2.x, s2.y⟩] }
      | _, _ => Except.error PathFault.outOfRange
    | SegmentType.CubicC2 => Except.error PathFault.assertFalse
    | SegmentType.CubicEnd => Except.error PathFault.assertFalse
    | SegmentType.ArcC =>
      match path.segments[i + 1]?, path.segments[i + 2]? with
      | some s1, some s2 =>
        drawPlainPathLoop m path filled (i + 2 + 1)
          { st1 with out := st1.out ++ arcSegmentCalls m (path.positionAtSegment i) s s1 s2 }
      | _, _ => Except.error PathFault.outOfRange
    | SegmentType.ArcR => Except.error PathFault.assertFalse
    | SegmentType.ArcAngleSweep => Except.error PathFault.assertFalse
    | SegmentType.QuadC =>
      match path.segments[i + 1]? with
      | some s1 =>
        drawPlainPathLoop m path filled (i + 1 + 1)
          { st1 with out := st1.out ++ [SinkCall.AddQuadraticBezier ⟨s.x, s.y⟩ ⟨s1.x, s1.y⟩] }
      | none => Except.error PathFault.outOfRange
    | SegmentType.QuadEnd => Except.error PathFault.assertFalse
  else
    Except.ok st
termination_by path.segments.length - i
decreasing_by all_goals simp_wf; all_goals omega

/-- The source's `Impl::drawPlainPath`: the calls made on the sink opened on the
geometry, ending with the closing of a still open figure and `Close`. -/
def drawPlainPath (m : Libm K) (path : WPainterPath K) (filled : Bool) :
    Except PathFault (List (SinkCall K)) :=
  match drawPlainPathLoop m path filled 0 ⟨⟨0, 0⟩, false, []⟩ with
  | Except.error e => Except.error e
  | Except.ok st =>
    let out := if st.started then st.out ++ [SinkCall.EndFigure FigureEnd.END_OPEN] else st.out
    Except.ok (out ++ [SinkCall.Close])

end Geometry

/-! ## Painter state observed by the device -/

inductive BrushStyle where
  | NoBrush | SolidPattern | GradientPattern
deriving DecidableEq, Repr

inductive GradientStyle where
  | LinearGradient | RadialGradient
deriving DecidableEq, Repr

inductive PenStyle where
  | NoPen | SolidLine | DashLine | DotLine | DashDotLine | DashDotDotLine
deriving DecidableEq, Repr

inductive PenCapStyle where
  | FlatCap | SquareCap | RoundCap
deriving DecidableEq, Repr

inductive PenJoinStyle where
  | MiterJoin | BevelJoin | RoundJoin
deriving DecidableEq, Repr

/-- A `WColor`: four integer channels. -/
structure WColor where
  red : Nat
  green : Nat
  blue : Nat
  alpha : Nat
deriving DecidableEq, Repr

/-- A `D2D1_COLOR_F`. -/
structure ColorF (K : Type) where
  r : K
  g : K
  b : K
  a : K
deriving DecidableEq, Repr

/-- A `WTransform` / `D2D1::Matrix3x2F`. -/
structure WTransform (K : Type) where
  m11 : K
  m12 : K
  m21 : K
  m22 : K
  dx : K
  dy : K
deriving DecidableEq, Repr

structure WPen (K : Type) where
  style : PenStyle
  capStyle : PenCapStyle
  joinStyle : PenJoinStyle
  color : WColor
  width : K

structure WGradient (K : Type) where
  style : GradientStyle
  colorstops : List (K × WColor)
  linearGradientVector : Point K × Point K
  radialCenterPoint : Point K
  radialFocalPoint : Point K
  radialRadius : K

structure WBrush (K : Type) where
  style : BrushStyle
  color : WColor
  gradient : WGradient K

inductive GenericFamily where
  | Default | Serif | SansSerif | Monospace | Fantasy | Cursive
deriving DecidableEq, Repr

inductive FontWeight where
  | Lighter | NormalWeight | Bold | Bolder | Value
deriving DecidableEq, Repr

inductive FontStyle where
  | NormalStyle | Oblique | Italic
deriving DecidableEq, Repr

/-- A `WFont` as read by the device; `specificFamilies` is already split at
commas and trimmed, `sizePixels` is `font.sizeLength(12).toPixels()`. -/
structure WFont (K : Type) where
  specificFamilies : List String
  genericFamily : GenericFamily
  weight : FontWeight
  weightValue : Nat
  style : FontStyle
  sizePixels : K

/-- What the device reads from its `WPainter`. `normalizedPenWidth` is
`painter()->normalizedPenWidth(w, w.value() == 0).toPixels()`, a method of
`WPainter` whose body is not part of this file and is therefore an input. -/
structure WPainter (K : Type) where
  hasClipping : Bool
  clipPath : WPainterPath K
  clipPathTransform : WTransform K
  combinedTransform : WTransform K
  antialiasing : Bool
  pen : WPen K
  brush : WBrush K
  font : WFont K
  normalizedPenWidth : K → Bool → K

/-- The bits of `WFlags<ChangeFlag>`. -/
structure ChangeFlags where
  Clipping : Bool
  Transform : Bool
  Pen : Bool
  Brush : Bool
  Font : Bool
  Hints : Bool
  Shadow : Bool
deriving DecidableEq, Repr

/-! ## Renderer resources and the call trace -/

/-- A COM pointer: `none` is `NULL`, `some n` identifies a live object. -/
abbrev Handle := Option Nat

inductive AntialiasMode where
  | ALIASED | PER_PRIMITIVE
deriving DecidableEq, Repr

inductive CapStyle where
  | FLAT | SQUARE | ROUND
deriving DecidableEq, Repr

inductive LineJoin where
  | MITER | BEVEL | ROUND
deriving DecidableEq, Repr

/-- The fields of `D2D1_STROKE_STYLE_PROPERTIES` the source assigns;
`D2D1::StrokeStyleProperties()` is flat caps and a miter join. -/
structure StrokeStyleProperties where
  startCap : CapStyle
  endCap : CapStyle
  dashCap : CapStyle
  lineJoin : LineJoin
deriving DecidableEq, Repr

/-- What the pointer `fillBrush_` refers to: the object and its concrete class. -/
inductive FillBrush (K : Type) where
  | solid (id : Nat) (color : ColorF K)
  | linear (id : Nat)
  | radial (id : Nat)
deriving DecidableEq, Repr

/-- The object identity behind a fill brush pointer. -/
def FillBrush.id {K : Type} : FillBrush K → Nat
  | FillBrush.solid n _ => n
  | FillBrush.linear n => n
  | FillBrush.radial n => n

/-- Every call the device makes on the render target, the factories, a
geometry sink (through `plainPath`) and the logger. -/
inductive Event (K : Type) where
  | BeginDraw
  | EndDraw
  | PushLayer (geometry : Handle) (layer : Handle)
  | PopLayer
  | SetTransform (t : WTransform K)
  | SetAntialiasMode (mode : AntialiasMode)
  | Release (id : Nat)
  | CreatePathGeometry (result : Handle)
  | CreateLayer (result : Handle)
  | PlainPath (geometry : Handle) (filled : Bool) (sink : Except PathFault (List (SinkCall K)))
  | ArcPath (geometry : Handle) (sink : List (SinkCall K))
  | StrokeSetColor (brush : Handle) (color : ColorF K)
  | CreateStrokeStyle (props : StrokeStyleProperties) (dashes : List K) (result : Handle)
  | FillSetColor (brush : Option (FillBrush K)) (color : ColorF K)
  | CreateSolidColorBrush (color : ColorF K) (result : Handle)
  | CreateGradientStopCollection (stops : List (K × ColorF K)) (result : Handle)
  | CreateLinearGradientBrush (startPoint endPoint : Point K) (stops : Handle) (result : Handle)
  | CreateRadialGradientBrush (center originOffset : Point K) (radius : K) (stops : Handle)
      (result : Handle)
  | GetSystemFontCollection (ok : Bool)
  | CreateTextFormat (family : String) (weight : Nat) (style : FontStyle) (size : K)
      (result : Handle)
  | GetFirstMatchingFont (family : String) (weight : Nat) (style : FontStyle) (result : Handle)
  | FillGeometry (geometry : Handle) (brush : Option (FillBrush K))
  | DrawGeometry (geometry : Handle) (brush : Handle) (width : K) (stroke : Handle)
  | Clear
  | LogError (message : String)

/-- The fields of `WRasterImage::Impl` that the modelled operations touch. -/
structure Impl (K : Type) where
  w_ : Nat
  h_ : Nat
  drawingCount_ : Int
  fillBrush_ : Option (FillBrush K)
  fillBrushStyle_ : BrushStyle
  strokeBrush_ : Handle
  stroke_ : Handle
  lineWidth_ : K
  clipGeometry_ : Handle
  clipLayer_ : Handle
  clipLayerActive_ : Bool
  textFormat_ : Handle
  font_ : Handle

/-- Results decided by the environment during one device call: the object
returned by each creation (`none` when the call fails), the `HRESULT` of
`EndDraw`, and the system font collection. -/
structure Env where
  endDrawOk : Bool
  pathGeometry : Handle
  layer : Handle
  strokeStyle : Handle
  solidColorBrush : Handle
  gradientStopCollection : Handle
  gradientBrush : Handle
  systemFontCollectionOk : Bool
  findFamilyName : String → Bool
  textFormat : Handle
  matchingFont : Handle

/-- The source's `SafeRelease`: release a non-null pointer (the pointer is then `NULL`). -/
def SafeRelease {K : Type} (p : Handle) : List (Event K) :=
  match p with
  | some n => [Event.Release n]
  | none => []

section Session

variable {K : Type}

/-- The source's `Impl::beginDraw`. -/
def Impl.beginDraw (s : Impl K) : Impl K × List (Event K) :=
  let s1 := { s with drawingCount_ := s.drawingCount_ + 1 }
  if s1.drawingCount_ = 1 then (s1, [Event.BeginDraw]) else (s1, [])

/-- The source's `Impl::endDraw`; `hrOk` is `SUCCEEDED(hr)` of `EndDraw`. -/
def Impl.endDraw (hrOk : Bool) (s : Impl K) : Impl K × List (Event K) :=
  let s1 := { s with drawingCount_ := s.drawingCount_ - 1 }
  if s1.drawingCount_ = 0 then
    (s1, Event.EndDraw :: (if hrOk then [] else [Event.LogError "D2D error during drawing"]))
  else (s1, [])

/-- The source's `Impl::resumeDraw`. -/
def Impl.resumeDraw (s : Impl K) : Impl K × List (Event K) :=
  if s.drawingCount_ = 0 then (s, [])
  else
    (s, Event.BeginDraw ::
        (if s.clipLayerActive_ then [Event.PushLayer s.clipGeometry_ s.clipLayer_] else []))

/-- The source's `Impl::suspendDraw`; `hrOk` is `SUCCEEDED(hr)` of `EndDraw`. -/
def Impl.suspendDraw (hrOk : Bool) (s : Impl K) : Impl K × List (Event K) :=
  if s.drawingCount_ = 0 then (s, [])
  else
    (s, (if s.clipLayerActive_ then [Event.PopLayer] else []) ++
        Event.EndDraw :: (if hrOk then [] else [Event.LogError "D2D error during drawing"]))

end Session

/-! ## Construction -/

/-- The source's `Impl::Impl()` member initialisers. -/
def Impl.initial {K : Type} [Zero K] : Impl K :=
  { w_ := 0, h_ := 0, drawingCount_ := 0,
    fillBrush_ := none, fillBrushStyle_ := BrushStyle.SolidPattern,
    strokeBrush_ := none, stroke_ := none, lineWidth_ := 0,
    clipGeometry_ := none, clipLayer_ := none, clipLayerActive_ := false,
    textFormat_ := none, font_ := none }

/-- The objects returned to the constructor, `none` for a failed creation. -/
structure CtorEnv where
  fillBrush : Handle
  strokeBrush : Handle
  stroke : Handle
  clipGeometry : Handle
  clipLayer : Handle
  textFormat : Handle
  font : Handle

/-- The source's `WRasterImage::WRasterImage`: with a zero width or height the
constructor returns early; otherwise every resource is created in turn and a
failure makes the constructor throw (`none`: no device exists). -/
def WRasterImage.new {K : Type} [Zero K] (w h : Nat) (env : CtorEnv) : Option (Impl K) :=
  if w = 0 ∨ h = 0 then
    some { (Impl.initial : Impl K) with w_ := w, h_ := h }
  else
    match env.fillBrush, env.strokeBrush, env.stroke, env.clipGeometry, env.clipLayer,
        env.textFormat, env.font with
    | some fb, some sb, some st, some cg, some cl, some tf, some f =>
      some { (Impl.initial : Impl K) with
        w_ := w, h_ := h,
        fillBrush_ := some (FillBrush.solid fb ⟨0, 0, 0, 0⟩),
        strokeBrush_ := some sb, stroke_ := some st,
        clipGeometry_ := some cg, clipLayer_ := some cl,
        textFormat_ := some tf, font_ := some f }
    | _, _, _, _, _, _, _ => none

/-! ## `setChanged` -/

section SetChanged

variable {K : Type} [LinearOrderedField K]

/-- The source's `fromWColor`. -/
def fromWColor (color : WColor) : ColorF K :=
  ⟨(color.red : K) / 255, (color.green : K) / 255, (color.blue : K) / 255,
   (color.alpha : K) / 255⟩

/-- The source's `fromPointF`. -/
def fromPointF (point : Point K) : Point K := ⟨point.x, point.y⟩

/-- Result of a device call that can throw: the state left behind, the calls
made, and whether a `WException` was raised. -/
structure Outcome (K : Type) where
  impl : Impl K
  events : List (Event K)
  raised : Bool

/-- The `if (flags & Clipping)` block of `setChanged`. The local `hr` starts as
`S_OK`, so the first `SUCCEEDED(hr)` guard is always passed. A fault of
`drawPlainPath` on an ill-formed clip path is recorded in the `PlainPath` call. -/
def setChangedClipping (m : Libm K) (env : Env) (painter : WPainter K) (s : Impl K) :
    Impl K × List (Event K) :=
  let popped : Impl K × List (Event K) :=
    if s.clipLayerActive_ then ({ s with clipLayerActive_ := false }, [Event.PopLayer])
    else (s, [])
  let s1 := popped.1
  if painter.hasClipping then
    let hr1 := env.pathGeometry.isSome
    let geometry := env.pathGeometry
    let layer : Handle := if hr1 then env.layer else none
    let hr2 := hr1 && env.layer.isSome
    let events :=
      popped.2 ++ [Event.SetTransform painter.clipPathTransform] ++
      SafeRelease s1.clipGeometry_ ++ [Event.CreatePathGeometry geometry] ++
      (if hr1 then [Event.PlainPath geometry true (drawPlainPath m painter.clipPath true)]
       else []) ++
      SafeRelease s1.clipLayer_ ++
      (if hr1 then [Event.CreateLayer env.layer] else []) ++
      (if hr2 then [Event.PushLayer geometry layer] else []) ++
      [Event.SetTransform painter.combinedTransform] ++
      (if hr2 then [] else [Event.LogError "D2D error when creating clip path"])
    ({ s1 with clipGeometry_ := geometry, clipLayer_ := layer, clipLayerActive_ := true },
     events)
  else
    popped

/-- The `if (flags & Hints)` block of `setChanged`. -/
def setChangedHints (painter : WPainter K) : List (Event K) :=
  if !painter.antialiasing then [Event.SetAntialiasMode AntialiasMode.ALIASED]
  else [Event.SetAntialiasMode AntialiasMode.PER_PRIMITIVE]

/-- The cap `switch` of the pen block, applied to `D2D1::StrokeStyleProperties()`. -/
def penCap (c : PenCapStyle) : CapStyle :=
  match c with
  | PenCapStyle.FlatCap => CapStyle.FLAT
  | PenCapStyle.SquareCap => CapStyle.SQUARE
  | PenCapStyle.RoundCap => CapStyle.ROUND

/-- The join `switch` of the pen block. -/
def penJoin (j : PenJoinStyle) : LineJoin :=
  match j with
  | PenJoinStyle.MiterJoin => LineJoin.MITER
  | PenJoinStyle.BevelJoin => LineJoin.BEVEL
  | PenJoinStyle.RoundJoin => LineJoin.ROUND

/-- The dash `switch` of the pen block: the first `numdashes` entries of `dashes`. -/
def penDashes (style : PenStyle) : List K :=
  match style with
  | PenStyle.NoPen => []
  | PenStyle.SolidLine => []
  | PenStyle.DashLine => [4, 2]
  | PenStyle.DotLine => [1, 2]
  | PenStyle.DashDotLine => [4, 2, 1, 2]
  | PenStyle.DashDotDotLine => [4, 2, 1, 2, 1, 2]

/-- The `if (flags & Pen)` block of `setChanged`. -/
def setChangedPen (env : Env) (painter : WPainter K) (s : Impl K) :
    Impl K × List (Event K) :=
  let pen := painter.pen
  if pen.style ≠ PenStyle.NoPen then
    let cap := penCap pen.capStyle
    let strokeProperties : StrokeStyleProperties :=
      { startCap := cap, endCap := cap, dashCap := cap, lineJoin := penJoin pen.joinStyle }
    let w := pen.width
    ({ s with lineWidth_ := painter.normalizedPenWidth w (decide (w = 0)),
              stroke_ := env.strokeStyle },
     [Event.StrokeSetColor s.strokeBrush_ (fromWColor pen.color)] ++
     SafeRelease s.stroke_ ++
     [Event.CreateStrokeStyle strokeProperties (penDashes pen.style) env.strokeStyle])
  else (s, [])

/-- Effect of `SetColor` through `reinterpret_cast<ID2D1SolidColorBrush*>(fillBrush_)`:
defined only when the pointer refers to a solid colour brush; otherwise the
call is recorded and the pointer left as it is. -/
def fillSetColor (b : Option (FillBrush K)) (color : ColorF K) : Option (FillBrush K) :=
  match b with
  | some (FillBrush.solid n _) => some (FillBrush.solid n color)
  | other => other

/-- The pointer release of `SafeRelease(impl_->fillBrush_)`. -/
def releaseFill (b : Option (FillBrush K)) : List (Event K) :=
  match b with
  | some r => [Event.Release r.id]
  | none => []

/-- The `if (flags & Brush)` block of `setChanged`. -/
def setChangedBrush (env : Env) (painter : WPainter K) (s : Impl K) :
    Impl K × List (Event K) :=
  let brush := painter.brush
  if brush.style = BrushStyle.SolidPattern then
    let color : ColorF K := fromWColor brush.color
    if s.fillBrushStyle_ ≠ BrushStyle.SolidPattern then
      ({ s with fillBrush_ := env.solidColorBrush.map (fun n => FillBrush.solid n color),
                fillBrushStyle_ := BrushStyle.SolidPattern },
       releaseFill s.fillBrush_ ++ [Event.CreateSolidColorBrush color env.solidColorBrush])
    else
      ({ s with fillBrush_ := fillSetColor s.fillBrush_ color },
       [Event.FillSetColor s.fillBrush_ color])
  else if brush.style = BrushStyle.GradientPattern then
    let gradient := brush.gradient
    let gradientStops : List (K × ColorF K) :=
      gradient.colorstops.map (fun cs => (cs.1, fromWColor cs.2))
    let gradientStopCollection := env.gradientStopCollection
    let created : Option (FillBrush K) × List (Event K) :=
      match gradient.style with
      | GradientStyle.LinearGradient =>
        (env.gradientBrush.map FillBrush.linear,
         [Event.CreateLinearGradientBrush
            gradient.linearGradientVector.1 gradient.linearGradientVector.2
            gradientStopCollection env.gradientBrush])
      | GradientStyle.RadialGradient =>
        let center := fromPointF gradient.radialCenterPoint
        let focalPoint := gradient.radialFocalPoint
        (env.gradientBrush.map FillBrush.radial,
         [Event.CreateRadialGradientBrush center
            ⟨focalPoint.x - center.x, focalPoint.y - center.y⟩ gradient.radialRadius
            gradientStopCollection env.gradientBrush])
    ({ s with fillBrush_ := created.1, fillBrushStyle_ := BrushStyle.GradientPattern },
     [Event.CreateGradientStopCollection gradientStops gradientStopCollection] ++
     releaseFill s.fillBrush_ ++ created.2 ++ SafeRelease gradientStopCollection)
  else (s, [])

/-- The family chosen by the `specificFamilies` loop: the first candidate that
`FindFamilyName` finds, the empty string if there is none. -/
def firstFoundFamily (find : String → Bool) (families : List String) : String :=
  match families with
  | [] => ""
  | f :: rest => if find f then f else firstFoundFamily find rest

/-- The generic-family `switch` of the font block. -/
def genericFamilyName (g : GenericFamily) : String :=
  match g with
  | GenericFamily.Default => "Times New Roman"
  | GenericFamily.Serif => "Times New Roman"
  | GenericFamily.SansSerif => "Arial"
  | GenericFamily.Monospace => "Consolas"
  | GenericFamily.Fantasy => "Gabriola"
  | GenericFamily.Cursive => "Comic Sans MS"

/-- The weight `switch` of the font block, as `DWRITE_FONT_WEIGHT` numbers. -/
def fontWeight (font : WFont K) : Nat :=
  match font.weight with
  | FontWeight.Lighter => 300
  | FontWeight.NormalWeight => 400
  | FontWeight.Bold => 700
  | FontWeight.Bolder => 800
  | FontWeight.Value => font.weightValue

/-- The `if (flags & Font)` block of `setChanged`; it throws when the chosen
family is not in the system font collection. -/
def setChangedFont (env : Env) (painter : WPainter K) (s : Impl K) : Outcome K :=
  let font := painter.font
  let found := firstFoundFamily env.findFamilyName font.specificFamilies
  let fontFamilyName := if found = "" then genericFamilyName font.genericFamily else found
  let weight := fontWeight font
  let head : List (Event K) :=
    [Event.GetSystemFontCollection env.systemFontCollectionOk] ++
    (if env.systemFontCollectionOk then []
     else [Event.LogError "DirectWrite error: failed to get system font collection"]) ++
    SafeRelease s.textFormat_ ++
    [Event.CreateTextFormat fontFamilyName weight font.style font.sizePixels env.textFormat] ++
    SafeRelease s.font_
  if !env.findFamilyName fontFamilyName then
    { impl := { s with textFormat_ := env.textFormat, font_ := none },
      events := head, raised := true }
  else
    { impl := { s with textFormat_ := env.textFormat, font_ := env.matchingFont },
      events := head ++
        [Event.GetFirstMatchingFont fontFamilyName weight font.style env.matchingFont],
      raised := false }

/-- The flag value `Pen | Brush | Font | Hints` assigned in the transform block. -/
def penBrushFontHints : ChangeFlags :=
  { Clipping := false, Transform := false, Pen := true, Brush := true, Font := true,
    Hints := true, Shadow := false }

/-- The source's `WRasterImage::setChanged`. -/
def setChanged (m : Libm K) (env : Env) (painter : WPainter K) (flags : ChangeFlags)
    (s : Impl K) : Outcome K :=
  let c : Impl K × List (Event K) :=
    if flags.Clipping then setChangedClipping m env painter s else (s, [])
  let t : ChangeFlags × List (Event K) :=
    if flags.Transform then (penBrushFontHints, [Event.SetTransform painter.combinedTransform])
    else (flags, [])
  let flags1 := t.1
  let h : List (Event K) := if flags1.Hints then setChangedHints painter else []
  let p : Impl K × List (Event K) :=
    if flags1.Pen then setChangedPen env painter c.1 else (c.1, [])
  let b : Impl K × List (Event K) :=
    if flags1.Brush then setChangedBrush env painter p.1 else (p.1, [])
  let f : Outcome K :=
    if flags1.Font then setChangedFont env painter b.1
    else { impl := b.1, events := [], raised := false }
  { impl := f.impl, events := c.2 ++ t.2 ++ h ++ p.2 ++ b.2 ++ f.events, raised := f.raised }

/-- The flag value `Clipping | Transform | Pen | Brush | Font | Hints` passed by `init`. -/
def initFlags : ChangeFlags :=
  { Clipping := true, Transform := true, Pen := true, Brush := true, Font := true,
    Hints := true, Shadow := false }

/-- The source's `WRasterImage::init`. -/
def init (m : Libm K) (env : Env) (painter : WPainter K) (s : Impl K) : Outcome K :=
  if s.w_ = 0 ∨ s.h_ = 0 then
    { impl := s, events := [], raised := true }
  else
    let b := s.beginDraw
    let r := setChanged m env painter initFlags b.1
    { impl := r.impl, events := b.2 ++ r.events, raised := r.raised }

/-- The source's `WRasterImage::done`. -/
def done (env : Env) (s : Impl K) : Impl K × List (Event K) :=
  let e := s.endDraw env.endDrawOk
  (e.1, (if s.clipLayerActive_ then [Event.PopLayer] else []) ++ e.2)

end SetChanged

/-! ## `drawArc` -/

section DrawArc

variable {K : Type} [LinearOrderedField K]

/-- What `drawArc` reads from its `WRectF`: `center()`, `width()` and `height()`. -/
structure WRectF (K : Type) where
  center : Point K
  width : K
  height : K

/-- The sink calls of `WRasterImage::drawArc`, from the computation of the three
points to `sink->Close()`. -/
def drawArcSink (m : Libm K) (brushStyle : BrushStyle) (rect : WRectF K)
    (startAngle spanAngle : K) : List (SinkCall K) :=
  let cx := rect.center.x
  let cy := rect.center.y
  let rx := rect.width / 2
  let ry := rect.height / 2
  let startAngleRad := startAngle / 180 * m.M_PI
  let spanAngleRad := sweepAngleRad m spanAngle
  let midAngle := startAngleRad + spanAngleRad / 2
  let endAngle := startAngleRad + spanAngleRad
  let startPoint : Point K :=
    ⟨m.cos (-startAngleRad) * rx + cx, m.sin (-startAngleRad) * ry + cy⟩
  let midPoint : Point K := ⟨m.cos (-midAngle) * rx + cx, m.sin (-midAngle) * ry + cy⟩
  let endPoint : Point K := ⟨m.cos (-endAngle) * rx + cx, m.sin (-endAngle) * ry + cy⟩
  let arc1 : ArcSegment K :=
    ⟨midPoint, ⟨rx, ry⟩, 0, SweepDirection.COUNTER_CLOCKWISE, ArcSize.SMALL⟩
  let arc2 : ArcSegment K :=
    ⟨endPoint, ⟨rx, ry⟩, 0, SweepDirection.COUNTER_CLOCKWISE, ArcSize.SMALL⟩
  [SinkCall.BeginFigure startPoint
     (if brushStyle ≠ BrushStyle.NoBrush then FigureBegin.FILLED else FigureBegin.HOLLOW),
   SinkCall.AddArc arc1, SinkCall.AddArc arc2,
   SinkCall.EndFigure FigureEnd.END_OPEN, SinkCall.Close]

/-- The source's `WRasterImage::drawArc`. -/
def drawArc (m : Libm K) (env : Env) (painter : WPainter K) (rect : WRectF K)
    (startAngle spanAngle : K) (s : Impl K) : List (Event K) :=
  let path := env.pathGeometry
  [Event.CreatePathGeometry path,
   Event.ArcPath path (drawArcSink m painter.brush.style rect startAngle spanAngle)] ++
  (if painter.brush.style ≠ BrushStyle.NoBrush then [Event.FillGeometry path s.fillBrush_]
   else []) ++
  (if painter.pen.style ≠ PenStyle.NoPen then
     [Event.DrawGeometry path s.strokeBrush_ s.lineWidth_ s.stroke_]
   else []) ++
  SafeRelease path

end DrawArc

/-! ## `drawPath` and pixel access -/

section DrawPath

variable {K : Type} [LinearOrderedField K]

/-- The source's `WRasterImage::drawPath`; `isEmpty` is `path.isEmpty()`, a
method of `WPainterPath` whose body is not part of this file and is therefore
an input. The function ends after the `DrawGeometry` call. -/
def drawPath (m : Libm K) (env : Env) (painter : WPainter K) (path : WPainterPath K)
    (isEmpty : Bool) (s : Impl K) : List (Event K) :=
  if !isEmpty then
    let p := env.pathGeometry
    [Event.CreatePathGeometry p,
     Event.PlainPath p (decide (painter.brush.style ≠ BrushStyle.NoBrush))
       (drawPlainPath m path (decide (painter.brush.style ≠ BrushStyle.NoBrush)))] ++
    (if painter.brush.style ≠ BrushStyle.NoBrush then [Event.FillGeometry p s.fillBrush_]
     else []) ++
    (if painter.pen.style ≠ PenStyle.NoPen then
       [Event.DrawGeometry p s.strokeBrush_ s.lineWidth_ s.stroke_]
     else [])
  else []

/-- One pixel of the bitmap: the four bytes `buffer[0]` to `buffer[3]`. -/
structure Pixel where
  b0 : Nat
  b1 : Nat
  b2 : Nat
  b3 : Nat
deriving DecidableEq, Repr

/-- The pixels behind `impl_->bitmap_`, a bitmap of `width` x `height` pixels of
four bytes each, as created by the constructor with `w_` and `h_`. -/
structure Bitmap where
  width : Nat
  height : Nat
  pixels : Nat → Nat → Pixel

/-- Whether the `WICRect` `{ x, y, 1, 1 }` lies inside the bitmap, which is when
`Lock` and `CopyPixels` on it succeed. -/
def Bitmap.inside (b : Bitmap) (x y : Int) : Bool :=
  decide (0 ≤ x ∧ 0 ≤ y ∧ x + 1 ≤ (b.width : Int) ∧ y + 1 ≤ (b.height : Int))

/-- The bitmap after four bytes were stored through the data pointer of a write
lock on the pixel `(x, y)`. -/
def Bitmap.write (b : Bitmap) (x y : Nat) (p : Pixel) : Bitmap :=
  { b with pixels := fun i j => if i = x ∧ j = y then p else b.pixels i j }

/-- The members of `WRasterImage` used by the pixel accessors: `painter_` (the
attached painter, if any), `impl_`, and the bitmap `impl_->bitmap_` points to
(`none` is the `NULL` left by the constructor for a zero width or height). -/
structure WRasterImage (K : Type) where
  painter_ : Option (WPainter K)
  impl_ : Impl K
  bitmap_ : Option Bitmap

/-- How a pixel write ends: normally, with the `WException` thrown by
`setPixel`, or in a call through a `NULL` pointer. -/
inductive PixelOutcome where
  | returned
  | raised (what : String)
  | nullDereference
deriving DecidableEq, Repr

/-- The source's `WRasterImage::setPixel`: the device afterwards and how the
call ended. `buffer[k] = c.red()` stores the value as a `BYTE`, i.e. modulo 256.
A failed `Lock` (no bitmap, or a rectangle outside it) leaves `lock` `NULL`,
and `lock->GetDataPointer` is then a call through `NULL`. -/
def setPixel (d : WRasterImage K) (x y : Int) (c : WColor) :
    WRasterImage K × PixelOutcome :=
  if d.painter_.isSome then
    (d, PixelOutcome.raised
      "WRasterImage::setPixel(): cannot be used while a painter is active")
  else
    match d.bitmap_ with
    | none => (d, PixelOutcome.nullDereference)
    | some b =>
      if b.inside x y then
        ({ d with bitmap_ := some (b.write x.toNat y.toNat
              ⟨c.red % 256, c.green % 256, c.blue % 256, c.alpha % 256⟩) },
         PixelOutcome.returned)
      else (d, PixelOutcome.nullDereference)

/-- The source's `WRasterImage::getPixel`: the colour returned (`none` when
`impl_->bitmap_` is `NULL`) and the calls made. A failed `CopyPixels` is logged
and leaves `data` at `{ 0, 0, 0, 0 }`. The device state is not changed. -/
def getPixel (env : Env) (d : WRasterImage K) (x y : Int) :
    Option WColor × List (Event K) :=
  let suspended := d.impl_.suspendDraw env.endDrawOk
  match d.bitmap_ with
  | none => (none, suspended.2)
  | some b =>
    let resumed := suspended.1.resumeDraw
    if b.inside x y then
      let data := b.pixels x.toNat y.toNat
      (some ⟨data.b0, data.b1, data.b2, data.b3⟩, suspended.2 ++ resumed.2)
    else
      (some ⟨0, 0, 0, 0⟩,
       suspended.2 ++ [Event.LogError "D2D error when getting pixel"] ++ resumed.2)

end DrawPath

/-! ## Vocabulary of the statements -/

section Vocabulary

variable {K : Type}

/-- One call of the session interface; `endDraw` carries the `HRESULT` outcome
of the renderer's `EndDraw`, should that call reach the renderer. -/
inductive SessionOp where
  | beginDraw
  | endDraw (hrOk : Bool)
deriving DecidableEq, Repr

/-- Whether the call is `beginDraw`. -/
def SessionOp.isBegin : SessionOp → Bool
  | SessionOp.beginDraw => true
  | SessionOp.endDraw _ => false

/-- Whether the call is `endDraw`. -/
def SessionOp.isEnd : SessionOp → Bool
  | SessionOp.beginDraw => false
  | SessionOp.endDraw _ => true

/-- Run one session call on the device. -/
def SessionOp.apply (op : SessionOp) (s : Impl K) : Impl K × List (Event K) :=
  match op with
  | SessionOp.beginDraw => s.beginDraw
  | SessionOp.endDraw hrOk => s.endDraw hrOk

/-- Run a sequence of session calls: the final state and the whole call trace. -/
def runSession : List SessionOp → Impl K → Impl K × List (Event K)
  | [], s => (s, [])
  | op :: rest, s =>
    let r := op.apply s
    let q := runSession rest r.1
    (q.1, r.2 ++ q.2)

/-- Number of `beginDraw` calls in a sequence. -/
def begins (ops : List SessionOp) : Nat := ops.countP SessionOp.isBegin

/-- Number of `endDraw` calls in a sequence. -/
def ends (ops : List SessionOp) : Nat := ops.countP SessionOp.isEnd

/-- The renderer's frame calls. -/
inductive FrameCall where
  | BeginDraw
  | EndDraw
deriving DecidableEq, Repr

/-- The frame call an event is, if it is one. -/
def frameCall : Event K → Option FrameCall
  | Event.BeginDraw => some FrameCall.BeginDraw
  | Event.EndDraw => some FrameCall.EndDraw
  | _ => none

/-- The frame calls of a trace, in order. -/
def frameCalls (es : List (Event K)) : List FrameCall := es.filterMap frameCall

/-- Whether a trace leaves a frame open, given whether one was open before:
the last `BeginDraw` / `EndDraw` decides. -/
def frameOpenAfter : Bool → List (Event K) → Bool
  | b, [] => b
  | _, Event.BeginDraw :: rest => frameOpenAfter true rest
  | _, Event.EndDraw :: rest => frameOpenAfter false rest
  | b, _ :: rest => frameOpenAfter b rest

/-- The renderer's layer calls. -/
inductive LayerCall where
  | PushLayer (geometry : Handle) (layer : Handle)
  | PopLayer
deriving DecidableEq, Repr

/-- The layer call an event is, if it is one. -/
def layerCall : Event K → Option LayerCall
  | Event.PushLayer g l => some (LayerCall.PushLayer g l)
  | Event.PopLayer => some LayerCall.PopLayer
  | _ => none

/-- The layer calls of a trace, in order. -/
def layerCalls (es : List (Event K)) : List LayerCall := es.filterMap layerCall

/-- Whether a layer call is a push. -/
def LayerCall.isPush : LayerCall → Bool
  | LayerCall.PushLayer _ _ => true
  | LayerCall.PopLayer => false

/-- Whether a layer call is a pop. -/
def LayerCall.isPop : LayerCall → Bool
  | LayerCall.PushLayer _ _ => false
  | LayerCall.PopLayer => true

/-- Net number of clip layers pushed by a trace: `PushLayer` calls minus
`PopLayer` calls. -/
def layerDelta (es : List (Event K)) : Int :=
  ((layerCalls es).countP LayerCall.isPush : Int) - ((layerCalls es).countP LayerCall.isPop : Int)

/-- The flag value `Clipping` alone. -/
def clippingOnly : ChangeFlags :=
  { Clipping := true, Transform := false, Pen := false, Brush := false, Font := false,
    Hints := false, Shadow := false }

/-- The flag value `Brush` alone. -/
def brushOnly : ChangeFlags :=
  { Clipping := false, Transform := false, Pen := false, Brush := true, Font := false,
    Hints := false, Shadow := false }

/-- An environment in which every call succeeds, the created objects being
numbered from `n`, and every font family is found. -/
def Env.allOk (n : Nat) : Env :=
  { endDrawOk := true, pathGeometry := some n, layer := some (n + 1),
    strokeStyle := some (n + 2), solidColorBrush := some (n + 3),
    gradientStopCollection := some (n + 4), gradientBrush := some (n + 5),
    systemFontCollectionOk := true, findFamilyName := fun _ => true,
    textFormat := some (n + 6), matchingFont := some (n + 7) }

/-- A sample painter: identity transforms, a solid black pen of width 1, a
solid red brush, and as clip path the rectangle (0,0)-(10,10). -/
def samplePainter (K : Type) [LinearOrderedField K] (hasClipping : Bool) : WPainter K :=
  { hasClipping := hasClipping,
    clipPath :=
      { segments := [⟨SegmentType.MoveTo, 0, 0⟩, ⟨SegmentType.LineTo, 10, 0⟩,
                     ⟨SegmentType.LineTo, 10, 10⟩, ⟨SegmentType.LineTo, 0, 10⟩,
                     ⟨SegmentType.LineTo, 0, 0⟩],
        positionAtSegment := fun _ => ⟨0, 0⟩ },
    clipPathTransform := ⟨1, 0, 0, 1, 0, 0⟩,
    combinedTransform := ⟨1, 0, 0, 1, 0, 0⟩,
    antialiasing := true,
    pen := ⟨PenStyle.SolidLine, PenCapStyle.FlatCap, PenJoinStyle.MiterJoin, ⟨0, 0, 0, 255⟩, 1⟩,
    brush :=
      { style := BrushStyle.SolidPattern, color := ⟨255, 0, 0, 255⟩,
        gradient := ⟨GradientStyle.LinearGradient, [], (⟨0, 0⟩, ⟨1, 1⟩), ⟨0, 0⟩, ⟨0, 0⟩, 1⟩ },
    font := ⟨[], GenericFamily.Default, FontWeight.NormalWeight, 400, FontStyle.NormalStyle, 12⟩,
    normalizedPenWidth := fun w _ => w }

/-- The objects handed to the constructor of the sample device. -/
def sampleCtorEnv : CtorEnv :=
  ⟨some 1, some 2, some 3, some 4, some 5, some 6, some 7⟩

/-- The device built by `WRasterImage.new 100 100 sampleCtorEnv`. -/
def sampleDevice (K : Type) [LinearOrderedField K] : Impl K :=
  { w_ := 100, h_ := 100, drawingCount_ := 0,
    fillBrush_ := some (FillBrush.solid 1 ⟨0, 0, 0, 0⟩),
    fillBrushStyle_ := BrushStyle.SolidPattern,
    strokeBrush_ := some 2, stroke_ := some 3, lineWidth_ := 0,
    clipGeometry_ := some 4, clipLayer_ := some 5, clipLayerActive_ := false,
    textFormat_ := some 6, font_ := some 7 }

end Vocabulary

section PathVocabulary

variable {K : Type} [LinearOrderedField K]

/-- A logical path segment: the records that make up one `MoveTo`, one
`LineTo`, one cubic curve, one quadratic curve or one arc. -/
inductive PathGroup (K : Type) where
  | move (s : Segment K)
  | line (s : Segment K)
  | cubic (c1 c2 e : Segment K)
  | quad (c e : Segment K)
  | arc (c r a : Segment K)

/-- The records of a logical segment, in stored order. -/
def PathGroup.records : PathGroup K → List (Segment K)
  | PathGroup.move s => [s]
  | PathGroup.line s => [s]
  | PathGroup.cubic c1 c2 e => [c1, c2, e]
  | PathGroup.quad c e => [c, e]
  | PathGroup.arc c r a => [c, r, a]

/-- Whether the records of a logical segment carry the record kinds that belong
to it: a `CubicC1` is followed by `CubicC2` and `CubicEnd`, a `QuadC` by
`QuadEnd`, an `ArcC` by `ArcR` and `ArcAngleSweep`. -/
def PathGroup.valid : PathGroup K → Bool
  | PathGroup.move s => decide (s.type = SegmentType.MoveTo)
  | PathGroup.line s => decide (s.type = SegmentType.LineTo)
  | PathGroup.cubic c1 c2 e =>
    decide (c1.type = SegmentType.CubicC1) && decide (c2.type = SegmentType.CubicC2) &&
      decide (e.type = SegmentType.CubicEnd)
  | PathGroup.quad c e =>
    decide (c.type = SegmentType.QuadC) && decide (e.type = SegmentType.QuadEnd)
  | PathGroup.arc c r a =>
    decide (c.type = SegmentType.ArcC) && decide (r.type = SegmentType.ArcR) &&
      decide (a.type = SegmentType.ArcAngleSweep)

/-- Whether a logical segment is a `MoveTo`. -/
def PathGroup.isMove : PathGroup K → Bool
  | PathGroup.move _ => true
  | _ => false

/-- Logical segments paired with the index of their first record, the first
one being at index `i`. -/
def indexGroups (i : Nat) : List (PathGroup K) → List (Nat × PathGroup K)
  | [] => []
  | g :: gs => (i, g) :: indexGroups (i + g.records.length) gs

/-- The drawing primitives of one logical segment whose first record has index
`ig.1`: none for a `MoveTo`, one `AddLine`, one `AddBezier`, one
`AddQuadraticBezier`, or the calls of the arc case. -/
def groupCalls (m : Libm K) (path : WPainterPath K) (ig : Nat × PathGroup K) :
    List (SinkCall K) :=
  match ig.2 with
  | PathGroup.move _ => []
  | PathGroup.line s => [SinkCall.AddLine ⟨s.x, s.y⟩]
  | PathGroup.cubic c1 c2 e => [SinkCall.AddBezier ⟨c1.x, c1.y⟩ ⟨c2.x, c2.y⟩ ⟨e.x, e.y⟩]
  | PathGroup.quad c e => [SinkCall.AddQuadraticBezier ⟨c.x, c.y⟩ ⟨e.x, e.y⟩]
  | PathGroup.arc c r a => arcSegmentCalls m (path.positionAtSegment ig.1) c r a

/-- The sub-figures of a sequence of logical segments: every maximal run of
consecutive segments other than `MoveTo`, paired with the point of the last
`MoveTo` before the run (`p0` if there is none). -/
def figures (p0 : Point K) :
    List (Nat × PathGroup K) → List (Point K × List (Nat × PathGroup K))
  | [] => []
  | x :: l =>
    match x.2 with
    | PathGroup.move s => figures ⟨s.x, s.y⟩ l
    | _ =>
      (p0, x :: l.takeWhile (fun y => !y.2.isMove)) ::
        figures p0 (l.dropWhile (fun y => !y.2.isMove))
termination_by l => l.length
decreasing_by
  all_goals simp_wf
  all_goals
    have h := (List.dropWhile_sublist (fun y : Nat × PathGroup K => !y.2.isMove) (l := l)).length_le
    omega

/-- The sink calls of one sub-figure: `BeginFigure` at its start point, its
drawing primitives, `EndFigure(END_OPEN)`. -/
def figureCalls (m : Libm K) (path : WPainterPath K) (filled : Bool)
    (f : Point K × List (Nat × PathGroup K)) : List (SinkCall K) :=
  [SinkCall.BeginFigure f.1 (if filled then FigureBegin.FILLED else FigureBegin.HOLLOW)] ++
    f.2.flatMap (groupCalls m path) ++ [SinkCall.EndFigure FigureEnd.END_OPEN]

/-- Whether a sink call is a drawing primitive (line, curve or arc). -/
def SinkCall.isPrimitive : SinkCall K → Bool
  | SinkCall.AddLine _ => true
  | SinkCall.AddBezier _ _ _ => true
  | SinkCall.AddQuadraticBezier _ _ => true
  | SinkCall.AddArc _ => true
  | _ => false

/-- Whether a sink call is `BeginFigure`. -/
def SinkCall.isBeginFigure : SinkCall K → Bool
  | SinkCall.BeginFigure _ _ => true
  | _ => false

/-- Whether a sink call is `EndFigure`. -/
def SinkCall.isEndFigure : SinkCall K → Bool
  | SinkCall.EndFigure _ => true
  | _ => false

/-- The sink calls that remain to be made from a position of the record
sequence, given whether a figure is open there. -/
def remainingCalls (m : Libm K) (path : WPainterPath K) (filled : Bool) (started : Bool)
    (p0 : Point K) (l : List (Nat × PathGroup K)) : List (SinkCall K) :=
  if started then
    (l.takeWhile (fun y => !y.2.isMove)).flatMap (groupCalls m path) ++
      [SinkCall.EndFigure FigureEnd.END_OPEN] ++
      (figures p0 (l.dropWhile (fun y => !y.2.isMove))).flatMap (figureCalls m path filled)
  else (figures p0 l).flatMap (figureCalls m path filled)

/-- A sample path as logical segments: two lines from (0,0), two `MoveTo`s in
a row, then a cubic, a quadratic and a half-circle arc around the origin. -/
def sampleGroups (K : Type) [LinearOrderedField K] : List (PathGroup K) :=
  [PathGroup.move ⟨SegmentType.MoveTo, 0, 0⟩,
   PathGroup.line ⟨SegmentType.LineTo, 10, 0⟩,
   PathGroup.line ⟨SegmentType.LineTo, 10, 10⟩,
   PathGroup.move ⟨SegmentType.MoveTo, 20, 20⟩,
   PathGroup.move ⟨SegmentType.MoveTo, 30, 30⟩,
   PathGroup.cubic ⟨SegmentType.CubicC1, 1, 1⟩ ⟨SegmentType.CubicC2, 2, 2⟩
     ⟨SegmentType.CubicEnd, 3, 3⟩,
   PathGroup.quad ⟨SegmentType.QuadC, 4, 4⟩ ⟨SegmentType.QuadEnd, 5, 5⟩,
   PathGroup.arc ⟨SegmentType.ArcC, 0, 0⟩ ⟨SegmentType.ArcR, 10, 10⟩
     ⟨SegmentType.ArcAngleSweep, 0, 180⟩]

/-- The sample path as the device receives it; the position before the arc
record (index 10) is the end point (5,5) of the quadratic curve. -/
def samplePath (K : Type) [LinearOrderedField K] : WPainterPath K :=
  { segments :=
      [⟨SegmentType.MoveTo, 0, 0⟩, ⟨SegmentType.LineTo, 10, 0⟩, ⟨SegmentType.LineTo, 10, 10⟩,
       ⟨SegmentType.MoveTo, 20, 20⟩, ⟨SegmentType.MoveTo, 30, 30⟩,
       ⟨SegmentType.CubicC1, 1, 1⟩, ⟨SegmentType.CubicC2, 2, 2⟩, ⟨SegmentType.CubicEnd, 3, 3⟩,
       ⟨SegmentType.QuadC, 4, 4⟩, ⟨SegmentType.QuadEnd, 5, 5⟩,
       ⟨SegmentType.ArcC, 0, 0⟩, ⟨SegmentType.ArcR, 10, 10⟩,
       ⟨SegmentType.ArcAngleSweep, 0, 180⟩],
    positionAtSegment := fun _ => ⟨5, 5⟩ }

/-- Degrees to radians: `deg / 180 * M_PI`. -/
def radians (m : Libm K) (deg : K) : K := deg / 180 * m.M_PI

/-- The point `P(t) = (cx + rx * cos(-t), cy + ry * sin(-t))` of the ellipse with
centre `(cx, cy)` and radii `(rx, ry)` at angle `t` in radians. -/
def arcPoint (m : Libm K) (cx cy rx ry t : K) : Point K :=
  ⟨cx + rx * m.cos (-t), cy + ry * m.sin (-t)⟩

/-- The gradient brush creation call of the brush block, by gradient style. -/
def gradientCreateEvent (env : Env) (gradient : WGradient K) : Event K :=
  match gradient.style with
  | GradientStyle.LinearGradient =>
    Event.CreateLinearGradientBrush gradient.linearGradientVector.1
      gradient.linearGradientVector.2 env.gradientStopCollection env.gradientBrush
  | GradientStyle.RadialGradient =>
    Event.CreateRadialGradientBrush gradient.radialCenterPoint
      ⟨gradient.radialFocalPoint.x - gradient.radialCenterPoint.x,
       gradient.radialFocalPoint.y - gradient.radialCenterPoint.y⟩
      gradient.radialRadius env.gradientStopCollection env.gradientBrush

/-- The gradient brush object created by the brush block, by gradient style. -/
def gradientBrushOf (gradient : WGradient K) (id : Nat) : FillBrush K :=
  match gradient.style with
  | GradientStyle.LinearGradient => FillBrush.linear id
  | GradientStyle.RadialGradient => FillBrush.radial id

/-- The sample painter with a solid brush of the given colour. -/
def solidPainter (K : Type) [LinearOrderedField K] (color : WColor) : WPainter K :=
  { samplePainter K false with
    brush := { (samplePainter K false).brush with
      style := BrushStyle.SolidPattern, color := color } }

/-- The sample painter with a linear gradient brush from black to white. -/
def gradientPainter (K : Type) [LinearOrderedField K] : WPainter K :=
  { samplePainter K false with
    brush :=
      { style := BrushStyle.GradientPattern, color := ⟨0, 0, 0, 255⟩,
        gradient := ⟨GradientStyle.LinearGradient, [(0, ⟨0, 0, 0, 255⟩), (1, ⟨255, 255, 255, 255⟩)],
          (⟨0, 0⟩, ⟨1, 1⟩), ⟨0, 0⟩, ⟨0, 0⟩, 1⟩ } }

end PathVocabulary

section DeviceVocabulary

variable {K : Type} [LinearOrderedField K]

/-- The flag value `Pen` alone. -/
def penOnly : ChangeFlags :=
  { Clipping := false, Transform := false, Pen := true, Brush := false, Font := false,
    Hints := false, Shadow := false }

/-- The error messages logged in a trace, in order. -/
def errorLogs : List (Event K) → List String
  | [] => []
  | Event.LogError msg :: rest => msg :: errorLogs rest
  | _ :: rest => errorLogs rest

/-- The objects released in a trace, in order. -/
def releasedHandles : List (Event K) → List Nat
  | [] => []
  | Event.Release n :: rest => n :: releasedHandles rest
  | _ :: rest => releasedHandles rest

/-- The path geometries created in a trace, in order. -/
def createdGeometries : List (Event K) → List Nat
  | [] => []
  | Event.CreatePathGeometry (some n) :: rest => n :: createdGeometries rest
  | _ :: rest => createdGeometries rest

/-- Whether an event is the creation of a fill brush (solid, linear or radial). -/
def Event.isFillCreate : Event K → Bool
  | Event.CreateSolidColorBrush _ _ => true
  | Event.CreateLinearGradientBrush _ _ _ _ => true
  | Event.CreateRadialGradientBrush _ _ _ _ _ => true
  | _ => false

/-- Whether a trace creates a fill brush. -/
def recreatesFill (es : List (Event K)) : Bool := es.any Event.isFillCreate

/-- The targets of the in-place `SetColor` calls on the fill brush in a trace. -/
def fillSetColorTargets : List (Event K) → List (Option (FillBrush K))
  | [] => []
  | Event.FillSetColor b _ :: rest => b :: fillSetColorTargets rest
  | _ :: rest => fillSetColorTargets rest

/-- Whether a fill brush pointer refers to a solid colour brush. -/
def isSolidBrush : Option (FillBrush K) → Bool
  | some (FillBrush.solid _ _) => true
  | _ => false

/-- Whether a fill brush pointer refers to a gradient brush. -/
def isGradientBrush : Option (FillBrush K) → Bool
  | some (FillBrush.linear _) => true
  | some (FillBrush.radial _) => true
  | _ => false

/-- The device state after a sequence of `setChanged(Brush)` calls, each with
its environment and painter. -/
def applyBrushes (m : Libm K) : List (Env × WPainter K) → Impl K → Impl K
  | [], s => s
  | (env, painter) :: rest, s => applyBrushes m rest (setChanged m env painter brushOnly s).impl

/-- The kind of the last brush other than `NoBrush` in a sequence of brush
kinds, `k` if there is none. -/
def lastAppliedKind (k : BrushStyle) : List BrushStyle → BrushStyle
  | [] => k
  | b :: rest => lastAppliedKind (if b = BrushStyle.NoBrush then k else b) rest

/-- A sample image of 100 x 100 transparent black pixels on the sample device,
with or without a painter attached. -/
def sampleImage (K : Type) [LinearOrderedField K] (painted : Bool) : WRasterImage K :=
  { painter_ := if painted then some (samplePainter K false) else none,
    impl_ := sampleDevice K,
    bitmap_ := some ⟨100, 100, fun _ _ => ⟨0, 0, 0, 0⟩⟩ }

/-- Whether the first record of a logical segment carries the record kind that
starts such a segment (`MoveTo`, `LineTo`, `CubicC1`, `QuadC`, `ArcC`); the
kinds of the records that follow it in the segment are not looked at, as in
the loop of `drawPlainPath`. -/
def PathGroup.headValid : PathGroup K → Bool
  | PathGroup.move s => decide (s.type = SegmentType.MoveTo)
  | PathGroup.line s => decide (s.type = SegmentType.LineTo)
  | PathGroup.cubic c1 _ _ => decide (c1.type = SegmentType.CubicC1)
  | PathGroup.quad c _ => decide (c.type = SegmentType.QuadC)
  | PathGroup.arc c _ _ => decide (c.type = SegmentType.ArcC)

/-- The first record of a logical segment. -/
def PathGroup.head : PathGroup K → Segment K
  | PathGroup.move s => s
  | PathGroup.line s => s
  | PathGroup.cubic c1 _ _ => c1
  | PathGroup.quad c _ => c
  | PathGroup.arc c _ _ => c

/-- The coordinates of the last record of kind `MoveTo` among the first `j`
records, `(0, 0)` if there is none. -/
def lastMoveTo (segs : List (Segment K)) (j : Nat) : Point K :=
  match ((segs.take j).filter (fun s => decide (s.type = SegmentType.MoveTo))).getLast? with
  | some s => ⟨s.x, s.y⟩
  | none => ⟨0, 0⟩

end DeviceVocabulary

/-! ## Theorems -/

section SessionTheorems

variable {K : Type}

theorem runSession_append (a b : List SessionOp) (s : Impl K) :
    runSession (a ++ b) s =
      ((runSession b (runSession a s).1).1, (runSession a s).2 ++ (runSession b (runSession a s).1).2) := by
  induction a generalizing s with
  | nil => simp [runSession]
  | cons op rest ih => simp [runSession, ih, List.append_assoc]

theorem runSession_count (ops : List SessionOp) (s : Impl K) :
    (runSession ops s).1.drawingCount_ = s.drawingCount_ + (begins ops : Int) - (ends ops : Int) := by
  induction ops generalizing s with
  | nil => simp [runSession, begins, ends]
  | cons op rest ih =>
    cases op with
    | beginDraw =>
      simp only [runSession, ih, SessionOp.apply, Impl.beginDraw, begins, ends,
        List.countP_cons, SessionOp.isBegin, SessionOp.isEnd]
      split <;> simp <;> ring
    | endDraw ok =>
      simp only [runSession, ih, SessionOp.apply, Impl.endDraw, begins, ends,
        List.countP_cons, SessionOp.isBegin, SessionOp.isEnd]
      split <;> simp <;> ring

theorem begins_cons (op : SessionOp) (ops : List SessionOp) :
    begins (op :: ops) = begins ops + (if op.isBegin then 1 else 0) := by
  simp [begins, List.countP_cons]

theorem ends_cons (op : SessionOp) (ops : List SessionOp) :
    ends (op :: ops) = ends ops + (if op.isEnd then 1 else 0) := by
  simp [ends, List.countP_cons]

theorem frameCalls_append (a b : List (Event K)) :
    frameCalls (a ++ b) = frameCalls a ++ frameCalls b := by
  simp [frameCalls, List.filterMap_append]

theorem frameCalls_alternate (ops : List SessionOp) (s : Impl K) (hc : 0 ≤ s.drawingCount_)
    (hbal : ∀ k ≤ ops.length, (ends (ops.take k) : Int) ≤ s.drawingCount_ + begins (ops.take k)) :
    List.Chain' (fun a b => a ≠ b) (frameCalls (runSession ops s).2) ∧
    ∀ c, (frameCalls (runSession ops s).2).head? = some c →
      c = if s.drawingCount_ = 0 then FrameCall.BeginDraw else FrameCall.EndDraw := by
  induction ops generalizing s with
  | nil => simp [runSession, frameCalls]
  | cons op rest ih =>
    have h1 := hbal 1 (by simp)
    cases op with
    | beginDraw =>
      have hb : ∀ k ≤ rest.length, (ends (rest.take k) : Int) ≤
          (s.drawingCount_ + 1) + begins (rest.take k) := by
        intro k hk
        have := hbal (k + 1) (by simpa using hk)
        simp only [List.take_succ_cons, begins_cons, ends_cons, SessionOp.isBegin,
          SessionOp.isEnd] at this
        push_cast at this
        simp at this
        linarith
      have ih1 := ih { s with drawingCount_ := s.drawingCount_ + 1 } (by simp; linarith) hb
      simp only [runSession, SessionOp.apply, Impl.beginDraw]
      by_cases h0 : s.drawingCount_ = 0
      · simp only [h0, zero_add, if_true] at ih1 ⊢
        simp only [frameCalls_append]
        have hne : ¬ ((1 : Int) = 0) := by decide
        simp only [hne, if_false] at ih1
        refine ⟨?_, by simp [frameCalls, frameCall]⟩
        simp only [frameCalls, List.filterMap_cons, frameCall, List.filterMap_nil,
          List.singleton_append]
        rw [List.chain'_cons']
        refine ⟨?_, ih1.1⟩
        intro y hy
        have := ih1.2 y (by simpa [frameCalls] using hy)
        simp [this]
      · have h1n : ¬ (s.drawingCount_ + 1 = 1) := by omega
        have h1z : ¬ (s.drawingCount_ + 1 = 0) := by omega
        simp only [h1n, if_false, h0, List.nil_append] at ih1 ⊢
        simp only [h1z, if_false] at ih1
        exact ih1
    | endDraw ok =>
      have hpos : 1 ≤ s.drawingCount_ := by
        simp [ends, begins, SessionOp.isEnd, SessionOp.isBegin] at h1
        linarith
      have hb : ∀ k ≤ rest.length, (ends (rest.take k) : Int) ≤
          (s.drawingCount_ - 1) + begins (rest.take k) := by
        intro k hk
        have := hbal (k + 1) (by simpa using hk)
        simp only [List.take_succ_cons, begins_cons, ends_cons, SessionOp.isBegin,
          SessionOp.isEnd] at this
        push_cast at this
        simp at this
        linarith
      have ih1 := ih { s with drawingCount_ := s.drawingCount_ - 1 } (by simp; linarith) hb
      simp only [runSession, SessionOp.apply, Impl.endDraw]
      have h0 : ¬ (s.drawingCount_ = 0) := by omega
      by_cases h1c : s.drawingCount_ = 1
      · simp only [h1c, sub_self, if_true] at ih1 ⊢
        simp only [frameCalls_append]
        have hne : ¬ ((1 : Int) = 0) := by decide
        simp only [hne, if_false]
        have hf : frameCalls (Event.EndDraw ::
            (if ok = true then [] else [Event.LogError "D2D error during drawing"]) : List (Event K))
            = [FrameCall.EndDraw] := by
          cases ok <;> simp [frameCalls, frameCall]
        rw [hf]
        refine ⟨?_, by simp⟩
        rw [List.singleton_append, List.chain'_cons']
        refine ⟨?_, ih1.1⟩
        intro y hy
        have := ih1.2 y (by simpa [frameCalls] using hy)
        simp [this]
      · have h1z : ¬ (s.drawingCount_ - 1 = 0) := by omega
        simp only [h1z, if_false, h0, List.nil_append] at ih1 ⊢
        exact ih1

/-- C1: from `drawingCount_ = 0`, along any sequence of `beginDraw` / `endDraw`
calls no prefix of which has more `endDraw` than `beginDraw` calls, the counter
after every call is the number of `beginDraw` minus the number of `endDraw`
calls so far and is not negative; a call issues the renderer's `BeginDraw`
exactly when it is a `beginDraw` taking the counter from 0 to 1, the renderer's
`EndDraw` exactly when it is an `endDraw` taking it from 1 to 0, and no frame
call otherwise; the frame calls of the whole run alternate, starting with
`BeginDraw`. -/
theorem session_counter_and_frame_pairing (s0 : Impl K) (ops : List SessionOp)
    (h0 : s0.drawingCount_ = 0)
    (hbal : ∀ k ≤ ops.length, ends (ops.take k) ≤ begins (ops.take k)) :
    (∀ k ≤ ops.length,
      (runSession (ops.take k) s0).1.drawingCount_
          = (begins (ops.take k) : Int) - (ends (ops.take k) : Int) ∧
      0 ≤ (runSession (ops.take k) s0).1.drawingCount_) ∧
    (∀ k (hk : k < ops.length),
      (frameCalls ((ops.get ⟨k, hk⟩).apply (runSession (ops.take k) s0).1).2
          = [FrameCall.BeginDraw] ↔
        ((ops.get ⟨k, hk⟩).isBegin = true ∧
         (runSession (ops.take k) s0).1.drawingCount_ = 0 ∧
         ((ops.get ⟨k, hk⟩).apply (runSession (ops.take k) s0).1).1.drawingCount_ = 1)) ∧
      (frameCalls ((ops.get ⟨k, hk⟩).apply (runSession (ops.take k) s0).1).2
          = [FrameCall.EndDraw] ↔
        ((ops.get ⟨k, hk⟩).isEnd = true ∧
         (runSession (ops.take k) s0).1.drawingCount_ = 1 ∧
         ((ops.get ⟨k, hk⟩).apply (runSession (ops.take k) s0).1).1.drawingCount_ = 0)) ∧
      (frameCalls ((ops.get ⟨k, hk⟩).apply (runSession (ops.take k) s0).1).2 = [] ∨
       frameCalls ((ops.get ⟨k, hk⟩).apply (runSession (ops.take k) s0).1).2
          = [FrameCall.BeginDraw] ∨
       frameCalls ((ops.get ⟨k, hk⟩).apply (runSession (ops.take k) s0).1).2
          = [FrameCall.EndDraw])) ∧
    (List.Chain' (fun a b => a ≠ b) (frameCalls (runSession ops s0).2) ∧
      ∀ c, (frameCalls (runSession ops s0).2).head? = some c → c = FrameCall.BeginDraw) := by
  refine ⟨?_, ?_, ?_⟩
  · intro k hk
    have hc := runSession_count (ops.take k) s0
    have hb := hbal k hk
    rw [h0] at hc
    constructor
    · rw [hc]; ring
    · rw [hc]
      have : (ends (ops.take k) : Int) ≤ (begins (ops.take k) : Int) := by exact_mod_cast hb
      linarith
  · intro k hk
    generalize (runSession (ops.take k) s0).1 = before
    generalize ops.get ⟨k, hk⟩ = op
    cases op with
    | beginDraw =>
      simp only [SessionOp.apply, Impl.beginDraw, SessionOp.isBegin, SessionOp.isEnd]
      by_cases hz : before.drawingCount_ = 0
      · simp [hz, frameCalls, frameCall]
      · have h1 : ¬ (before.drawingCount_ + 1 = 1) := by omega
        simp [hz, h1, frameCalls]
    | endDraw ok =>
      simp only [SessionOp.apply, Impl.endDraw, SessionOp.isBegin, SessionOp.isEnd]
      by_cases hz : before.drawingCount_ = 1
      · cases ok <;> simp [hz, frameCalls, frameCall]
      · have h1 : ¬ (before.drawingCount_ - 1 = 0) := by omega
        simp [hz, h1, frameCalls]
  · have h := frameCalls_alternate ops s0 (by rw [h0]) (by
      intro k hk
      have hb := hbal k hk
      rw [h0]
      have : (ends (ops.take k) : Int) ≤ (begins (ops.take k) : Int) := by exact_mod_cast hb
      linarith)
    refine ⟨h.1, ?_⟩
    intro c hcs
    have := h.2 c hcs
    simpa [h0] using this

/-- C1 at a concrete run: two nested sessions on a new `Impl`, the second
`EndDraw` failing. -/
theorem session_counter_and_frame_pairing_witness :
    (Impl.initial : Impl ℚ).drawingCount_ = 0 ∧
    (∀ k ≤ [SessionOp.beginDraw, SessionOp.beginDraw, SessionOp.endDraw true,
              SessionOp.endDraw false].length,
      ends ([SessionOp.beginDraw, SessionOp.beginDraw, SessionOp.endDraw true,
              SessionOp.endDraw false].take k) ≤
      begins ([SessionOp.beginDraw, SessionOp.beginDraw, SessionOp.endDraw true,
              SessionOp.endDraw false].take k)) ∧
    (runSession [SessionOp.beginDraw, SessionOp.beginDraw, SessionOp.endDraw true,
        SessionOp.endDraw false] (Impl.initial : Impl ℚ)).1.drawingCount_ = 0 ∧
    List.Chain' (fun a b => a ≠ b)
      (frameCalls (runSession [SessionOp.beginDraw, SessionOp.beginDraw, SessionOp.endDraw true,
        SessionOp.endDraw false] (Impl.initial : Impl ℚ)).2) :=
  have h0 : (Impl.initial : Impl ℚ).drawingCount_ = 0 := rfl
  have hbal : ∀ k ≤ [SessionOp.beginDraw, SessionOp.beginDraw, SessionOp.endDraw true,
              SessionOp.endDraw false].length,
      ends ([SessionOp.beginDraw, SessionOp.beginDraw, SessionOp.endDraw true,
              SessionOp.endDraw false].take k) ≤
      begins ([SessionOp.beginDraw, SessionOp.beginDraw, SessionOp.endDraw true,
              SessionOp.endDraw false].take k) := by decide
  have h := session_counter_and_frame_pairing (Impl.initial : Impl ℚ)
    [SessionOp.beginDraw, SessionOp.beginDraw, SessionOp.endDraw true, SessionOp.endDraw false]
    h0 hbal
  ⟨h0, hbal, by simpa [begins, ends, SessionOp.isBegin, SessionOp.isEnd] using (h.1 4 (by simp)).1,
    h.2.2.1⟩

/-- C3: `suspendDraw` immediately followed by `resumeDraw` leaves the device
state, in particular `drawingCount_` and `clipLayerActive_`, unchanged; with
`drawingCount_ = 0` neither call issues anything; with `drawingCount_ >= 1` the
calls are `PopLayer` (only if `clipLayerActive_`), `EndDraw` (and an error log
if it fails), then `BeginDraw`, `PushLayer` of the clip geometry and layer
(only if `clipLayerActive_`), so the pair pushes as many layers as it pops and
leaves a frame open. -/
theorem suspend_resume_round_trip (s : Impl K) (hrOk : Bool) :
    ((s.suspendDraw hrOk).1.resumeDraw).1 = s ∧
    ((s.suspendDraw hrOk).1.resumeDraw).1.drawingCount_ = s.drawingCount_ ∧
    ((s.suspendDraw hrOk).1.resumeDraw).1.clipLayerActive_ = s.clipLayerActive_ ∧
    (s.drawingCount_ = 0 →
      (s.suspendDraw hrOk).2 = [] ∧ ((s.suspendDraw hrOk).1.resumeDraw).2 = []) ∧
    (1 ≤ s.drawingCount_ →
      (s.suspendDraw hrOk).2 =
        (if s.clipLayerActive_ then [Event.PopLayer] else []) ++ [Event.EndDraw] ++
        (if hrOk then [] else [Event.LogError "D2D error during drawing"]) ∧
      ((s.suspendDraw hrOk).1.resumeDraw).2 =
        [Event.BeginDraw] ++
        (if s.clipLayerActive_ then [Event.PushLayer s.clipGeometry_ s.clipLayer_] else []) ∧
      layerDelta ((s.suspendDraw hrOk).2) = - (if s.clipLayerActive_ then 1 else 0) ∧
      frameOpenAfter true ((s.suspendDraw hrOk).2) = false ∧
      layerDelta ((s.suspendDraw hrOk).2 ++ ((s.suspendDraw hrOk).1.resumeDraw).2) = 0 ∧
      frameOpenAfter true ((s.suspendDraw hrOk).2 ++ ((s.suspendDraw hrOk).1.resumeDraw).2)
        = true) := by
  have hs : (s.suspendDraw hrOk).1 = s := by
    unfold Impl.suspendDraw; split <;> rfl
  have hr : (s.resumeDraw).1 = s := by
    unfold Impl.resumeDraw; split <;> rfl
  rw [hs]
  refine ⟨hr, by rw [hr], by rw [hr], ?_, ?_⟩
  · intro h0
    simp [Impl.suspendDraw, Impl.resumeDraw, h0]
  · intro h1
    have hne : ¬ (s.drawingCount_ = 0) := by omega
    simp only [Impl.suspendDraw, Impl.resumeDraw, hne, if_false]
    cases hrOk <;> cases hact : s.clipLayerActive_ <;>
      simp [layerDelta, layerCalls, layerCall, LayerCall.isPush, LayerCall.isPop, frameOpenAfter]

/-- C3 at a concrete state: one open session with the clip layer pushed. -/
theorem suspend_resume_round_trip_witness :
    (1 : Int) ≤ ({ (Impl.initial : Impl ℚ) with
        drawingCount_ := 1, clipLayerActive_ := true,
        clipGeometry_ := some 4, clipLayer_ := some 5 } : Impl ℚ).drawingCount_ ∧
    (({ (Impl.initial : Impl ℚ) with
        drawingCount_ := 1, clipLayerActive_ := true,
        clipGeometry_ := some 4, clipLayer_ := some 5 } : Impl ℚ).suspendDraw true).2
      = [Event.PopLayer, Event.EndDraw] ∧
    ((({ (Impl.initial : Impl ℚ) with
        drawingCount_ := 1, clipLayerActive_ := true,
        clipGeometry_ := some 4, clipLayer_ := some 5 } : Impl ℚ).suspendDraw true).1.resumeDraw).2
      = [Event.BeginDraw, Event.PushLayer (some 4) (some 5)] :=
  have h1 : (1 : Int) ≤ ({ (Impl.initial : Impl ℚ) with
        drawingCount_ := 1, clipLayerActive_ := true,
        clipGeometry_ := some 4, clipLayer_ := some 5 } : Impl ℚ).drawingCount_ := le_refl _
  have h := (suspend_resume_round_trip ({ (Impl.initial : Impl ℚ) with
        drawingCount_ := 1, clipLayerActive_ := true,
        clipGeometry_ := some 4, clipLayer_ := some 5 } : Impl ℚ) true).2.2.2.2 h1
  ⟨h1, by simpa using h.1, by simpa using h.2.1⟩

theorem layerCalls_append (a b : List (Event K)) :
    layerCalls (a ++ b) = layerCalls a ++ layerCalls b := by
  simp [layerCalls, List.filterMap_append]

theorem layerDelta_append (a b : List (Event K)) :
    layerDelta (a ++ b) = layerDelta a + layerDelta b := by
  simp only [layerDelta, layerCalls_append, List.countP_append]
  push_cast
  ring

theorem layerDelta_of_layerCalls_nil (es : List (Event K)) (h : layerCalls es = []) :
    layerDelta es = 0 := by
  simp [layerDelta, h]

theorem layerCalls_SafeRelease (p : Handle) : layerCalls (SafeRelease p : List (Event K)) = [] := by
  cases p <;> simp [SafeRelease, layerCalls, layerCall]

end SessionTheorems

section ClipTheorems

variable {K : Type} [LinearOrderedField K]

theorem sampleDevice_constructed :
    WRasterImage.new 100 100 sampleCtorEnv = some (sampleDevice K) := by
  simp [WRasterImage.new, sampleCtorEnv, sampleDevice, Impl.initial]

theorem layerCalls_releaseFill (b : Option (FillBrush K)) :
    layerCalls (releaseFill b) = [] := by
  cases b <;> simp [releaseFill, layerCalls, layerCall]

theorem layerCalls_setChangedHints (painter : WPainter K) :
    layerCalls (setChangedHints painter) = [] := by
  unfold setChangedHints
  split <;> simp [layerCalls, layerCall]

theorem layerCalls_setChangedPen (env : Env) (painter : WPainter K) (s : Impl K) :
    layerCalls (setChangedPen env painter s).2 = [] ∧
    (setChangedPen env painter s).1.clipLayerActive_ = s.clipLayerActive_ := by
  dsimp only [setChangedPen]
  split_ifs
  · simp only [layerCalls_append, layerCalls_SafeRelease]
    simp [layerCalls, layerCall]
  · simp [layerCalls]

theorem layerCalls_setChangedBrush (env : Env) (painter : WPainter K) (s : Impl K) :
    layerCalls (setChangedBrush env painter s).2 = [] ∧
    (setChangedBrush env painter s).1.clipLayerActive_ = s.clipLayerActive_ := by
  dsimp only [setChangedBrush]
  split_ifs
  · simp only [layerCalls_append, layerCalls_releaseFill]
    simp [layerCalls, layerCall]
  · simp [layerCalls, layerCall]
  · simp only [layerCalls_append, layerCalls_releaseFill, layerCalls_SafeRelease]
    cases painter.brush.gradient.style <;> simp [layerCalls, layerCall]
  · simp [layerCalls]

theorem layerCalls_setChangedFont (env : Env) (painter : WPainter K) (s : Impl K) :
    layerCalls (setChangedFont env painter s).events = [] ∧
    (setChangedFont env painter s).impl.clipLayerActive_ = s.clipLayerActive_ := by
  dsimp only [setChangedFont]
  split_ifs <;> simp only [layerCalls_append, layerCalls_SafeRelease] <;>
    simp [layerCalls, layerCall]

theorem layerCalls_setChangedClipping (m : Libm K) (env : Env) (painter : WPainter K)
    (s : Impl K) :
    layerCalls (setChangedClipping m env painter s).2 =
      (if s.clipLayerActive_ then [LayerCall.PopLayer] else []) ++
      (if painter.hasClipping && env.pathGeometry.isSome && env.layer.isSome then
        [LayerCall.PushLayer env.pathGeometry env.layer] else []) ∧
    (setChangedClipping m env painter s).1.clipLayerActive_ = painter.hasClipping := by
  dsimp only [setChangedClipping]
  cases hact : s.clipLayerActive_ <;> cases hclip : painter.hasClipping <;>
    cases hg : env.pathGeometry <;> cases hl : env.layer <;>
    simp only [layerCalls_append, layerCalls_SafeRelease, if_true, if_false,
      Bool.false_eq_true, Option.isSome_none, Option.isSome_some, Bool.and_false,
      Bool.and_true, Bool.and_self, List.append_nil, List.nil_append, and_true, true_and] <;>
    simp [layerCalls, layerCall, hact]

theorem layerCalls_setChanged (m : Libm K) (env : Env) (painter : WPainter K)
    (flags : ChangeFlags) (s : Impl K) :
    layerCalls (setChanged m env painter flags s).events =
      (if flags.Clipping then layerCalls (setChangedClipping m env painter s).2 else []) ∧
    (setChanged m env painter flags s).impl.clipLayerActive_ =
      (if flags.Clipping then painter.hasClipping else s.clipLayerActive_) := by
  dsimp only [setChanged]
  simp only [layerCalls_append]
  constructor
  · split_ifs <;>
      simp [layerCalls_setChangedHints, layerCalls_setChangedPen, layerCalls_setChangedBrush,
        layerCalls_setChangedFont] <;>
      simp [layerCalls, layerCall]
  · split_ifs <;>
      simp [layerCalls_setChangedPen, layerCalls_setChangedBrush,
        layerCalls_setChangedFont, layerCalls_setChangedClipping]

theorem layerCalls_beginDraw (s : Impl K) :
    layerCalls (s.beginDraw).2 = [] ∧ (s.beginDraw).1.clipLayerActive_ = s.clipLayerActive_ := by
  dsimp only [Impl.beginDraw]
  split_ifs <;> simp [layerCalls, layerCall]

theorem layerCalls_endDraw (ok : Bool) (s : Impl K) :
    layerCalls (s.endDraw ok).2 = [] ∧ (s.endDraw ok).1.clipLayerActive_ = s.clipLayerActive_ := by
  dsimp only [Impl.endDraw]
  split_ifs <;> simp [layerCalls, layerCall]

theorem layerCalls_init (m : Libm K) (env : Env) (painter : WPainter K) (s : Impl K)
    (hw : s.w_ ≠ 0) (hh : s.h_ ≠ 0) :
    layerCalls (init m env painter s).events =
      (if s.clipLayerActive_ then [LayerCall.PopLayer] else []) ++
      (if painter.hasClipping && env.pathGeometry.isSome && env.layer.isSome then
        [LayerCall.PushLayer env.pathGeometry env.layer] else []) ∧
    (init m env painter s).impl.clipLayerActive_ = painter.hasClipping := by
  have hc : ¬ (s.w_ = 0 ∨ s.h_ = 0) := by simp [hw, hh]
  dsimp only [init]
  rw [if_neg hc]
  simp only [layerCalls_append, layerCalls_beginDraw, List.nil_append]
  have h := layerCalls_setChanged m env painter initFlags (s.beginDraw).1
  have h2 := layerCalls_setChangedClipping m env painter (s.beginDraw).1
  rw [h.1, h.2, h2.1, (layerCalls_beginDraw s).2]
  simp [initFlags]

theorem layerCalls_done (env : Env) (s : Impl K) :
    layerCalls (done env s).2 = (if s.clipLayerActive_ then [LayerCall.PopLayer] else []) ∧
    (done env s).1.clipLayerActive_ = s.clipLayerActive_ := by
  dsimp only [done]
  simp only [layerCalls_append, layerCalls_endDraw]
  cases s.clipLayerActive_ <;> simp [layerCalls, layerCall]

theorem size_setChanged (m : Libm K) (env : Env) (painter : WPainter K)
    (flags : ChangeFlags) (s : Impl K) :
    (setChanged m env painter flags s).impl.w_ = s.w_ ∧
    (setChanged m env painter flags s).impl.h_ = s.h_ := by
  have hc : (setChangedClipping m env painter s).1.w_ = s.w_ ∧
      (setChangedClipping m env painter s).1.h_ = s.h_ := by
    dsimp only [setChangedClipping]; split_ifs <;> simp
  have hp : ∀ t : Impl K, (setChangedPen env painter t).1.w_ = t.w_ ∧
      (setChangedPen env painter t).1.h_ = t.h_ := by
    intro t; dsimp only [setChangedPen]; split_ifs <;> simp
  have hb : ∀ t : Impl K, (setChangedBrush env painter t).1.w_ = t.w_ ∧
      (setChangedBrush env painter t).1.h_ = t.h_ := by
    intro t; dsimp only [setChangedBrush]; split_ifs <;> simp
  have hf : ∀ t : Impl K, (setChangedFont env painter t).impl.w_ = t.w_ ∧
      (setChangedFont env painter t).impl.h_ = t.h_ := by
    intro t; dsimp only [setChangedFont]; split_ifs <;> simp
  dsimp only [setChanged]
  split_ifs <;> simp [hc, hp, hb, hf]

theorem size_init (m : Libm K) (env : Env) (painter : WPainter K) (s : Impl K) :
    (init m env painter s).impl.w_ = s.w_ ∧ (init m env painter s).impl.h_ = s.h_ := by
  dsimp only [init]
  split_ifs
  · simp
  · have h := size_setChanged m env painter initFlags (s.beginDraw).1
    have hb : (s.beginDraw).1.w_ = s.w_ ∧ (s.beginDraw).1.h_ = s.h_ := by
      dsimp only [Impl.beginDraw]; split_ifs <;> simp
    simp [h, hb]

theorem size_done (env : Env) (s : Impl K) :
    (done env s).1.w_ = s.w_ ∧ (done env s).1.h_ = s.h_ := by
  dsimp only [done, Impl.endDraw]
  split_ifs <;> simp

/-- C2, evaluated on the code: on the sample device, `init()` with a painter
that has a clip path (every creation succeeding) pushes one layer and sets
`clipLayerActive_`; the following `done()` pops that layer but leaves
`clipLayerActive_` true, so the flag is set while no layer is pushed; the next
`init()` (painter without clip path) then issues a `PopLayer` although no
layer is pushed, which makes the pops outnumber the pushes. -/
theorem done_leaves_clipLayerActive_set :
    (init (⟨Real.cos, Real.sin, Real.pi⟩ : Libm ℝ) (Env.allOk 10) (samplePainter ℝ true)
        (sampleDevice ℝ)).impl.clipLayerActive_ = true ∧
    layerCalls (init (⟨Real.cos, Real.sin, Real.pi⟩ : Libm ℝ) (Env.allOk 10)
        (samplePainter ℝ true) (sampleDevice ℝ)).events
      = [LayerCall.PushLayer (some 10) (some 11)] ∧
    (done (Env.allOk 20) (init (⟨Real.cos, Real.sin, Real.pi⟩ : Libm ℝ) (Env.allOk 10)
        (samplePainter ℝ true) (sampleDevice ℝ)).impl).1.clipLayerActive_ = true ∧
    layerCalls (done (Env.allOk 20) (init (⟨Real.cos, Real.sin, Real.pi⟩ : Libm ℝ) (Env.allOk 10)
        (samplePainter ℝ true) (sampleDevice ℝ)).impl).2 = [LayerCall.PopLayer] ∧
    layerDelta
      ((init (⟨Real.cos, Real.sin, Real.pi⟩ : Libm ℝ) (Env.allOk 10) (samplePainter ℝ true)
          (sampleDevice ℝ)).events ++
       (done (Env.allOk 20) (init (⟨Real.cos, Real.sin, Real.pi⟩ : Libm ℝ) (Env.allOk 10)
          (samplePainter ℝ true) (sampleDevice ℝ)).impl).2) = 0 ∧
    layerCalls (init (⟨Real.cos, Real.sin, Real.pi⟩ : Libm ℝ) (Env.allOk 30)
        (samplePainter ℝ false)
        (done (Env.allOk 20) (init (⟨Real.cos, Real.sin, Real.pi⟩ : Libm ℝ) (Env.allOk 10)
          (samplePainter ℝ true) (sampleDevice ℝ)).impl).1).events = [LayerCall.PopLayer] := by
  have hw : (sampleDevice ℝ).w_ ≠ 0 := by simp [sampleDevice]
  have hh : (sampleDevice ℝ).h_ ≠ 0 := by simp [sampleDevice]
  have hi := layerCalls_init (⟨Real.cos, Real.sin, Real.pi⟩ : Libm ℝ) (Env.allOk 10)
    (samplePainter ℝ true) (sampleDevice ℝ) hw hh
  have hd := layerCalls_done (Env.allOk 20)
    (init (⟨Real.cos, Real.sin, Real.pi⟩ : Libm ℝ) (Env.allOk 10) (samplePainter ℝ true)
      (sampleDevice ℝ)).impl
  have hia : (init (⟨Real.cos, Real.sin, Real.pi⟩ : Libm ℝ) (Env.allOk 10) (samplePainter ℝ true)
        (sampleDevice ℝ)).impl.clipLayerActive_ = true := by
    rw [hi.2]; rfl
  have hie : layerCalls (init (⟨Real.cos, Real.sin, Real.pi⟩ : Libm ℝ) (Env.allOk 10)
        (samplePainter ℝ true) (sampleDevice ℝ)).events
      = [LayerCall.PushLayer (some 10) (some 11)] := by
    rw [hi.1]; simp [sampleDevice, samplePainter, Env.allOk]
  rw [hia] at hd
  refine ⟨hia, hie, hd.2, by simpa using hd.1, ?_, ?_⟩
  · have h1 := hd.1
    simp only [if_true] at h1
    simp [layerDelta, layerCalls_append, hie, h1, LayerCall.isPush, LayerCall.isPop]
  · have hw2 : (done (Env.allOk 20) (init (⟨Real.cos, Real.sin, Real.pi⟩ : Libm ℝ)
        (Env.allOk 10) (samplePainter ℝ true) (sampleDevice ℝ)).impl).1.w_ ≠ 0 := by
      rw [(size_done _ _).1, (size_init _ _ _ _).1]; exact hw
    have hh2 : (done (Env.allOk 20) (init (⟨Real.cos, Real.sin, Real.pi⟩ : Libm ℝ)
        (Env.allOk 10) (samplePainter ℝ true) (sampleDevice ℝ)).impl).1.h_ ≠ 0 := by
      rw [(size_done _ _).2, (size_init _ _ _ _).2]; exact hh
    have h3 := layerCalls_init (⟨Real.cos, Real.sin, Real.pi⟩ : Libm ℝ) (Env.allOk 30)
      (samplePainter ℝ false) _ hw2 hh2
    rw [h3.1, hd.2]
    simp [samplePainter]

/-- C9 as stated fails: with a clip path on the painter and the creation of
the path geometry failing, `setChanged(Clipping)` issues no `PushLayer` and yet
returns with `clipLayerActive_` true. -/
theorem clip_update_failed_creation_counterexample :
    (samplePainter ℝ true).hasClipping = true ∧
    (setChanged (⟨Real.cos, Real.sin, Real.pi⟩ : Libm ℝ)
        { Env.allOk 10 with pathGeometry := none } (samplePainter ℝ true) clippingOnly
        (sampleDevice ℝ)).impl.clipLayerActive_ = true ∧
    layerCalls (setChanged (⟨Real.cos, Real.sin, Real.pi⟩ : Libm ℝ)
        { Env.allOk 10 with pathGeometry := none } (samplePainter ℝ true) clippingOnly
        (sampleDevice ℝ)).events = [] := by
  have h := layerCalls_setChanged (⟨Real.cos, Real.sin, Real.pi⟩ : Libm ℝ)
    { Env.allOk 10 with pathGeometry := none } (samplePainter ℝ true) clippingOnly
    (sampleDevice ℝ)
  have h2 := layerCalls_setChangedClipping (⟨Real.cos, Real.sin, Real.pi⟩ : Libm ℝ)
    { Env.allOk 10 with pathGeometry := none } (samplePainter ℝ true) (sampleDevice ℝ)
  refine ⟨rfl, ?_, ?_⟩
  · rw [h.2]; simp [clippingOnly, samplePainter]
  · rw [h.1, h2.1]; simp [clippingOnly, samplePainter, sampleDevice]

/-- C9 (amended): `setChanged(Clipping)` never throws; its layer calls are one
`PopLayer` exactly if `clipLayerActive_` was true on entry, followed by one
`PushLayer` of the new geometry and layer exactly if the painter has a clip
path and both the geometry and the layer were created (no `PushLayer` when a
creation fails); without a clip path it leaves `clipLayerActive_` false, so a
following clip update without clip path issues no layer call at all; with a
clip path and both creations succeeding it leaves `clipLayerActive_` true with
the pushed geometry and layer stored in the device. -/
theorem clip_update_postcondition (m : Libm K) (env env2 : Env) (painter painter2 : WPainter K)
    (s : Impl K) :
    (setChanged m env painter clippingOnly s).raised = false ∧
    layerCalls (setChanged m env painter clippingOnly s).events =
      (if s.clipLayerActive_ then [LayerCall.PopLayer] else []) ++
      (if painter.hasClipping && env.pathGeometry.isSome && env.layer.isSome then
        [LayerCall.PushLayer env.pathGeometry env.layer] else []) ∧
    (painter.hasClipping = false →
      (setChanged m env painter clippingOnly s).impl.clipLayerActive_ = false ∧
      (painter2.hasClipping = false →
        layerCalls (setChanged m env2 painter2 clippingOnly
          (setChanged m env painter clippingOnly s).impl).events = [])) ∧
    (painter.hasClipping = true → env.pathGeometry.isSome = true → env.layer.isSome = true →
      (setChanged m env painter clippingOnly s).impl.clipLayerActive_ = true ∧
      (setChanged m env painter clippingOnly s).impl.clipGeometry_ = env.pathGeometry ∧
      (setChanged m env painter clippingOnly s).impl.clipLayer_ = env.layer) := by
  have h := layerCalls_setChanged m env painter clippingOnly s
  have h2 := layerCalls_setChangedClipping m env painter s
  refine ⟨?_, ?_, ?_, ?_⟩
  · simp [setChanged, clippingOnly]
  · rw [h.1, h2.1]; simp [clippingOnly]
  · intro hc
    refine ⟨by rw [h.2]; simp [clippingOnly, hc], ?_⟩
    intro hc2
    have h3 := layerCalls_setChanged m env2 painter2 clippingOnly
      (setChanged m env painter clippingOnly s).impl
    have h4 := layerCalls_setChangedClipping m env2 painter2
      (setChanged m env painter clippingOnly s).impl
    rw [h3.1, h4.1, h.2]
    simp [clippingOnly, hc, hc2]
  · intro hc hg hl
    refine ⟨by rw [h.2]; simp [clippingOnly, hc], ?_, ?_⟩
    · simp [setChanged, clippingOnly, setChangedClipping, hc]
    · simp [setChanged, clippingOnly, setChangedClipping, hc, hg]

/-- C9 (amended) on the sample device: a clip update with a clip path, every
creation succeeding, on a device whose clip layer is pushed. -/
theorem clip_update_postcondition_witness :
    (samplePainter ℝ true).hasClipping = true ∧
    (Env.allOk 10).pathGeometry.isSome = true ∧ (Env.allOk 10).layer.isSome = true ∧
    layerCalls (setChanged (⟨Real.cos, Real.sin, Real.pi⟩ : Libm ℝ) (Env.allOk 10)
        (samplePainter ℝ true) clippingOnly
        { sampleDevice ℝ with clipLayerActive_ := true }).events
      = [LayerCall.PopLayer, LayerCall.PushLayer (some 10) (some 11)] ∧
    (setChanged (⟨Real.cos, Real.sin, Real.pi⟩ : Libm ℝ) (Env.allOk 10)
        (samplePainter ℝ true) clippingOnly
        { sampleDevice ℝ with clipLayerActive_ := true }).impl.clipLayerActive_ = true :=
  have h := clip_update_postcondition (⟨Real.cos, Real.sin, Real.pi⟩ : Libm ℝ) (Env.allOk 10)
    (Env.allOk 20) (samplePainter ℝ true) (samplePainter ℝ false)
    { sampleDevice ℝ with clipLayerActive_ := true }
  ⟨rfl, rfl, rfl, by simpa [samplePainter, Env.allOk] using h.2.1, (h.2.2.2 rfl rfl rfl).1⟩

end ClipTheorems


section PathTheorems

variable {K : Type} [LinearOrderedField K]

theorem drop_cons_inv {α : Type} {l : List α} {i : Nat} {a : α} {rest : List α}
    (h : l.drop i = a :: rest) :
    ∃ hi : i < l.length, l[i] = a ∧ l.drop (i + 1) = rest := by
  have hi : i < l.length := by
    by_contra hn
    rw [List.drop_eq_nil_of_le (by omega)] at h
    cases h
  rw [List.drop_eq_getElem_cons hi] at h
  injection h with h1 h2
  exact ⟨hi, h1, h2⟩

theorem drop_cons_getElem? {α : Type} {l : List α} {i : Nat} {a : α} {rest : List α}
    (h : l.drop i = a :: rest) : l[i]? = some a := by
  obtain ⟨hi, h1, _⟩ := drop_cons_inv h
  rw [List.getElem?_eq_getElem hi, h1]

theorem loop_line (m : Libm K) (path : WPainterPath K) (filled : Bool) (i : Nat)
    (st : PathLoop K) (s : Segment K) (rest : List (Segment K))
    (hd : path.segments.drop i = s :: rest) (ht : s.type = SegmentType.LineTo) :
    drawPlainPathLoop m path filled i st =
      drawPlainPathLoop m path filled (i + 1)
        { startPoint := st.startPoint, started := true,
          out := st.out ++
            (if st.started then [] else [SinkCall.BeginFigure st.startPoint
              (if filled then FigureBegin.FILLED else FigureBegin.HOLLOW)]) ++
            [SinkCall.AddLine ⟨s.x, s.y⟩] } := by
  obtain ⟨hi, h1, _⟩ := drop_cons_inv hd
  rw [drawPlainPathLoop]
  simp only [hi, dif_pos, h1, ht]
  cases hst : st.started <;> simp [hst]

theorem loop_move (m : Libm K) (path : WPainterPath K) (filled : Bool) (i : Nat)
    (st : PathLoop K) (s : Segment K) (rest : List (Segment K))
    (hd : path.segments.drop i = s :: rest) (ht : s.type = SegmentType.MoveTo) :
    drawPlainPathLoop m path filled i st =
      drawPlainPathLoop m path filled (i + 1)
        { startPoint := ⟨s.x, s.y⟩, started := false,
          out := st.out ++
            (if st.started then [SinkCall.EndFigure FigureEnd.END_OPEN] else []) } := by
  obtain ⟨hi, h1, _⟩ := drop_cons_inv hd
  rw [drawPlainPathLoop]
  simp only [hi, dif_pos, h1, ht]
  cases hst : st.started <;> simp [hst]

theorem loop_cubic (m : Libm K) (path : WPainterPath K) (filled : Bool) (i : Nat)
    (st : PathLoop K) (c1 c2 e : Segment K) (rest : List (Segment K))
    (hd : path.segments.drop i = c1 :: c2 :: e :: rest) (ht : c1.type = SegmentType.CubicC1) :
    drawPlainPathLoop m path filled i st =
      drawPlainPathLoop m path filled (i + 3)
        { startPoint := st.startPoint, started := true,
          out := st.out ++
            (if st.started then [] else [SinkCall.BeginFigure st.startPoint
              (if filled then FigureBegin.FILLED else FigureBegin.HOLLOW)]) ++
            [SinkCall.AddBezier ⟨c1.x, c1.y⟩ ⟨c2.x, c2.y⟩ ⟨e.x, e.y⟩] } := by
  obtain ⟨hi, h1, hd1⟩ := drop_cons_inv hd
  have g1 := drop_cons_getElem? hd1
  obtain ⟨_, _, hd2⟩ := drop_cons_inv hd1
  have g2 := drop_cons_getElem? hd2
  rw [drawPlainPathLoop]
  simp only [hi, dif_pos, h1, ht, g1, g2]
  cases hst : st.started <;> simp [hst]

theorem loop_quad (m : Libm K) (path : WPainterPath K) (filled : Bool) (i : Nat)
    (st : PathLoop K) (c e : Segment K) (rest : List (Segment K))
    (hd : path.segments.drop i = c :: e :: rest) (ht : c.type = SegmentType.QuadC) :
    drawPlainPathLoop m path filled i st =
      drawPlainPathLoop m path filled (i + 2)
        { startPoint := st.startPoint, started := true,
          out := st.out ++
            (if st.started then [] else [SinkCall.BeginFigure st.startPoint
              (if filled then FigureBegin.FILLED else FigureBegin.HOLLOW)]) ++
            [SinkCall.AddQuadraticBezier ⟨c.x, c.y⟩ ⟨e.x, e.y⟩] } := by
  obtain ⟨hi, h1, hd1⟩ := drop_cons_inv hd
  have g1 := drop_cons_getElem? hd1
  rw [drawPlainPathLoop]
  simp only [hi, dif_pos, h1, ht, g1]
  cases hst : st.started <;> simp [hst]

theorem loop_arc (m : Libm K) (path : WPainterPath K) (filled : Bool) (i : Nat)
    (st : PathLoop K) (c r a : Segment K) (rest : List (Segment K))
    (hd : path.segments.drop i = c :: r :: a :: rest) (ht : c.type = SegmentType.ArcC) :
    drawPlainPathLoop m path filled i st =
      drawPlainPathLoop m path filled (i + 3)
        { startPoint := st.startPoint, started := true,
          out := st.out ++
            (if st.started then [] else [SinkCall.BeginFigure st.startPoint
              (if filled then FigureBegin.FILLED else FigureBegin.HOLLOW)]) ++
            arcSegmentCalls m (path.positionAtSegment i) c r a } := by
  obtain ⟨hi, h1, hd1⟩ := drop_cons_inv hd
  have g1 := drop_cons_getElem? hd1
  obtain ⟨_, _, hd2⟩ := drop_cons_inv hd1
  have g2 := drop_cons_getElem? hd2
  rw [drawPlainPathLoop]
  simp only [hi, dif_pos, h1, ht, g1, g2]
  cases hst : st.started <;> simp [hst]

theorem loop_end (m : Libm K) (path : WPainterPath K) (filled : Bool) (i : Nat)
    (st : PathLoop K) (hd : path.segments.drop i = []) :
    drawPlainPathLoop m path filled i st = Except.ok st := by
  have hi : ¬ i < path.segments.length := by
    intro h
    rw [List.drop_eq_getElem_cons h] at hd
    cases hd
  rw [drawPlainPathLoop]
  simp [hi]

theorem figures_move (p0 : Point K) (i : Nat) (s : Segment K) (l : List (Nat × PathGroup K)) :
    figures p0 ((i, PathGroup.move s) :: l) = figures ⟨s.x, s.y⟩ l := by
  rw [figures]

theorem figures_draw (p0 : Point K) (x : Nat × PathGroup K) (l : List (Nat × PathGroup K))
    (hx : x.2.isMove = false) :
    figures p0 (x :: l) =
      (p0, x :: l.takeWhile (fun y => !y.2.isMove)) ::
        figures p0 (l.dropWhile (fun y => !y.2.isMove)) := by
  rw [figures]
  obtain ⟨i, g⟩ := x
  cases g <;> simp_all [PathGroup.isMove]

theorem remaining_nil (m : Libm K) (path : WPainterPath K) (filled started : Bool)
    (p0 : Point K) :
    remainingCalls m path filled started p0 [] =
      if started then [SinkCall.EndFigure FigureEnd.END_OPEN] else [] := by
  cases started <;> simp [remainingCalls, figures]

theorem remaining_move (m : Libm K) (path : WPainterPath K) (filled started : Bool)
    (p0 : Point K) (i : Nat) (s : Segment K) (l : List (Nat × PathGroup K)) :
    remainingCalls m path filled started p0 ((i, PathGroup.move s) :: l) =
      (if started then [SinkCall.EndFigure FigureEnd.END_OPEN] else []) ++
        remainingCalls m path filled false ⟨s.x, s.y⟩ l := by
  cases started <;> simp [remainingCalls, figures_move, PathGroup.isMove]

theorem remaining_draw (m : Libm K) (path : WPainterPath K) (filled started : Bool)
    (p0 : Point K) (x : Nat × PathGroup K) (l : List (Nat × PathGroup K))
    (hx : x.2.isMove = false) :
    remainingCalls m path filled started p0 (x :: l) =
      (if started then [] else [SinkCall.BeginFigure p0
        (if filled then FigureBegin.FILLED else FigureBegin.HOLLOW)]) ++
        groupCalls m path x ++ remainingCalls m path filled true p0 l := by
  cases started <;>
    simp [remainingCalls, figures_draw _ _ _ hx, hx, figureCalls, List.append_assoc]

theorem drop_add_of_drop {α : Type} {l : List α} {i : Nat} (pre rest : List α)
    (h : l.drop i = pre ++ rest) : l.drop (i + pre.length) = rest := by
  have := congrArg (List.drop pre.length) h
  rw [List.drop_drop, List.drop_left] at this
  rw [← this]

theorem loop_trace (m : Libm K) (path : WPainterPath K) (filled : Bool)
    (gs : List (PathGroup K)) (hv : ∀ g ∈ gs, g.valid = true) :
    ∀ (i : Nat) (st : PathLoop K),
      path.segments.drop i = gs.flatMap PathGroup.records →
      ∃ st1, drawPlainPathLoop m path filled i st = Except.ok st1 ∧
        st1.out ++ (if st1.started then [SinkCall.EndFigure FigureEnd.END_OPEN] else []) =
          st.out ++ remainingCalls m path filled st.started st.startPoint (indexGroups i gs) := by
  induction gs with
  | nil =>
    intro i st hd
    refine ⟨st, loop_end m path filled i st (by simpa using hd), ?_⟩
    simp [indexGroups, remaining_nil]
  | cons g gs ih =>
    intro i st hd
    have hvg := hv g (List.mem_cons_self _ _)
    have hvs : ∀ g ∈ gs, g.valid = true := fun x hx => hv x (List.mem_cons_of_mem _ hx)
    have hd2 : path.segments.drop (i + g.records.length) = gs.flatMap PathGroup.records :=
      drop_add_of_drop g.records _ (by simpa [List.flatMap_cons] using hd)
    cases g with
    | move s =>
      simp only [PathGroup.valid, decide_eq_true_eq] at hvg
      obtain ⟨st1, h1, h2⟩ := ih hvs (i + 1)
        { startPoint := ⟨s.x, s.y⟩, started := false,
          out := st.out ++
            (if st.started then [SinkCall.EndFigure FigureEnd.END_OPEN] else []) }
        (by simpa [PathGroup.records] using hd2)
      refine ⟨st1, ?_, ?_⟩
      · rw [loop_move m path filled i st s _ (by simpa [List.flatMap_cons, PathGroup.records] using hd) hvg]
        exact h1
      · rw [h2]
        simp [indexGroups, remaining_move, PathGroup.records, List.append_assoc]
    | line s =>
      simp only [PathGroup.valid, decide_eq_true_eq] at hvg
      obtain ⟨st1, h1, h2⟩ := ih hvs (i + 1)
        { startPoint := st.startPoint, started := true,
          out := st.out ++
            (if st.started then [] else [SinkCall.BeginFigure st.startPoint
              (if filled then FigureBegin.FILLED else FigureBegin.HOLLOW)]) ++
            [SinkCall.AddLine ⟨s.x, s.y⟩] }
        (by simpa [PathGroup.records] using hd2)
      refine ⟨st1, ?_, ?_⟩
      · rw [loop_line m path filled i st s _ (by simpa [List.flatMap_cons, PathGroup.records] using hd) hvg]
        exact h1
      · rw [h2]
        simp [indexGroups, remaining_draw, PathGroup.isMove, groupCalls, PathGroup.records,
          List.append_assoc]
    | cubic c1 c2 e =>
      simp only [PathGroup.valid, Bool.and_eq_true, decide_eq_true_eq] at hvg
      obtain ⟨st1, h1, h2⟩ := ih hvs (i + 3)
        { startPoint := st.startPoint, started := true,
          out := st.out ++
            (if st.started then [] else [SinkCall.BeginFigure st.startPoint
              (if filled then FigureBegin.FILLED else FigureBegin.HOLLOW)]) ++
            [SinkCall.AddBezier ⟨c1.x, c1.y⟩ ⟨c2.x, c2.y⟩ ⟨e.x, e.y⟩] }
        (by simpa [PathGroup.records] using hd2)
      refine ⟨st1, ?_, ?_⟩
      · rw [loop_cubic m path filled i st c1 c2 e _
          (by simpa [List.flatMap_cons, PathGroup.records] using hd) hvg.1.1]
        exact h1
      · rw [h2]
        simp [indexGroups, remaining_draw, PathGroup.isMove, groupCalls, PathGroup.records,
          List.append_assoc]
    | quad c e =>
      simp only [PathGroup.valid, Bool.and_eq_true, decide_eq_true_eq] at hvg
      obtain ⟨st1, h1, h2⟩ := ih hvs (i + 2)
        { startPoint := st.startPoint, started := true,
          out := st.out ++
            (if st.started then [] else [SinkCall.BeginFigure st.startPoint
              (if filled then FigureBegin.FILLED else FigureBegin.HOLLOW)]) ++
            [SinkCall.AddQuadraticBezier ⟨c.x, c.y⟩ ⟨e.x, e.y⟩] }
        (by simpa [PathGroup.records] using hd2)
      refine ⟨st1, ?_, ?_⟩
      · rw [loop_quad m path filled i st c e _
          (by simpa [List.flatMap_cons, PathGroup.records] using hd) hvg.1]
        exact h1
      · rw [h2]
        simp [indexGroups, remaining_draw, PathGroup.isMove, groupCalls, PathGroup.records,
          List.append_assoc]
    | arc c r a =>
      simp only [PathGroup.valid, Bool.and_eq_true, decide_eq_true_eq] at hvg
      obtain ⟨st1, h1, h2⟩ := ih hvs (i + 3)
        { startPoint := st.startPoint, started := true,
          out := st.out ++
            (if st.started then [] else [SinkCall.BeginFigure st.startPoint
              (if filled then FigureBegin.FILLED else FigureBegin.HOLLOW)]) ++
            arcSegmentCalls m (path.positionAtSegment i) c r a }
        (by simpa [PathGroup.records] using hd2)
      refine ⟨st1, ?_, ?_⟩
      · rw [loop_arc m path filled i st c r a _
          (by simpa [List.flatMap_cons, PathGroup.records] using hd) hvg.1.1]
        exact h1
      · rw [h2]
        simp [indexGroups, remaining_draw, PathGroup.isMove, groupCalls, PathGroup.records,
          List.append_assoc]

/-- On a record sequence made of valid logical segments `drawPlainPath` runs to
the end without fault, and its sink calls are those of the sub-figures in
order, followed by `Close`. -/
theorem drawPlainPath_trace (m : Libm K) (path : WPainterPath K) (filled : Bool)
    (gs : List (PathGroup K)) (hv : ∀ g ∈ gs, g.valid = true)
    (hs : path.segments = gs.flatMap PathGroup.records) :
    drawPlainPath m path filled =
      Except.ok ((figures ⟨0, 0⟩ (indexGroups 0 gs)).flatMap (figureCalls m path filled) ++
        [SinkCall.Close]) := by
  obtain ⟨st1, h1, h2⟩ := loop_trace m path filled gs hv 0 ⟨⟨0, 0⟩, false, []⟩ (by simpa using hs)
  unfold drawPlainPath
  rw [h1]
  simp only [List.nil_append, remainingCalls] at h2
  simp only [Bool.false_eq_true, if_false] at h2
  rw [← h2]
  cases hst : st1.started <;> simp [hst]

theorem figures_spec (p0 : Point K) (l : List (Nat × PathGroup K)) :
    (figures p0 l).flatMap (fun f => f.2) = l.filter (fun g => !g.2.isMove) ∧
    (∀ f ∈ figures p0 l, f.2 ≠ [] ∧ ∀ g ∈ f.2, g.2.isMove = false) := by
  obtain ⟨n, hn⟩ : ∃ n, l.length = n := ⟨_, rfl⟩
  induction n using Nat.strong_induction_on generalizing p0 l with
  | _ n ih =>
    cases l with
    | nil => simp [figures]
    | cons x l =>
      cases hx : x.2.isMove with
      | true =>
        obtain ⟨i, g⟩ := x
        cases g <;> simp [PathGroup.isMove] at hx
        rename_i s
        rw [figures_move]
        have := ih l.length (by simp at hn; omega) ⟨s.x, s.y⟩ l rfl
        simpa [PathGroup.isMove] using this
      | false =>
        rw [figures_draw p0 x l hx]
        have hlen : (l.dropWhile (fun y => !y.2.isMove)).length < n := by
          have h := (List.dropWhile_sublist (fun y : Nat × PathGroup K => !y.2.isMove)
            (l := l)).length_le
          simp at hn; omega
        have := ih _ hlen p0 (l.dropWhile (fun y => !y.2.isMove)) rfl
        constructor
        · simp only [List.flatMap_cons, this.1, List.filter_cons, hx, Bool.not_false, if_true,
            List.cons_append]
          congr 1
          conv_rhs => rw [← List.takeWhile_append_dropWhile (fun y => !y.2.isMove) l]
          rw [List.filter_append]
          congr 1
          symm
          rw [List.filter_eq_self]
          intro a ha
          exact List.mem_takeWhile_imp (p := fun y : Nat × PathGroup K => !y.2.isMove) ha
        · intro f hf
          rcases List.mem_cons.mp hf with h | h
          · subst h
            refine ⟨by simp, ?_⟩
            intro g hg
            rcases List.mem_cons.mp hg with h2 | h2
            · subst h2; exact hx
            · simpa using
                List.mem_takeWhile_imp (p := fun y : Nat × PathGroup K => !y.2.isMove) h2
          · exact this.2 f h

theorem fequal_false_iff (a b : K) : fequal a b = false ↔ 1 / 100000 ≤ |a - b| := by
  simp [fequal]

theorem arcSegmentCalls_eq (m : Libm K) (cur : Point K) (c r a : Segment K) :
    arcSegmentCalls m cur c r a =
      (if 1 / 100000 ≤ |m.cos (-(a.x / 180 * m.M_PI)) * r.x + c.x - cur.x| ∨
          1 / 100000 ≤ |m.sin (-(a.x / 180 * m.M_PI)) * r.y + c.y - cur.y| then
        [SinkCall.AddLine
          ⟨m.cos (-(a.x / 180 * m.M_PI)) * r.x + c.x, m.sin (-(a.x / 180 * m.M_PI)) * r.y + c.y⟩]
       else []) ++
      [SinkCall.AddArc
         ⟨⟨m.cos (-(a.x / 180 * m.M_PI + sweepAngleRad m a.y / 2)) * r.x + c.x,
           m.sin (-(a.x / 180 * m.M_PI + sweepAngleRad m a.y / 2)) * r.y + c.y⟩,
          ⟨r.x, r.y⟩, 0,
          if 0 < sweepAngleRad m a.y then SweepDirection.COUNTER_CLOCKWISE
          else SweepDirection.CLOCKWISE, ArcSize.SMALL⟩,
       SinkCall.AddArc
         ⟨⟨m.cos (-(a.x / 180 * m.M_PI + sweepAngleRad m a.y)) * r.x + c.x,
           m.sin (-(a.x / 180 * m.M_PI + sweepAngleRad m a.y)) * r.y + c.y⟩,
          ⟨r.x, r.y⟩, 0,
          if 0 < sweepAngleRad m a.y then SweepDirection.COUNTER_CLOCKWISE
          else SweepDirection.CLOCKWISE, ArcSize.SMALL⟩] := by
  dsimp only [arcSegmentCalls]
  simp only [Bool.or_eq_true, Bool.not_eq_true', fequal_false_iff]

theorem arcSegmentCalls_shape (m : Libm K) (cur : Point K) (c r a : Segment K) :
    ∃ a1 a2, arcSegmentCalls m cur c r a =
      (if 1 / 100000 ≤ |m.cos (-(a.x / 180 * m.M_PI)) * r.x + c.x - cur.x| ∨
          1 / 100000 ≤ |m.sin (-(a.x / 180 * m.M_PI)) * r.y + c.y - cur.y| then
        [SinkCall.AddLine
          ⟨m.cos (-(a.x / 180 * m.M_PI)) * r.x + c.x, m.sin (-(a.x / 180 * m.M_PI)) * r.y + c.y⟩]
       else []) ++ [SinkCall.AddArc a1, SinkCall.AddArc a2] :=
  ⟨_, _, arcSegmentCalls_eq m cur c r a⟩

theorem groupCalls_primitive (m : Libm K) (path : WPainterPath K) (ig : Nat × PathGroup K) :
    ∀ c ∈ groupCalls m path ig, c.isPrimitive = true := by
  obtain ⟨i, g⟩ := ig
  cases g with
  | arc c r a =>
    obtain ⟨a1, a2, h⟩ := arcSegmentCalls_shape m (path.positionAtSegment i) c r a
    simp only [groupCalls, h]
    split <;> simp [SinkCall.isPrimitive]
  | _ => simp [groupCalls, SinkCall.isPrimitive]

theorem figureCalls_counts (m : Libm K) (path : WPainterPath K) (filled : Bool)
    (f : Point K × List (Nat × PathGroup K)) :
    (figureCalls m path filled f).countP SinkCall.isBeginFigure = 1 ∧
    (figureCalls m path filled f).countP SinkCall.isEndFigure = 1 ∧
    (figureCalls m path filled f).filter SinkCall.isPrimitive =
      f.2.flatMap (groupCalls m path) := by
  have hp : ∀ c ∈ f.2.flatMap (groupCalls m path), c.isPrimitive = true := by
    intro c hc
    obtain ⟨ig, _, h⟩ := List.mem_flatMap.mp hc
    exact groupCalls_primitive m path ig c h
  have hb : (f.2.flatMap (groupCalls m path)).countP SinkCall.isBeginFigure = 0 := by
    rw [List.countP_eq_zero]
    intro c hc
    have := hp c hc
    cases c <;> simp_all [SinkCall.isPrimitive, SinkCall.isBeginFigure]
  have he : (f.2.flatMap (groupCalls m path)).countP SinkCall.isEndFigure = 0 := by
    rw [List.countP_eq_zero]
    intro c hc
    have := hp c hc
    cases c <;> simp_all [SinkCall.isPrimitive, SinkCall.isEndFigure]
  have hf : (f.2.flatMap (groupCalls m path)).filter SinkCall.isPrimitive =
      f.2.flatMap (groupCalls m path) := by
    rw [List.filter_eq_self]; exact hp
  refine ⟨?_, ?_, ?_⟩
  · simp [figureCalls, List.countP_append, hb, SinkCall.isBeginFigure, List.countP_cons]
  · simp [figureCalls, List.countP_append, he, SinkCall.isEndFigure, List.countP_cons]
  · simp [figureCalls, List.filter_append, hf, SinkCall.isPrimitive, List.filter_cons]

theorem figures_trace_counts (m : Libm K) (path : WPainterPath K) (filled : Bool)
    (fs : List (Point K × List (Nat × PathGroup K))) :
    (fs.flatMap (figureCalls m path filled) ++ [SinkCall.Close]).countP
        SinkCall.isBeginFigure = fs.length ∧
    (fs.flatMap (figureCalls m path filled) ++ [SinkCall.Close]).countP
        SinkCall.isEndFigure = fs.length ∧
    (fs.flatMap (figureCalls m path filled) ++ [SinkCall.Close]).filter SinkCall.isPrimitive =
      (fs.flatMap (fun f => f.2)).flatMap (groupCalls m path) := by
  induction fs with
  | nil => simp [SinkCall.isBeginFigure, SinkCall.isEndFigure, SinkCall.isPrimitive]
  | cons f fs ih =>
    have h := figureCalls_counts m path filled f
    simp only [List.flatMap_cons, List.append_assoc, List.countP_append, List.filter_append,
      List.flatMap_append, List.length_cons] at ih ⊢
    refine ⟨?_, ?_, ?_⟩
    · rw [h.1, ih.1]; omega
    · rw [h.2.1, ih.2.1]; omega
    · rw [h.2.2, ih.2.2]

theorem indexGroups_records (i : Nat) (gs : List (PathGroup K)) :
    (indexGroups i gs).flatMap (fun ig => ig.2.records) = gs.flatMap PathGroup.records := by
  induction gs generalizing i with
  | nil => simp [indexGroups]
  | cons g gs ih => simp [indexGroups, ih]

theorem indexGroups_position (segs : List (Segment K)) (gs : List (PathGroup K)) :
    ∀ i, segs.drop i = gs.flatMap PathGroup.records →
      ∀ ig ∈ indexGroups i gs, ∃ rest, segs.drop ig.1 = ig.2.records ++ rest := by
  induction gs with
  | nil => intro i _ ig hig; simp [indexGroups] at hig
  | cons g gs ih =>
    intro i hd ig hig
    simp only [indexGroups, List.mem_cons] at hig
    rcases hig with h | h
    · subst h
      exact ⟨gs.flatMap PathGroup.records, by simpa [List.flatMap_cons] using hd⟩
    · exact ih (i + g.records.length)
        (drop_add_of_drop g.records _ (by simpa [List.flatMap_cons] using hd)) ig h

theorem flatMap_groupCalls_filter (m : Libm K) (path : WPainterPath K)
    (l : List (Nat × PathGroup K)) :
    (l.filter (fun g => !g.2.isMove)).flatMap (groupCalls m path) =
      l.flatMap (groupCalls m path) := by
  induction l with
  | nil => simp
  | cons x l ih =>
    cases hx : x.2.isMove with
    | true =>
      rw [List.filter_cons]
      simp only [hx, Bool.not_true, Bool.false_eq_true, if_false, List.flatMap_cons, ih]
      obtain ⟨i, g⟩ := x
      cases g <;> simp [PathGroup.isMove] at hx
      simp [groupCalls]
    | false =>
      rw [List.filter_cons]
      simp only [hx, Bool.not_false, if_true, List.flatMap_cons, ih]

/-- C4: on every record sequence made of valid logical segments,
`drawPlainPath` returns, and its sink trace is, for each maximal run of
consecutive segments other than `MoveTo` in order, one `BeginFigure`, the
drawing primitives of the run, one `EndFigure(END_OPEN)`, and finally `Close`:
brackets do not nest, every primitive lies inside a bracket and every bracket
is ended before `Close`. Every run is non-empty and free of `MoveTo`, the runs
together are exactly the segments other than `MoveTo`, and the numbers of
`BeginFigure` and of `EndFigure` calls both equal the number of runs, which is
zero when all segments are `MoveTo`. -/
theorem figure_structure (m : Libm K) (path : WPainterPath K) (filled : Bool)
    (gs : List (PathGroup K)) (hv : ∀ g ∈ gs, g.valid = true)
    (hs : path.segments = gs.flatMap PathGroup.records) :
    ∃ trace,
      drawPlainPath m path filled = Except.ok trace ∧
      trace =
        (figures ⟨0, 0⟩ (indexGroups 0 gs)).flatMap (fun f =>
          [SinkCall.BeginFigure f.1 (if filled then FigureBegin.FILLED else FigureBegin.HOLLOW)]
            ++ f.2.flatMap (groupCalls m path) ++ [SinkCall.EndFigure FigureEnd.END_OPEN])
          ++ [SinkCall.Close] ∧
      (∀ f ∈ figures ⟨0, 0⟩ (indexGroups 0 gs),
        f.2 ≠ [] ∧ (∀ g ∈ f.2, g.2.isMove = false) ∧
        ∀ c ∈ f.2.flatMap (groupCalls m path), c.isPrimitive = true) ∧
      (figures ⟨0, 0⟩ (indexGroups 0 gs)).flatMap (fun f => f.2) =
        (indexGroups 0 gs).filter (fun g => !g.2.isMove) ∧
      trace.countP SinkCall.isBeginFigure = (figures ⟨0, 0⟩ (indexGroups 0 gs)).length ∧
      trace.countP SinkCall.isEndFigure = (figures ⟨0, 0⟩ (indexGroups 0 gs)).length ∧
      ((∀ g ∈ gs, g.isMove = true) → (figures ⟨0, 0⟩ (indexGroups 0 gs)).length = 0) := by
  have hsp := figures_spec (⟨0, 0⟩ : Point K) (indexGroups 0 gs)
  have hc := figures_trace_counts m path filled (figures ⟨0, 0⟩ (indexGroups 0 gs))
  refine ⟨_, drawPlainPath_trace m path filled gs hv hs, rfl, ?_, hsp.1, hc.1, hc.2.1, ?_⟩
  · intro f hf
    refine ⟨(hsp.2 f hf).1, (hsp.2 f hf).2, ?_⟩
    intro c hcm
    obtain ⟨ig, _, h⟩ := List.mem_flatMap.mp hcm
    exact groupCalls_primitive m path ig c h
  · intro hall
    have hnil : (indexGroups 0 gs).filter (fun g => !g.2.isMove) = [] := by
      rw [List.filter_eq_nil_iff]
      intro ig hig
      have : ∀ (i : Nat) (l : List (PathGroup K)), (∀ g ∈ l, g.isMove = true) →
          ∀ x ∈ indexGroups i l, x.2.isMove = true := by
        intro i l
        induction l generalizing i with
        | nil => intro _ x hx; simp [indexGroups] at hx
        | cons g l ih =>
          intro hl x hx
          simp only [indexGroups, List.mem_cons] at hx
          rcases hx with h | h
          · subst h; exact hl g (List.mem_cons_self _ _)
          · exact ih _ (fun y hy => hl y (List.mem_cons_of_mem _ hy)) x h
      simp [this 0 gs hall ig hig]
    cases hfig : figures (⟨0, 0⟩ : Point K) (indexGroups 0 gs) with
    | nil => rfl
    | cons f fs =>
      exfalso
      have h1 := hsp.1
      rw [hnil, hfig] at h1
      have h2 := (hsp.2 f (by rw [hfig]; exact List.mem_cons_self _ _)).1
      simp only [List.flatMap_cons, List.append_eq_nil] at h1
      exact h2 h1.1

/-- C4 on the sample path: two sub-figures, hence two `BeginFigure` and two
`EndFigure` calls. -/
theorem figure_structure_witness :
    (∀ g ∈ sampleGroups ℝ, g.valid = true) ∧
    (samplePath ℝ).segments = (sampleGroups ℝ).flatMap PathGroup.records ∧
    ∃ trace,
      drawPlainPath (⟨Real.cos, Real.sin, Real.pi⟩ : Libm ℝ) (samplePath ℝ) true
        = Except.ok trace ∧
      trace.countP SinkCall.isBeginFigure = 2 ∧ trace.countP SinkCall.isEndFigure = 2 := by
  have hv : ∀ g ∈ sampleGroups ℝ, g.valid = true := by
    simp [sampleGroups, PathGroup.valid]
  have hs : (samplePath ℝ).segments = (sampleGroups ℝ).flatMap PathGroup.records := by
    simp [samplePath, sampleGroups, PathGroup.records]
  have hn : (figures (⟨0, 0⟩ : Point ℝ) (indexGroups 0 (sampleGroups ℝ))).length = 2 := by
    simp [sampleGroups, indexGroups, figures_move, figures_draw, PathGroup.isMove,
      PathGroup.records, figures]
  obtain ⟨t, ht, _, _, _, hb, he, _⟩ :=
    figure_structure (⟨Real.cos, Real.sin, Real.pi⟩ : Libm ℝ) (samplePath ℝ) true
      (sampleGroups ℝ) hv hs
  exact ⟨hv, hs, t, ht, by rw [hb, hn], by rw [he, hn]⟩

/-- C5: on every record sequence made of valid logical segments (which are
then exactly the records, each in one segment, at the recorded index),
`drawPlainPath` returns without reaching `assert(false)` or reading past the
end, and the drawing primitives of its trace are, segment by segment in
order: nothing for `MoveTo`; one `AddLine` for `LineTo`; one `AddBezier` with
the three stored points for a cubic; one `AddQuadraticBezier` with the two
stored points for a quadratic; for an arc an `AddLine` to its start point
exactly if that point is at least 1e-5 away in x or in y from
`positionAtSegment` of the arc record, followed by two `AddArc` calls. -/
theorem segment_translation (m : Libm K) (path : WPainterPath K) (filled : Bool)
    (gs : List (PathGroup K)) (hv : ∀ g ∈ gs, g.valid = true)
    (hs : path.segments = gs.flatMap PathGroup.records) :
    ∃ trace,
      drawPlainPath m path filled = Except.ok trace ∧
      (indexGroups 0 gs).flatMap (fun ig => ig.2.records) = path.segments ∧
      (∀ ig ∈ indexGroups 0 gs, ∃ rest, path.segments.drop ig.1 = ig.2.records ++ rest) ∧
      trace.filter SinkCall.isPrimitive = (indexGroups 0 gs).flatMap (groupCalls m path) ∧
      (∀ ig ∈ indexGroups 0 gs,
        (∀ s, ig.2 = PathGroup.move s → groupCalls m path ig = []) ∧
        (∀ s, ig.2 = PathGroup.line s →
          groupCalls m path ig = [SinkCall.AddLine ⟨s.x, s.y⟩]) ∧
        (∀ c1 c2 e, ig.2 = PathGroup.cubic c1 c2 e →
          groupCalls m path ig = [SinkCall.AddBezier ⟨c1.x, c1.y⟩ ⟨c2.x, c2.y⟩ ⟨e.x, e.y⟩]) ∧
        (∀ c e, ig.2 = PathGroup.quad c e →
          groupCalls m path ig = [SinkCall.AddQuadraticBezier ⟨c.x, c.y⟩ ⟨e.x, e.y⟩]) ∧
        (∀ c r a, ig.2 = PathGroup.arc c r a →
          ∃ a1 a2, groupCalls m path ig =
            (if 1 / 100000 ≤ |m.cos (-(a.x / 180 * m.M_PI)) * r.x + c.x
                  - (path.positionAtSegment ig.1).x| ∨
                1 / 100000 ≤ |m.sin (-(a.x / 180 * m.M_PI)) * r.y + c.y
                  - (path.positionAtSegment ig.1).y| then
              [SinkCall.AddLine ⟨m.cos (-(a.x / 180 * m.M_PI)) * r.x + c.x,
                                 m.sin (-(a.x / 180 * m.M_PI)) * r.y + c.y⟩]
             else []) ++ [SinkCall.AddArc a1, SinkCall.AddArc a2])) := by
  have hc := figures_trace_counts m path filled (figures ⟨0, 0⟩ (indexGroups 0 gs))
  refine ⟨_, drawPlainPath_trace m path filled gs hv hs, ?_, ?_, ?_, ?_⟩
  · rw [indexGroups_records, hs]
  · exact indexGroups_position path.segments gs 0 (by simpa using hs)
  · rw [hc.2.2, (figures_spec _ _).1, flatMap_groupCalls_filter]
  · intro ig _
    refine ⟨?_, ?_, ?_, ?_, ?_⟩
    · intro s h; simp [groupCalls, h]
    · intro s h; simp [groupCalls, h]
    · intro c1 c2 e h; simp [groupCalls, h]
    · intro c e h; simp [groupCalls, h]
    · intro c r a h
      obtain ⟨a1, a2, h2⟩ := arcSegmentCalls_shape m (path.positionAtSegment ig.1) c r a
      exact ⟨a1, a2, by simp only [groupCalls, h]; exact h2⟩

/-- C5 on the sample path: the seven drawing primitives, the arc preceded by a
line to its start point (10,0) because the current position is (5,5). -/
theorem segment_translation_witness :
    (∀ g ∈ sampleGroups ℝ, g.valid = true) ∧
    (samplePath ℝ).segments = (sampleGroups ℝ).flatMap PathGroup.records ∧
    ∃ trace,
      drawPlainPath (⟨Real.cos, Real.sin, Real.pi⟩ : Libm ℝ) (samplePath ℝ) false
        = Except.ok trace ∧
      trace.filter SinkCall.isPrimitive =
        [SinkCall.AddLine ⟨10, 0⟩, SinkCall.AddLine ⟨10, 10⟩,
         SinkCall.AddBezier ⟨1, 1⟩ ⟨2, 2⟩ ⟨3, 3⟩, SinkCall.AddQuadraticBezier ⟨4, 4⟩ ⟨5, 5⟩,
         SinkCall.AddLine ⟨10, 0⟩,
         SinkCall.AddArc
           ⟨⟨0, -10⟩, ⟨10, 10⟩, 0, SweepDirection.COUNTER_CLOCKWISE, ArcSize.SMALL⟩,
         SinkCall.AddArc
           ⟨⟨-10, 0⟩, ⟨10, 10⟩, 0, SweepDirection.COUNTER_CLOCKWISE, ArcSize.SMALL⟩] := by
  have hv : ∀ g ∈ sampleGroups ℝ, g.valid = true := by
    simp [sampleGroups, PathGroup.valid]
  have hs : (samplePath ℝ).segments = (sampleGroups ℝ).flatMap PathGroup.records := by
    simp [samplePath, sampleGroups, PathGroup.records]
  obtain ⟨t, ht, _, _, hp, _⟩ :=
    segment_translation (⟨Real.cos, Real.sin, Real.pi⟩ : Libm ℝ) (samplePath ℝ) false
      (sampleGroups ℝ) hv hs
  refine ⟨hv, hs, t, ht, ?_⟩
  rw [hp]
  have hle : (0 : ℝ) ≤ Real.pi := Real.pi_pos.le
  have hsw : min ((180 : ℝ) / 180 * Real.pi) (2 * Real.pi) = Real.pi := by
    have h1 : (180 : ℝ) / 180 = 1 := by norm_num
    rw [h1, one_mul]
    exact min_eq_left (by linarith)
  have hpos := Real.pi_pos
  simp only [sampleGroups, indexGroups, List.flatMap_cons, List.flatMap_nil, groupCalls,
    arcSegmentCalls_eq, sweepAngleRad, hsw, samplePath]
  simp [hpos]
  norm_num

end PathTheorems

section ArcTheorems

variable {K : Type} [LinearOrderedField K]

theorem sweepAngleRad_of_le (m : Libm K) (hpi : 0 ≤ m.M_PI) (sweep : K) (h : sweep ≤ 360) :
    sweepAngleRad m sweep = sweep / 180 * m.M_PI := by
  unfold sweepAngleRad
  apply min_eq_left
  have : sweep / 180 ≤ 2 := by
    rw [div_le_iff₀ (by norm_num)]; linarith
  nlinarith

theorem drawArcSink_eq (m : Libm K) (bs : BrushStyle) (rect : WRectF K) (start sweep : K) :
    drawArcSink m bs rect start sweep =
      [SinkCall.BeginFigure
         (arcPoint m rect.center.x rect.center.y (rect.width / 2) (rect.height / 2)
           (radians m start))
         (if bs ≠ BrushStyle.NoBrush then FigureBegin.FILLED else FigureBegin.HOLLOW),
       SinkCall.AddArc
         ⟨arcPoint m rect.center.x rect.center.y (rect.width / 2) (rect.height / 2)
            (radians m start + sweepAngleRad m sweep / 2),
          ⟨rect.width / 2, rect.height / 2⟩, 0, SweepDirection.COUNTER_CLOCKWISE,
          ArcSize.SMALL⟩,
       SinkCall.AddArc
         ⟨arcPoint m rect.center.x rect.center.y (rect.width / 2) (rect.height / 2)
            (radians m start + sweepAngleRad m sweep),
          ⟨rect.width / 2, rect.height / 2⟩, 0, SweepDirection.COUNTER_CLOCKWISE,
          ArcSize.SMALL⟩,
       SinkCall.EndFigure FigureEnd.END_OPEN, SinkCall.Close] := by
  simp only [drawArcSink, arcPoint, radians, List.cons.injEq, SinkCall.BeginFigure.injEq,
    SinkCall.AddArc.injEq, ArcSegment.mk.injEq, Point.mk.injEq, and_true, true_and]
  refine ⟨⟨?_, ?_⟩, ⟨?_, ?_⟩, ?_, ?_⟩ <;> ring

theorem arcSegmentCalls_points (m : Libm K) (cur : Point K) (c r a : Segment K) :
    arcSegmentCalls m cur c r a =
      (if 1 / 100000 ≤ |(arcPoint m c.x c.y r.x r.y (radians m a.x)).x - cur.x| ∨
          1 / 100000 ≤ |(arcPoint m c.x c.y r.x r.y (radians m a.x)).y - cur.y| then
        [SinkCall.AddLine (arcPoint m c.x c.y r.x r.y (radians m a.x))]
       else []) ++
      [SinkCall.AddArc
         ⟨arcPoint m c.x c.y r.x r.y (radians m a.x + sweepAngleRad m a.y / 2),
          ⟨r.x, r.y⟩, 0,
          if 0 < sweepAngleRad m a.y then SweepDirection.COUNTER_CLOCKWISE
          else SweepDirection.CLOCKWISE, ArcSize.SMALL⟩,
       SinkCall.AddArc
         ⟨arcPoint m c.x c.y r.x r.y (radians m a.x + sweepAngleRad m a.y),
          ⟨r.x, r.y⟩, 0,
          if 0 < sweepAngleRad m a.y then SweepDirection.COUNTER_CLOCKWISE
          else SweepDirection.CLOCKWISE, ArcSize.SMALL⟩] := by
  rw [arcSegmentCalls_eq]
  have e1 : ∀ t : K, m.cos (-t) * r.x + c.x = c.x + r.x * m.cos (-t) := fun t => by ring
  have e2 : ∀ t : K, m.sin (-t) * r.y + c.y = c.y + r.y * m.sin (-t) := fun t => by ring
  simp only [arcPoint, radians, e1, e2]

/-- C6: for a sweep of at most 360 degrees in magnitude (and `M_PI` not
negative), writing `P(t)` for the ellipse point at angle `t`, `drawArc` begins
its figure at `P(start)` and `drawPlainPath` computes `P(start)` as the arc's
start point (the target of its `AddLine`, issued exactly when the current
position is at least 1e-5 away from it); in both the first sub-arc ends at
`P(start + sweep / 2)` and the second at `P(start + sweep)`, angles converted
from degrees to radians, and both sub-arcs carry the radii `(rx, ry)`,
rotation 0 and the `SMALL` size flag. -/
theorem arc_decomposition (m : Libm K) (hpi : 0 ≤ m.M_PI) (start sweep : K)
    (hs : |sweep| ≤ 360) (bs : BrushStyle) (rect : WRectF K) (cur : Point K)
    (cx cy rx ry : K) :
    (∃ a1 a2,
      drawArcSink m bs rect start sweep =
        [SinkCall.BeginFigure
           (arcPoint m rect.center.x rect.center.y (rect.width / 2) (rect.height / 2)
             (radians m start))
           (if bs ≠ BrushStyle.NoBrush then FigureBegin.FILLED else FigureBegin.HOLLOW),
         SinkCall.AddArc a1, SinkCall.AddArc a2,
         SinkCall.EndFigure FigureEnd.END_OPEN, SinkCall.Close] ∧
      a1.point = arcPoint m rect.center.x rect.center.y (rect.width / 2) (rect.height / 2)
        (radians m (start + sweep / 2)) ∧
      a2.point = arcPoint m rect.center.x rect.center.y (rect.width / 2) (rect.height / 2)
        (radians m (start + sweep)) ∧
      a1.size = ⟨rect.width / 2, rect.height / 2⟩ ∧ a2.size = ⟨rect.width / 2, rect.height / 2⟩ ∧
      a1.rotationAngle = 0 ∧ a2.rotationAngle = 0 ∧
      a1.arcSize = ArcSize.SMALL ∧ a2.arcSize = ArcSize.SMALL) ∧
    (∃ a1 a2,
      arcSegmentCalls m cur ⟨SegmentType.ArcC, cx, cy⟩ ⟨SegmentType.ArcR, rx, ry⟩
          ⟨SegmentType.ArcAngleSweep, start, sweep⟩ =
        (if 1 / 100000 ≤ |(arcPoint m cx cy rx ry (radians m start)).x - cur.x| ∨
            1 / 100000 ≤ |(arcPoint m cx cy rx ry (radians m start)).y - cur.y| then
          [SinkCall.AddLine (arcPoint m cx cy rx ry (radians m start))]
         else []) ++ [SinkCall.AddArc a1, SinkCall.AddArc a2] ∧
      a1.point = arcPoint m cx cy rx ry (radians m (start + sweep / 2)) ∧
      a2.point = arcPoint m cx cy rx ry (radians m (start + sweep)) ∧
      a1.size = ⟨rx, ry⟩ ∧ a2.size = ⟨rx, ry⟩ ∧
      a1.rotationAngle = 0 ∧ a2.rotationAngle = 0 ∧
      a1.arcSize = ArcSize.SMALL ∧ a2.arcSize = ArcSize.SMALL) := by
  have hle : sweep ≤ 360 := (abs_le.mp hs).2
  have hsw := sweepAngleRad_of_le m hpi sweep hle
  have hmid : radians m start + sweepAngleRad m sweep / 2 = radians m (start + sweep / 2) := by
    rw [hsw]; simp only [radians]; ring
  have hend : radians m start + sweepAngleRad m sweep = radians m (start + sweep) := by
    rw [hsw]; simp only [radians]; ring
  constructor
  · refine ⟨_, _, drawArcSink_eq m bs rect start sweep, ?_, ?_, rfl, rfl, rfl, rfl, rfl, rfl⟩
    · simp only [hmid]
    · simp only [hend]
  · refine ⟨_, _, arcSegmentCalls_points m cur _ _ _, ?_, ?_, rfl, rfl, rfl, rfl, rfl, rfl⟩
    · simp only [hmid]
    · simp only [hend]

/-- C6 at centre (0,0), radius 10, start 0, sweep 180: the two sub-arcs end at
the quarter point (0,-10) and at the half point (-10,0). -/
theorem arc_decomposition_witness :
    (0 : ℝ) ≤ Real.pi ∧ |(180 : ℝ)| ≤ 360 ∧
    ∃ a1 a2,
      drawArcSink (⟨Real.cos, Real.sin, Real.pi⟩ : Libm ℝ) BrushStyle.SolidPattern
          ⟨⟨0, 0⟩, 20, 20⟩ 0 180 =
        [SinkCall.BeginFigure ⟨10, 0⟩ FigureBegin.FILLED, SinkCall.AddArc a1, SinkCall.AddArc a2,
         SinkCall.EndFigure FigureEnd.END_OPEN, SinkCall.Close] ∧
      a1.point = ⟨0, -10⟩ ∧ a2.point = ⟨-10, 0⟩ ∧
      a1.arcSize = ArcSize.SMALL ∧ a2.arcSize = ArcSize.SMALL := by
  have hpi : (0 : ℝ) ≤ Real.pi := Real.pi_pos.le
  have hs : |(180 : ℝ)| ≤ 360 := by norm_num
  obtain ⟨a1, a2, h, h1, h2, _, _, _, _, h3, h4⟩ :=
    (arc_decomposition (⟨Real.cos, Real.sin, Real.pi⟩ : Libm ℝ) hpi 0 180 hs
      BrushStyle.SolidPattern ⟨⟨0, 0⟩, 20, 20⟩ ⟨0, 0⟩ 0 0 10 10).1
  refine ⟨hpi, hs, a1, a2, ?_, ?_, ?_, h3, h4⟩
  · rw [h]
    simp [arcPoint, radians]
    norm_num
  · rw [h1]
    have e : ((0 : ℝ) + 180 / 2) / 180 * Real.pi = Real.pi / 2 := by ring
    simp only [arcPoint, radians, e, Real.cos_neg, Real.sin_neg, Real.cos_pi_div_two,
      Real.sin_pi_div_two]
    norm_num
  · rw [h2]
    have e : ((0 : ℝ) + 180) / 180 * Real.pi = Real.pi := by
      have : ((0 : ℝ) + 180) / 180 = 1 := by norm_num
      rw [this, one_mul]
    simp only [arcPoint, radians, e, Real.cos_neg, Real.sin_neg, Real.cos_pi, Real.sin_pi]
    norm_num

theorem sweepAngleRad_neg (sweep : ℝ) (h : sweep ≤ 0) :
    sweepAngleRad (⟨Real.cos, Real.sin, Real.pi⟩ : Libm ℝ) sweep = sweep / 180 * Real.pi ∧
    ¬ 0 < sweepAngleRad (⟨Real.cos, Real.sin, Real.pi⟩ : Libm ℝ) sweep := by
  have h1 := sweepAngleRad_of_le (⟨Real.cos, Real.sin, Real.pi⟩ : Libm ℝ) Real.pi_pos.le sweep
    (by linarith)
  refine ⟨h1, ?_⟩
  rw [h1]
  have : sweep / 180 * Real.pi ≤ 0 :=
    mul_nonpos_of_nonpos_of_nonneg (div_nonpos_of_nonpos_of_nonneg h (by norm_num))
      Real.pi_pos.le
  linarith

/-- C7, evaluated on the code: for the arc with centre (0,0), radius 10, start
0 and sweep -90 degrees, `drawArc` and the arc case of `drawPlainPath` produce
sub-arcs with the same end points, radii and size flag, but `drawArc` tags
both `COUNTER_CLOCKWISE` where `drawPlainPath` tags both `CLOCKWISE`. -/
theorem drawArc_direction_ignores_sign :
    drawArcSink (⟨Real.cos, Real.sin, Real.pi⟩ : Libm ℝ) BrushStyle.NoBrush
        ⟨⟨0, 0⟩, 20, 20⟩ 0 (-90) =
      [SinkCall.BeginFigure ⟨10, 0⟩ FigureBegin.HOLLOW,
       SinkCall.AddArc
         ⟨arcPoint (⟨Real.cos, Real.sin, Real.pi⟩ : Libm ℝ) 0 0 10 10 (-(Real.pi / 4)),
          ⟨10, 10⟩, 0, SweepDirection.COUNTER_CLOCKWISE, ArcSize.SMALL⟩,
       SinkCall.AddArc
         ⟨arcPoint (⟨Real.cos, Real.sin, Real.pi⟩ : Libm ℝ) 0 0 10 10 (-(Real.pi / 2)),
          ⟨10, 10⟩, 0, SweepDirection.COUNTER_CLOCKWISE, ArcSize.SMALL⟩,
       SinkCall.EndFigure FigureEnd.END_OPEN, SinkCall.Close] ∧
    arcSegmentCalls (⟨Real.cos, Real.sin, Real.pi⟩ : Libm ℝ) ⟨10, 0⟩
        ⟨SegmentType.ArcC, 0, 0⟩ ⟨SegmentType.ArcR, 10, 10⟩
        ⟨SegmentType.ArcAngleSweep, 0, -90⟩ =
      [SinkCall.AddArc
         ⟨arcPoint (⟨Real.cos, Real.sin, Real.pi⟩ : Libm ℝ) 0 0 10 10 (-(Real.pi / 4)),
          ⟨10, 10⟩, 0, SweepDirection.CLOCKWISE, ArcSize.SMALL⟩,
       SinkCall.AddArc
         ⟨arcPoint (⟨Real.cos, Real.sin, Real.pi⟩ : Libm ℝ) 0 0 10 10 (-(Real.pi / 2)),
          ⟨10, 10⟩, 0, SweepDirection.CLOCKWISE, ArcSize.SMALL⟩] := by
  have hneg := sweepAngleRad_neg (-90) (by norm_num)
  have hval : sweepAngleRad (⟨Real.cos, Real.sin, Real.pi⟩ : Libm ℝ) (-90)
      = -(Real.pi / 2) := by
    rw [hneg.1]; ring
  have e : (20 : ℝ) / 2 = 10 := by norm_num
  have e2 : -(Real.pi / 2) / 2 = -(Real.pi / 4) := by ring
  refine ⟨?_, ?_⟩
  · rw [drawArcSink_eq, hval]
    simp only [e, e2, ne_eq, not_true_eq_false, if_false]
    simp [arcPoint, radians]
  · rw [arcSegmentCalls_points]
    simp only [if_neg hneg.2]
    simp only [hval, e2]
    have hc : ¬ ((100000 : ℝ) ≤ 0) := by norm_num
    simp [arcPoint, radians, hc]

/-- C8, evaluated on the code: a requested sweep of -720 degrees is used
unclamped, as -4 pi radians, whose magnitude exceeds 2 pi; `drawArc` and the
arc case of `drawPlainPath` place the mid and end points at the angles
`-2 pi` and `-4 pi`. -/
theorem negative_sweep_not_clamped :
    sweepAngleRad (⟨Real.cos, Real.sin, Real.pi⟩ : Libm ℝ) (-720) = -(4 * Real.pi) ∧
    2 * Real.pi < |sweepAngleRad (⟨Real.cos, Real.sin, Real.pi⟩ : Libm ℝ) (-720)| ∧
    drawArcSink (⟨Real.cos, Real.sin, Real.pi⟩ : Libm ℝ) BrushStyle.NoBrush
        ⟨⟨0, 0⟩, 20, 20⟩ 0 (-720) =
      [SinkCall.BeginFigure ⟨10, 0⟩ FigureBegin.HOLLOW,
       SinkCall.AddArc
         ⟨arcPoint (⟨Real.cos, Real.sin, Real.pi⟩ : Libm ℝ) 0 0 10 10 (-(2 * Real.pi)),
          ⟨10, 10⟩, 0, SweepDirection.COUNTER_CLOCKWISE, ArcSize.SMALL⟩,
       SinkCall.AddArc
         ⟨arcPoint (⟨Real.cos, Real.sin, Real.pi⟩ : Libm ℝ) 0 0 10 10 (-(4 * Real.pi)),
          ⟨10, 10⟩, 0, SweepDirection.COUNTER_CLOCKWISE, ArcSize.SMALL⟩,
       SinkCall.EndFigure FigureEnd.END_OPEN, SinkCall.Close] ∧
    arcSegmentCalls (⟨Real.cos, Real.sin, Real.pi⟩ : Libm ℝ) ⟨10, 0⟩
        ⟨SegmentType.ArcC, 0, 0⟩ ⟨SegmentType.ArcR, 10, 10⟩
        ⟨SegmentType.ArcAngleSweep, 0, -720⟩ =
      [SinkCall.AddArc
         ⟨arcPoint (⟨Real.cos, Real.sin, Real.pi⟩ : Libm ℝ) 0 0 10 10 (-(2 * Real.pi)),
          ⟨10, 10⟩, 0, SweepDirection.CLOCKWISE, ArcSize.SMALL⟩,
       SinkCall.AddArc
         ⟨arcPoint (⟨Real.cos, Real.sin, Real.pi⟩ : Libm ℝ) 0 0 10 10 (-(4 * Real.pi)),
          ⟨10, 10⟩, 0, SweepDirection.CLOCKWISE, ArcSize.SMALL⟩] := by
  have hneg := sweepAngleRad_neg (-720) (by norm_num)
  have hval : sweepAngleRad (⟨Real.cos, Real.sin, Real.pi⟩ : Libm ℝ) (-720)
      = -(4 * Real.pi) := by
    rw [hneg.1]; ring
  have hpos := Real.pi_pos
  refine ⟨hval, ?_, ?_, ?_⟩
  · rw [hval, abs_neg, abs_of_pos (by linarith)]
    linarith
  · rw [drawArcSink_eq, hval]
    have e : (20 : ℝ) / 2 = 10 := by norm_num
    have e2 : -(4 * Real.pi) / 2 = -(2 * Real.pi) := by ring
    simp only [e, e2, ne_eq, not_true_eq_false, if_false]
    simp [arcPoint, radians]
  · rw [arcSegmentCalls_points]
    simp only [if_neg hneg.2]
    have e2 : -(4 * Real.pi) / 2 = -(2 * Real.pi) := by ring
    simp only [hval, e2]
    have hc : ¬ ((100000 : ℝ) ≤ 0) := by norm_num
    simp [arcPoint, radians, hc]

end ArcTheorems

section BrushTheorems

variable {K : Type} [LinearOrderedField K]

theorem setChanged_brushOnly (m : Libm K) (env : Env) (painter : WPainter K) (s : Impl K) :
    (setChanged m env painter brushOnly s).impl = (setChangedBrush env painter s).1 ∧
    (setChanged m env painter brushOnly s).events = (setChangedBrush env painter s).2 ∧
    (setChanged m env painter brushOnly s).raised = false := by
  simp [setChanged, brushOnly]

theorem setChangedBrush_solid_on_solid (env : Env) (painter : WPainter K) (s : Impl K)
    (hb : painter.brush.style = BrushStyle.SolidPattern)
    (hs : s.fillBrushStyle_ = BrushStyle.SolidPattern) :
    setChangedBrush env painter s =
      ({ s with fillBrush_ := fillSetColor s.fillBrush_ (fromWColor painter.brush.color) },
       [Event.FillSetColor s.fillBrush_ (fromWColor painter.brush.color)]) := by
  simp [setChangedBrush, hb, hs]

theorem setChangedBrush_solid_on_other (env : Env) (painter : WPainter K) (s : Impl K)
    (hb : painter.brush.style = BrushStyle.SolidPattern)
    (hs : s.fillBrushStyle_ ≠ BrushStyle.SolidPattern) :
    setChangedBrush env painter s =
      ({ s with
          fillBrush_ := env.solidColorBrush.map
            (fun n => FillBrush.solid n (fromWColor painter.brush.color)),
          fillBrushStyle_ := BrushStyle.SolidPattern },
       releaseFill s.fillBrush_ ++
         [Event.CreateSolidColorBrush (fromWColor painter.brush.color) env.solidColorBrush]) := by
  simp [setChangedBrush, hb, hs]

theorem setChangedBrush_gradient (env : Env) (painter : WPainter K) (s : Impl K)
    (hb : painter.brush.style = BrushStyle.GradientPattern) :
    setChangedBrush env painter s =
      ({ s with
          fillBrush_ := env.gradientBrush.map (gradientBrushOf painter.brush.gradient),
          fillBrushStyle_ := BrushStyle.GradientPattern },
       [Event.CreateGradientStopCollection
          (painter.brush.gradient.colorstops.map (fun cs => (cs.1, fromWColor cs.2)))
          env.gradientStopCollection] ++
         releaseFill s.fillBrush_ ++ [gradientCreateEvent env painter.brush.gradient] ++
         SafeRelease env.gradientStopCollection) := by
  have hne : ¬ (painter.brush.style = BrushStyle.SolidPattern) := by rw [hb]; decide
  dsimp only [setChangedBrush]
  rw [if_neg hne, if_pos hb]
  cases hst : painter.brush.gradient.style <;>
    simp [gradientCreateEvent, gradientBrushOf, hst, fromPointF] <;>
    cases env.gradientBrush <;> simp [gradientBrushOf, hst]

/-- C10: on a device constructed with non-zero size (whose fill brush is the
solid brush `fb` made by the constructor), applying a Solid brush and then a
second Solid brush issues only `SetColor` on that same brush object, which
ends with the last colour; applying Solid, Gradient, Solid issues `SetColor`
the first time, releases `fb` and creates a gradient brush the second time,
and (that creation yielding `g`) releases `g` and creates a solid brush the
third time. -/
theorem solid_brush_reuse (m : Libm K) (w h : Nat) (cenv : CtorEnv) (s0 : Impl K)
    (hnew : WRasterImage.new w h cenv = some s0) (hw : w ≠ 0) (hh : h ≠ 0)
    (e1 e2 e3 : Env) (pa pb pg : WPainter K)
    (ha : pa.brush.style = BrushStyle.SolidPattern)
    (hb : pb.brush.style = BrushStyle.SolidPattern)
    (hg : pg.brush.style = BrushStyle.GradientPattern)
    (g : Nat) (hcreated : e2.gradientBrush = some g) :
    ∃ fb, cenv.fillBrush = some fb ∧
      s0.fillBrush_ = some (FillBrush.solid fb ⟨0, 0, 0, 0⟩) ∧
      (setChanged m e1 pa brushOnly s0).events =
        [Event.FillSetColor (some (FillBrush.solid fb ⟨0, 0, 0, 0⟩)) (fromWColor pa.brush.color)] ∧
      (setChanged m e1 pa brushOnly s0).impl.fillBrush_ =
        some (FillBrush.solid fb (fromWColor pa.brush.color)) ∧
      (setChanged m e2 pb brushOnly (setChanged m e1 pa brushOnly s0).impl).events =
        [Event.FillSetColor (some (FillBrush.solid fb (fromWColor pa.brush.color)))
          (fromWColor pb.brush.color)] ∧
      (setChanged m e2 pb brushOnly (setChanged m e1 pa brushOnly s0).impl).impl.fillBrush_ =
        some (FillBrush.solid fb (fromWColor pb.brush.color)) ∧
      (setChanged m e2 pg brushOnly (setChanged m e1 pa brushOnly s0).impl).events =
        [Event.CreateGradientStopCollection
            (pg.brush.gradient.colorstops.map (fun cs => (cs.1, fromWColor cs.2)))
            e2.gradientStopCollection,
         Event.Release fb, gradientCreateEvent e2 pg.brush.gradient] ++
          SafeRelease e2.gradientStopCollection ∧
      (setChanged m e2 pg brushOnly (setChanged m e1 pa brushOnly s0).impl).impl.fillBrush_ =
        some (gradientBrushOf pg.brush.gradient g) ∧
      (setChanged m e3 pb brushOnly
          (setChanged m e2 pg brushOnly (setChanged m e1 pa brushOnly s0).impl).impl).events =
        [Event.Release g,
         Event.CreateSolidColorBrush (fromWColor pb.brush.color) e3.solidColorBrush] ∧
      (setChanged m e3 pb brushOnly
          (setChanged m e2 pg brushOnly (setChanged m e1 pa brushOnly s0).impl).impl).impl.fillBrush_ =
        e3.solidColorBrush.map (fun n => FillBrush.solid n (fromWColor pb.brush.color)) := by
  have hsz : ¬ (w = 0 ∨ h = 0) := by simp [hw, hh]
  unfold WRasterImage.new at hnew
  rw [if_neg hsz] at hnew
  split at hnew
  · rename_i fb sb st cg cl tf f hfb _ _ _ _ _ _
    injection hnew with hnew
    subst hnew
    refine ⟨fb, hfb, rfl, ?_⟩
    have r1 := setChangedBrush_solid_on_solid e1 pa
      ({ (Impl.initial : Impl K) with
          w_ := w, h_ := h, fillBrush_ := some (FillBrush.solid fb ⟨0, 0, 0, 0⟩),
          strokeBrush_ := some sb, stroke_ := some st, clipGeometry_ := some cg,
          clipLayer_ := some cl, textFormat_ := some tf, font_ := some f }) ha rfl
    simp only [setChanged_brushOnly]
    rw [r1]
    simp only [fillSetColor]
    refine ⟨trivial, trivial, ?_, ?_, ?_, ?_, ?_, ?_⟩
    · rw [setChangedBrush_solid_on_solid e2 pb _ hb rfl]
    · rw [setChangedBrush_solid_on_solid e2 pb _ hb rfl]; rfl
    · rw [setChangedBrush_gradient e2 pg _ hg]
      simp [releaseFill, FillBrush.id]
    · rw [setChangedBrush_gradient e2 pg _ hg]
      simp [hcreated]
    · rw [setChangedBrush_gradient e2 pg _ hg]
      rw [setChangedBrush_solid_on_other e3 pb _ hb (by simp)]
      simp only [hcreated, Option.map_some', releaseFill]
      cases hst : pg.brush.gradient.style <;> simp [gradientBrushOf, hst, FillBrush.id]
    · rw [setChangedBrush_gradient e2 pg _ hg]
      rw [setChangedBrush_solid_on_other e3 pb _ hb (by simp)]
  · cases hnew

/-- C10 on the sample device: a red then a blue solid brush, and red,
gradient, blue. -/
theorem solid_brush_reuse_witness :
    WRasterImage.new 100 100 sampleCtorEnv = some (sampleDevice ℝ) ∧
    (solidPainter ℝ ⟨255, 0, 0, 255⟩).brush.style = BrushStyle.SolidPattern ∧
    (solidPainter ℝ ⟨0, 0, 255, 255⟩).brush.style = BrushStyle.SolidPattern ∧
    (gradientPainter ℝ).brush.style = BrushStyle.GradientPattern ∧
    (Env.allOk 20).gradientBrush = some 25 ∧
    (setChanged (⟨Real.cos, Real.sin, Real.pi⟩ : Libm ℝ) (Env.allOk 20)
        (solidPainter ℝ ⟨0, 0, 255, 255⟩) brushOnly
        (setChanged (⟨Real.cos, Real.sin, Real.pi⟩ : Libm ℝ) (Env.allOk 10)
          (solidPainter ℝ ⟨255, 0, 0, 255⟩) brushOnly (sampleDevice ℝ)).impl).events =
      [Event.FillSetColor
        (some (FillBrush.solid 1 (fromWColor (solidPainter ℝ ⟨255, 0, 0, 255⟩).brush.color)))
        (fromWColor (solidPainter ℝ ⟨0, 0, 255, 255⟩).brush.color)] ∧
    (setChanged (⟨Real.cos, Real.sin, Real.pi⟩ : Libm ℝ) (Env.allOk 30)
        (solidPainter ℝ ⟨0, 0, 255, 255⟩) brushOnly
        (setChanged (⟨Real.cos, Real.sin, Real.pi⟩ : Libm ℝ) (Env.allOk 20)
          (gradientPainter ℝ) brushOnly
          (setChanged (⟨Real.cos, Real.sin, Real.pi⟩ : Libm ℝ) (Env.allOk 10)
            (solidPainter ℝ ⟨255, 0, 0, 255⟩) brushOnly (sampleDevice ℝ)).impl).impl).events =
      [Event.Release 25,
       Event.CreateSolidColorBrush (fromWColor (solidPainter ℝ ⟨0, 0, 255, 255⟩).brush.color)
         (Env.allOk 30).solidColorBrush] := by
  have hnew : WRasterImage.new 100 100 sampleCtorEnv = some (sampleDevice ℝ) :=
    sampleDevice_constructed
  obtain ⟨fb, hfb, _, _, _, h2, _, _, _, h3, _⟩ :=
    solid_brush_reuse (⟨Real.cos, Real.sin, Real.pi⟩ : Libm ℝ) 100 100 sampleCtorEnv
      (sampleDevice ℝ) hnew (by decide) (by decide) (Env.allOk 10) (Env.allOk 20) (Env.allOk 30)
      (solidPainter ℝ ⟨255, 0, 0, 255⟩) (solidPainter ℝ ⟨0, 0, 255, 255⟩) (gradientPainter ℝ)
      rfl rfl rfl 25 rfl
  have hfb1 : fb = 1 := by
    simp [sampleCtorEnv] at hfb
    exact hfb.symm
  subst hfb1
  exact ⟨hnew, rfl, rfl, rfl, rfl, h2, h3⟩

end BrushTheorems

section FlagTheorems

variable {K : Type} [LinearOrderedField K]

/-- C20: for every flag set containing `Transform`, `setChanged` gives the same
state, the same calls in the same order and the same exception outcome as with
`Pen`, `Brush`, `Font` and `Hints` added to the flags; its calls are those of
the clip block (only if `Clipping` is in the flags), then `SetTransform` of the
combined transform, then the hints, pen, brush and font blocks. -/
theorem transform_reapplies_styles (m : Libm K) (env : Env) (painter : WPainter K)
    (flags : ChangeFlags) (s : Impl K) (ht : flags.Transform = true) :
    setChanged m env painter flags s =
      setChanged m env painter
        { flags with Pen := true, Brush := true, Font := true, Hints := true } s ∧
    (setChanged m env painter flags s).events =
      (if flags.Clipping then (setChangedClipping m env painter s).2 else []) ++
      [Event.SetTransform painter.combinedTransform] ++
      setChangedHints painter ++
      (setChangedPen env painter
        (if flags.Clipping then (setChangedClipping m env painter s).1 else s)).2 ++
      (setChangedBrush env painter
        (setChangedPen env painter
          (if flags.Clipping then (setChangedClipping m env painter s).1 else s)).1).2 ++
      (setChangedFont env painter
        (setChangedBrush env painter
          (setChangedPen env painter
            (if flags.Clipping then (setChangedClipping m env painter s).1 else s)).1).1).events
    := by
  constructor
  · simp [setChanged, ht]
  · cases hc : flags.Clipping <;> simp [setChanged, ht, hc, penBrushFontHints]

/-- C20 on the sample device, with the flags `Transform` alone. -/
theorem transform_reapplies_styles_witness :
    ({ Clipping := false, Transform := true, Pen := false, Brush := false, Font := false,
       Hints := false, Shadow := false } : ChangeFlags).Transform = true ∧
    setChanged (⟨Real.cos, Real.sin, Real.pi⟩ : Libm ℝ) (Env.allOk 10) (samplePainter ℝ false)
        { Clipping := false, Transform := true, Pen := false, Brush := false, Font := false,
          Hints := false, Shadow := false } (sampleDevice ℝ) =
      setChanged (⟨Real.cos, Real.sin, Real.pi⟩ : Libm ℝ) (Env.allOk 10) (samplePainter ℝ false)
        { Clipping := false, Transform := true, Pen := true, Brush := true, Font := true,
          Hints := true, Shadow := false } (sampleDevice ℝ) :=
  ⟨rfl, (transform_reapplies_styles (⟨Real.cos, Real.sin, Real.pi⟩ : Libm ℝ) (Env.allOk 10)
    (samplePainter ℝ false)
    { Clipping := false, Transform := true, Pen := false, Brush := false, Font := false,
      Hints := false, Shadow := false } (sampleDevice ℝ) rfl).1⟩

end FlagTheorems

section PenTheorems

variable {K : Type} [LinearOrderedField K]

theorem setChanged_penOnly (m : Libm K) (env : Env) (painter : WPainter K) (s : Impl K) :
    (setChanged m env painter penOnly s).impl = (setChangedPen env painter s).1 ∧
    (setChanged m env painter penOnly s).events = (setChangedPen env painter s).2 ∧
    (setChanged m env painter penOnly s).raised = false := by
  simp [setChanged, penOnly]

theorem setChangedPen_noPen (env : Env) (painter : WPainter K) (s : Impl K)
    (h : painter.pen.style = PenStyle.NoPen) :
    setChangedPen env painter s = (s, []) := by
  simp [setChangedPen, h]

theorem setChangedPen_drawn (env : Env) (painter : WPainter K) (s : Impl K)
    (h : painter.pen.style ≠ PenStyle.NoPen) :
    setChangedPen env painter s =
      ({ s with
          lineWidth_ := painter.normalizedPenWidth painter.pen.width
            (decide (painter.pen.width = 0)),
          stroke_ := env.strokeStyle },
       [Event.StrokeSetColor s.strokeBrush_ (fromWColor painter.pen.color)] ++
       SafeRelease s.stroke_ ++
       [Event.CreateStrokeStyle
          { startCap := penCap painter.pen.capStyle, endCap := penCap painter.pen.capStyle,
            dashCap := penCap painter.pen.capStyle, lineJoin := penJoin painter.pen.joinStyle }
          (penDashes painter.pen.style) env.strokeStyle]) := by
  simp [setChangedPen, h]

/-- C15 as stated fails: with a pen of style `NoPen`, `setChanged(Pen)` on the
sample device makes no call at all and leaves the device as it was (stroke
colour, `lineWidth_` and stroke style untouched). -/
theorem pen_application_skips_NoPen_counterexample :
    (setChanged (⟨Real.cos, Real.sin, Real.pi⟩ : Libm ℝ) (Env.allOk 10)
        { samplePainter ℝ false with
          pen := ⟨PenStyle.NoPen, PenCapStyle.FlatCap, PenJoinStyle.MiterJoin,
                  ⟨255, 0, 0, 255⟩, 3⟩ }
        penOnly (sampleDevice ℝ)).events = [] ∧
    (setChanged (⟨Real.cos, Real.sin, Real.pi⟩ : Libm ℝ) (Env.allOk 10)
        { samplePainter ℝ false with
          pen := ⟨PenStyle.NoPen, PenCapStyle.FlatCap, PenJoinStyle.MiterJoin,
                  ⟨255, 0, 0, 255⟩, 3⟩ }
        penOnly (sampleDevice ℝ)).impl = sampleDevice ℝ := by
  simp only [setChanged_penOnly]
  rw [setChangedPen_noPen _ _ _ rfl]
  exact ⟨rfl, rfl⟩

/-- C15 (amended): for every pen whose style is not `NoPen`, `setChanged(Pen)`
sets the colour of the cached stroke brush to the pen colour, sets `lineWidth_`
to the normalized pen width, releases the previous stroke style and creates a
new one, which becomes `stroke_`; for a pen of style `NoPen` it makes no call
and changes nothing. -/
theorem pen_application (m : Libm K) (env : Env) (painter : WPainter K) (s : Impl K) :
    (painter.pen.style ≠ PenStyle.NoPen →
      ∃ props dashes,
        (setChanged m env painter penOnly s).events =
          [Event.StrokeSetColor s.strokeBrush_ (fromWColor painter.pen.color)] ++
          SafeRelease s.stroke_ ++ [Event.CreateStrokeStyle props dashes env.strokeStyle] ∧
        (setChanged m env painter penOnly s).impl =
          { s with
            lineWidth_ := painter.normalizedPenWidth painter.pen.width
              (decide (painter.pen.width = 0)),
            stroke_ := env.strokeStyle }) ∧
    (painter.pen.style = PenStyle.NoPen →
      (setChanged m env painter penOnly s).events = [] ∧
      (setChanged m env painter penOnly s).impl = s) ∧
    (setChanged m env painter penOnly s).raised = false := by
  simp only [setChanged_penOnly]
  refine ⟨?_, ?_, trivial⟩
  · intro h
    rw [setChangedPen_drawn env painter s h]
    exact ⟨_, _, rfl, rfl⟩
  · intro h
    rw [setChangedPen_noPen env painter s h]
    exact ⟨rfl, rfl⟩

/-- C15 (amended) on the sample device with its solid black pen of width 1. -/
theorem pen_application_witness :
    (samplePainter ℝ false).pen.style ≠ PenStyle.NoPen ∧
    (setChanged (⟨Real.cos, Real.sin, Real.pi⟩ : Libm ℝ) (Env.allOk 10)
        (samplePainter ℝ false) penOnly (sampleDevice ℝ)).impl.stroke_ = some 12 ∧
    (setChanged (⟨Real.cos, Real.sin, Real.pi⟩ : Libm ℝ) (Env.allOk 10)
        (samplePainter ℝ false) penOnly (sampleDevice ℝ)).impl.lineWidth_ = 1 := by
  have hne : (samplePainter ℝ false).pen.style ≠ PenStyle.NoPen := by
    simp [samplePainter]
  obtain ⟨_, _, _, h⟩ :=
    (pen_application (⟨Real.cos, Real.sin, Real.pi⟩ : Libm ℝ) (Env.allOk 10)
      (samplePainter ℝ false) (sampleDevice ℝ)).1 hne
  refine ⟨hne, ?_, ?_⟩
  · rw [h]; rfl
  · rw [h]; simp [samplePainter]

/-- C16: for every pen whose style is not `NoPen`, the one `CreateStrokeStyle`
call of `setChanged(Pen)` receives the dash array [4,2] for `DashLine`, [1,2]
for `DotLine`, [4,2,1,2] for `DashDotLine`, [4,2,1,2,1,2] for
`DashDotDotLine` and no dashes for `SolidLine`; its start, end and dash caps
are equal and are flat, square or round as the pen cap is, and its line join
is miter, bevel or round as the pen join is. -/
theorem dash_pattern_table (m : Libm K) (env : Env) (painter : WPainter K) (s : Impl K)
    (h : painter.pen.style ≠ PenStyle.NoPen) :
    ∃ props dashes,
      (setChanged m env painter penOnly s).events =
        [Event.StrokeSetColor s.strokeBrush_ (fromWColor painter.pen.color)] ++
        SafeRelease s.stroke_ ++ [Event.CreateStrokeStyle props dashes env.strokeStyle] ∧
      (painter.pen.style = PenStyle.SolidLine → dashes = []) ∧
      (painter.pen.style = PenStyle.DashLine → dashes = [4, 2]) ∧
      (painter.pen.style = PenStyle.DotLine → dashes = [1, 2]) ∧
      (painter.pen.style = PenStyle.DashDotLine → dashes = [4, 2, 1, 2]) ∧
      (painter.pen.style = PenStyle.DashDotDotLine → dashes = [4, 2, 1, 2, 1, 2]) ∧
      props.startCap = props.endCap ∧ props.endCap = props.dashCap ∧
      (painter.pen.capStyle = PenCapStyle.FlatCap → props.startCap = CapStyle.FLAT) ∧
      (painter.pen.capStyle = PenCapStyle.SquareCap → props.startCap = CapStyle.SQUARE) ∧
      (painter.pen.capStyle = PenCapStyle.RoundCap → props.startCap = CapStyle.ROUND) ∧
      (painter.pen.joinStyle = PenJoinStyle.MiterJoin → props.lineJoin = LineJoin.MITER) ∧
      (painter.pen.joinStyle = PenJoinStyle.BevelJoin → props.lineJoin = LineJoin.BEVEL) ∧
      (painter.pen.joinStyle = PenJoinStyle.RoundJoin → props.lineJoin = LineJoin.ROUND) := by
  simp only [setChanged_penOnly]
  rw [setChangedPen_drawn env painter s h]
  refine ⟨_, _, rfl, ?_, ?_, ?_, ?_, ?_, rfl, rfl, ?_, ?_, ?_, ?_, ?_, ?_⟩
  all_goals intro h1
  all_goals simp [h1, penDashes, penCap, penJoin]

/-- C16 for a dash-dot pen with round caps and bevel joins on the sample device. -/
theorem dash_pattern_table_witness :
    ({ samplePainter ℝ false with
        pen := ⟨PenStyle.DashDotLine, PenCapStyle.RoundCap, PenJoinStyle.BevelJoin,
                ⟨0, 0, 0, 255⟩, 2⟩ } : WPainter ℝ).pen.style ≠ PenStyle.NoPen ∧
    (setChanged (⟨Real.cos, Real.sin, Real.pi⟩ : Libm ℝ) (Env.allOk 10)
        { samplePainter ℝ false with
          pen := ⟨PenStyle.DashDotLine, PenCapStyle.RoundCap, PenJoinStyle.BevelJoin,
                  ⟨0, 0, 0, 255⟩, 2⟩ }
        penOnly (sampleDevice ℝ)).events =
      [Event.StrokeSetColor (some 2) (fromWColor ⟨0, 0, 0, 255⟩), Event.Release 3,
       Event.CreateStrokeStyle ⟨CapStyle.ROUND, CapStyle.ROUND, CapStyle.ROUND, LineJoin.BEVEL⟩
         [4, 2, 1, 2] (some 12)] := by
  have hne : ({ samplePainter ℝ false with
        pen := ⟨PenStyle.DashDotLine, PenCapStyle.RoundCap, PenJoinStyle.BevelJoin,
                ⟨0, 0, 0, 255⟩, 2⟩ } : WPainter ℝ).pen.style ≠ PenStyle.NoPen := by
    simp
  obtain ⟨props, dashes, he, _, _, _, hd, _, h1, h2, _, _, hc, _, hj, _⟩ :=
    dash_pattern_table (⟨Real.cos, Real.sin, Real.pi⟩ : Libm ℝ) (Env.allOk 10)
      { samplePainter ℝ false with
        pen := ⟨PenStyle.DashDotLine, PenCapStyle.RoundCap, PenJoinStyle.BevelJoin,
                ⟨0, 0, 0, 255⟩, 2⟩ }
      (sampleDevice ℝ) hne
  refine ⟨hne, ?_⟩
  rw [he, hd rfl]
  have e1 := hc rfl
  have e2 := hj rfl
  obtain ⟨a, b, c, d⟩ := props
  simp only at h1 h2 e1 e2
  subst e1 e2
  subst h1
  subst h2
  simp [sampleDevice, SafeRelease, Env.allOk]

/-- C18, evaluated on the code: on the sample device, when `CreateStrokeStyle`
fails in `setChanged(Pen)`, and when the gradient stop collection and the
gradient brush fail to be created in `setChanged(Brush)`, the call returns
normally, leaves `stroke_` (resp. `fillBrush_`) `NULL`, and logs nothing;
a failed clip geometry creation in `setChanged(Clipping)` does log an error. -/
theorem uncreated_style_resources_not_logged :
    errorLogs (setChanged (⟨Real.cos, Real.sin, Real.pi⟩ : Libm ℝ)
        { Env.allOk 10 with strokeStyle := none } (samplePainter ℝ false) penOnly
        (sampleDevice ℝ)).events = [] ∧
    (setChanged (⟨Real.cos, Real.sin, Real.pi⟩ : Libm ℝ)
        { Env.allOk 10 with strokeStyle := none } (samplePainter ℝ false) penOnly
        (sampleDevice ℝ)).impl.stroke_ = none ∧
    (setChanged (⟨Real.cos, Real.sin, Real.pi⟩ : Libm ℝ)
        { Env.allOk 10 with strokeStyle := none } (samplePainter ℝ false) penOnly
        (sampleDevice ℝ)).raised = false ∧
    errorLogs (setChanged (⟨Real.cos, Real.sin, Real.pi⟩ : Libm ℝ)
        { Env.allOk 10 with gradientStopCollection := none, gradientBrush := none }
        (gradientPainter ℝ) brushOnly (sampleDevice ℝ)).events = [] ∧
    (setChanged (⟨Real.cos, Real.sin, Real.pi⟩ : Libm ℝ)
        { Env.allOk 10 with gradientStopCollection := none, gradientBrush := none }
        (gradientPainter ℝ) brushOnly (sampleDevice ℝ)).impl.fillBrush_ = none ∧
    errorLogs (setChanged (⟨Real.cos, Real.sin, Real.pi⟩ : Libm ℝ)
        { Env.allOk 10 with pathGeometry := none } (samplePainter ℝ true) clippingOnly
        (sampleDevice ℝ)).events = ["D2D error when creating clip path"] := by
  have hne : (samplePainter ℝ false).pen.style ≠ PenStyle.NoPen := by
    simp [samplePainter]
  refine ⟨?_, ?_, ?_, ?_, ?_, ?_⟩
  · simp only [setChanged_penOnly]
    rw [setChangedPen_drawn _ _ _ hne]
    simp [sampleDevice, SafeRelease, errorLogs]
  · simp only [setChanged_penOnly]
    rw [setChangedPen_drawn _ _ _ hne]
  · simp only [setChanged_penOnly]
  · simp only [setChanged_brushOnly]
    rw [setChangedBrush_gradient _ _ _ rfl]
    simp [sampleDevice, SafeRelease, releaseFill, errorLogs, gradientCreateEvent,
      gradientPainter]
  · simp only [setChanged_brushOnly]
    rw [setChangedBrush_gradient _ _ _ rfl]
    rfl
  · simp [setChanged, clippingOnly, setChangedClipping, samplePainter, sampleDevice,
      SafeRelease, errorLogs, Env.allOk]

end PenTheorems

section BrushKindTheorems

variable {K : Type} [LinearOrderedField K]

theorem recreatesFill_append (a b : List (Event K)) :
    recreatesFill (a ++ b) = (recreatesFill a || recreatesFill b) := by
  simp [recreatesFill, List.any_append]

theorem recreatesFill_releaseFill (b : Option (FillBrush K)) :
    recreatesFill (releaseFill b) = false := by
  cases b <;> simp [releaseFill, recreatesFill, Event.isFillCreate]

theorem recreatesFill_SafeRelease (p : Handle) :
    recreatesFill (SafeRelease p : List (Event K)) = false := by
  cases p <;> simp [SafeRelease, recreatesFill, Event.isFillCreate]

theorem setChangedBrush_noBrush (env : Env) (painter : WPainter K) (s : Impl K)
    (h : painter.brush.style = BrushStyle.NoBrush) :
    setChangedBrush env painter s = (s, []) := by
  simp [setChangedBrush, h]

theorem recreatesFill_gradientCreateEvent (env : Env) (g : WGradient K) :
    recreatesFill [gradientCreateEvent env g] = true := by
  cases h : g.style <;> simp [gradientCreateEvent, h, recreatesFill, Event.isFillCreate]

/-- One brush application creates no fill brush exactly when the brush is
`NoBrush`, or solid with `fillBrushStyle_` solid. -/
theorem setChangedBrush_recreates (env : Env) (painter : WPainter K) (s : Impl K) :
    (recreatesFill (setChangedBrush env painter s).2 = false ↔
      (painter.brush.style = BrushStyle.NoBrush ∨
       (painter.brush.style = BrushStyle.SolidPattern ∧
        s.fillBrushStyle_ = BrushStyle.SolidPattern))) ∧
    (setChangedBrush env painter s).1.fillBrushStyle_ =
      (if painter.brush.style = BrushStyle.NoBrush then s.fillBrushStyle_
       else painter.brush.style) := by
  cases hb : painter.brush.style with
  | NoBrush =>
    rw [setChangedBrush_noBrush env painter s hb]
    simp [recreatesFill]
  | SolidPattern =>
    by_cases hs : s.fillBrushStyle_ = BrushStyle.SolidPattern
    · rw [setChangedBrush_solid_on_solid env painter s hb hs]
      simp [recreatesFill, Event.isFillCreate, hs]
    · rw [setChangedBrush_solid_on_other env painter s hb hs]
      simp [recreatesFill_append, recreatesFill_releaseFill, recreatesFill,
        Event.isFillCreate, hs]
  | GradientPattern =>
    rw [setChangedBrush_gradient env painter s hb]
    simp only [recreatesFill_append, recreatesFill_releaseFill, recreatesFill_SafeRelease,
      recreatesFill_gradientCreateEvent]
    simp

theorem applyBrushes_append (m : Libm K) (a b : List (Env × WPainter K)) (s : Impl K) :
    applyBrushes m (a ++ b) s = applyBrushes m b (applyBrushes m a s) := by
  induction a generalizing s with
  | nil => rfl
  | cons x rest ih =>
    obtain ⟨env, painter⟩ := x
    simp [applyBrushes, ih]

theorem applyBrushes_style (m : Libm K) (apps : List (Env × WPainter K)) (s : Impl K) :
    (applyBrushes m apps s).fillBrushStyle_ =
      lastAppliedKind s.fillBrushStyle_ (apps.map (fun a => a.2.brush.style)) := by
  induction apps generalizing s with
  | nil => rfl
  | cons x rest ih =>
    obtain ⟨env, painter⟩ := x
    simp only [applyBrushes, List.map_cons, lastAppliedKind]
    rw [ih, (setChanged_brushOnly m env painter s).1, (setChangedBrush_recreates env painter s).2]

/-- C11 as stated fails in both directions on the sample device: a gradient
brush applied after a gradient brush (same kind) creates a new gradient brush
and releases the previous one (object 15); and `NoBrush` applied after a solid
brush (other kind) creates and releases nothing. -/
theorem brush_identity_counterexample :
    (gradientPainter ℝ).brush.style = BrushStyle.GradientPattern ∧
    recreatesFill (setChanged (⟨Real.cos, Real.sin, Real.pi⟩ : Libm ℝ) (Env.allOk 20)
        (gradientPainter ℝ) brushOnly
        (setChanged (⟨Real.cos, Real.sin, Real.pi⟩ : Libm ℝ) (Env.allOk 10)
          (gradientPainter ℝ) brushOnly (sampleDevice ℝ)).impl).events = true ∧
    releasedHandles (setChanged (⟨Real.cos, Real.sin, Real.pi⟩ : Libm ℝ) (Env.allOk 20)
        (gradientPainter ℝ) brushOnly
        (setChanged (⟨Real.cos, Real.sin, Real.pi⟩ : Libm ℝ) (Env.allOk 10)
          (gradientPainter ℝ) brushOnly (sampleDevice ℝ)).impl).events = [15, 24] ∧
    (setChanged (⟨Real.cos, Real.sin, Real.pi⟩ : Libm ℝ) (Env.allOk 20)
        { samplePainter ℝ false with
          brush := { (samplePainter ℝ false).brush with style := BrushStyle.NoBrush } }
        brushOnly
        (setChanged (⟨Real.cos, Real.sin, Real.pi⟩ : Libm ℝ) (Env.allOk 10)
          (solidPainter ℝ ⟨255, 0, 0, 255⟩) brushOnly (sampleDevice ℝ)).impl).events = [] := by
  refine ⟨rfl, ?_, ?_, ?_⟩
  · simp only [setChanged_brushOnly]
    exact Bool.not_eq_false _ |>.mp (fun h =>
      by
        have := ((setChangedBrush_recreates (Env.allOk 20) (gradientPainter ℝ)
          (setChangedBrush (Env.allOk 10) (gradientPainter ℝ) (sampleDevice ℝ)).1).1).mp h
        simp [gradientPainter] at this)
  · simp only [setChanged_brushOnly]
    rw [setChangedBrush_gradient (Env.allOk 10) _ _ rfl,
      setChangedBrush_gradient (Env.allOk 20) _ _ rfl]
    simp [releasedHandles, releaseFill, SafeRelease, Env.allOk, gradientBrushOf,
      gradientPainter, samplePainter, gradientCreateEvent, FillBrush.id]
  · simp only [setChanged_brushOnly]
    rw [setChangedBrush_noBrush _ _ _ rfl]

/-- C11 (amended): along every sequence of `setChanged(Brush)` calls from a
device whose cached style is solid (as after construction), `fillBrushStyle_`
is the kind of the last applied brush other than `NoBrush` (solid if there is
none), and the next application creates no fill brush exactly when the
requested brush is `NoBrush`, or is solid while that last kind is solid. When
no brush is created nothing is released and the brush object stays the same;
when one is created, the old brush (if any) is released before. -/
theorem brush_identity_rule (m : Libm K) (s0 : Impl K)
    (h0 : s0.fillBrushStyle_ = BrushStyle.SolidPattern)
    (apps : List (Env × WPainter K)) (env : Env) (painter : WPainter K) :
    (applyBrushes m apps s0).fillBrushStyle_ =
      lastAppliedKind BrushStyle.SolidPattern (apps.map (fun a => a.2.brush.style)) ∧
    (recreatesFill (setChanged m env painter brushOnly (applyBrushes m apps s0)).events = false ↔
      (painter.brush.style = BrushStyle.NoBrush ∨
       (painter.brush.style = BrushStyle.SolidPattern ∧
        lastAppliedKind BrushStyle.SolidPattern (apps.map (fun a => a.2.brush.style)) =
          BrushStyle.SolidPattern))) ∧
    (recreatesFill (setChanged m env painter brushOnly (applyBrushes m apps s0)).events = false →
      releasedHandles (setChanged m env painter brushOnly (applyBrushes m apps s0)).events = [] ∧
      (setChanged m env painter brushOnly (applyBrushes m apps s0)).impl.fillBrush_.map
          FillBrush.id = (applyBrushes m apps s0).fillBrush_.map FillBrush.id) ∧
    (recreatesFill (setChanged m env painter brushOnly (applyBrushes m apps s0)).events = true →
      ∃ before after,
        (setChanged m env painter brushOnly (applyBrushes m apps s0)).events =
          before ++ releaseFill (applyBrushes m apps s0).fillBrush_ ++ after ∧
        recreatesFill before = false ∧ recreatesFill after = true) := by
  have hst := applyBrushes_style m apps s0
  rw [h0] at hst
  have hr := setChangedBrush_recreates env painter (applyBrushes m apps s0)
  simp only [setChanged_brushOnly]
  refine ⟨hst, ?_, ?_, ?_⟩
  · rw [hr.1, hst]
  · intro hno
    rcases hr.1.mp hno with hb | ⟨hb, hs⟩
    · rw [setChangedBrush_noBrush _ _ _ hb]
      exact ⟨rfl, rfl⟩
    · rw [setChangedBrush_solid_on_solid _ _ _ hb hs]
      refine ⟨by simp [releasedHandles], ?_⟩
      cases hfb : (applyBrushes m apps s0).fillBrush_ with
      | none => simp [fillSetColor]
      | some b => cases b <;> simp [fillSetColor, FillBrush.id]
  · intro hyes
    cases hb : painter.brush.style with
    | NoBrush =>
      exfalso
      have := hr.1.mpr (Or.inl hb)
      rw [this] at hyes
      cases hyes
    | SolidPattern =>
      have hs : (applyBrushes m apps s0).fillBrushStyle_ ≠ BrushStyle.SolidPattern := by
        intro hs
        have := hr.1.mpr (Or.inr ⟨hb, hs⟩)
        rw [this] at hyes
        cases hyes
      rw [setChangedBrush_solid_on_other _ _ _ hb hs]
      exact ⟨[], [Event.CreateSolidColorBrush (fromWColor painter.brush.color)
          env.solidColorBrush], by simp, by simp [recreatesFill],
        by simp [recreatesFill, Event.isFillCreate]⟩
    | GradientPattern =>
      rw [setChangedBrush_gradient _ _ _ hb]
      refine ⟨_, _, by rw [List.append_assoc, List.append_assoc], ?_, ?_⟩
      · simp [recreatesFill, Event.isFillCreate]
      · rw [recreatesFill_append, recreatesFill_gradientCreateEvent]
        rfl

/-- C11 (amended) on the sample device: solid, `NoBrush`, then solid again is
applied in place. -/
theorem brush_identity_rule_witness :
    (sampleDevice ℝ).fillBrushStyle_ = BrushStyle.SolidPattern ∧
    recreatesFill (setChanged (⟨Real.cos, Real.sin, Real.pi⟩ : Libm ℝ) (Env.allOk 30)
        (solidPainter ℝ ⟨0, 0, 255, 255⟩) brushOnly
        (applyBrushes (⟨Real.cos, Real.sin, Real.pi⟩ : Libm ℝ)
          [(Env.allOk 10, solidPainter ℝ ⟨255, 0, 0, 255⟩),
           (Env.allOk 20, { samplePainter ℝ false with
              brush := { (samplePainter ℝ false).brush with style := BrushStyle.NoBrush } })]
          (sampleDevice ℝ))).events = false := by
  have h0 : (sampleDevice ℝ).fillBrushStyle_ = BrushStyle.SolidPattern := rfl
  have h := brush_identity_rule (⟨Real.cos, Real.sin, Real.pi⟩ : Libm ℝ) (sampleDevice ℝ) h0
    [(Env.allOk 10, solidPainter ℝ ⟨255, 0, 0, 255⟩),
     (Env.allOk 20, { samplePainter ℝ false with
        brush := { (samplePainter ℝ false).brush with style := BrushStyle.NoBrush } })]
    (Env.allOk 30) (solidPainter ℝ ⟨0, 0, 255, 255⟩)
  refine ⟨h0, h.2.1.mpr (Or.inr ⟨rfl, ?_⟩)⟩
  simp [lastAppliedKind, solidPainter]

/-- The cached style names the class of the object `fillBrush_` points to. -/
theorem brush_kind_step (env : Env) (painter : WPainter K) (s : Impl K)
    (hsolid : env.solidColorBrush.isSome = true) (hgrad : env.gradientBrush.isSome = true)
    (hinv : (s.fillBrushStyle_ = BrushStyle.SolidPattern ∧ isSolidBrush s.fillBrush_ = true) ∨
      (s.fillBrushStyle_ = BrushStyle.GradientPattern ∧ isGradientBrush s.fillBrush_ = true)) :
    ((setChangedBrush env painter s).1.fillBrushStyle_ = BrushStyle.SolidPattern ∧
        isSolidBrush (setChangedBrush env painter s).1.fillBrush_ = true) ∨
    ((setChangedBrush env painter s).1.fillBrushStyle_ = BrushStyle.GradientPattern ∧
        isGradientBrush (setChangedBrush env painter s).1.fillBrush_ = true) := by
  cases hb : painter.brush.style with
  | NoBrush =>
    rw [setChangedBrush_noBrush env painter s hb]
    exact hinv
  | SolidPattern =>
    left
    by_cases hs : s.fillBrushStyle_ = BrushStyle.SolidPattern
    · rw [setChangedBrush_solid_on_solid env painter s hb hs]
      rcases hinv with ⟨_, h2⟩ | ⟨h1, _⟩
      · refine ⟨hs, ?_⟩
        cases hfb : s.fillBrush_ with
        | none => rw [hfb] at h2; simp [isSolidBrush] at h2
        | some b =>
          cases b <;> rw [hfb] at h2 <;> simp [isSolidBrush] at h2
          simp [fillSetColor, isSolidBrush]
      · rw [h1] at hs; cases hs
    · rw [setChangedBrush_solid_on_other env painter s hb hs]
      obtain ⟨n, hn⟩ := Option.isSome_iff_exists.mp hsolid
      simp [hn, isSolidBrush]
  | GradientPattern =>
    right
    rw [setChangedBrush_gradient env painter s hb]
    obtain ⟨n, hn⟩ := Option.isSome_iff_exists.mp hgrad
    cases hst : painter.brush.gradient.style <;>
      simp [hn, isGradientBrush, gradientBrushOf, hst]

/-- C19: along every sequence of `setChanged(Brush)` calls on a device
constructed with non-zero size, every brush creation succeeding,
`fillBrushStyle_` is `SolidPattern` exactly when `fillBrush_` points to a solid
colour brush and `GradientPattern` exactly when it points to a gradient brush;
hence in the next application every in-place `SetColor` is made on a solid
colour brush, and a requested solid or gradient brush whose kind differs from
the cached style makes no `SetColor` call but releases the old brush and
creates a new one. -/
theorem cached_brush_kind_invariant (m : Libm K) (w h : Nat) (cenv : CtorEnv) (s0 : Impl K)
    (hnew : WRasterImage.new w h cenv = some s0) (hw : w ≠ 0) (hh : h ≠ 0)
    (apps : List (Env × WPainter K))
    (hok : ∀ a ∈ apps, a.1.solidColorBrush.isSome = true ∧ a.1.gradientBrush.isSome = true)
    (env : Env) (painter : WPainter K) :
    ((applyBrushes m apps s0).fillBrushStyle_ = BrushStyle.SolidPattern ↔
      isSolidBrush (applyBrushes m apps s0).fillBrush_ = true) ∧
    ((applyBrushes m apps s0).fillBrushStyle_ = BrushStyle.GradientPattern ↔
      isGradientBrush (applyBrushes m apps s0).fillBrush_ = true) ∧
    (∀ t ∈ fillSetColorTargets
        (setChanged m env painter brushOnly (applyBrushes m apps s0)).events,
      isSolidBrush t = true) ∧
    (painter.brush.style ≠ BrushStyle.NoBrush →
      painter.brush.style ≠ (applyBrushes m apps s0).fillBrushStyle_ →
      fillSetColorTargets
        (setChanged m env painter brushOnly (applyBrushes m apps s0)).events = [] ∧
      recreatesFill
        (setChanged m env painter brushOnly (applyBrushes m apps s0)).events = true ∧
      ∃ old, (applyBrushes m apps s0).fillBrush_ = some old ∧
        old.id ∈ releasedHandles
          (setChanged m env painter brushOnly (applyBrushes m apps s0)).events) := by
  have hinit : (s0.fillBrushStyle_ = BrushStyle.SolidPattern ∧
      isSolidBrush s0.fillBrush_ = true) ∨
      (s0.fillBrushStyle_ = BrushStyle.GradientPattern ∧
      isGradientBrush s0.fillBrush_ = true) := by
    have hsz : ¬ (w = 0 ∨ h = 0) := by simp [hw, hh]
    unfold WRasterImage.new at hnew
    rw [if_neg hsz] at hnew
    split at hnew
    · injection hnew with hnew
      subst hnew
      left
      exact ⟨rfl, rfl⟩
    · cases hnew
  have hinv : ∀ (l : List (Env × WPainter K)) (s : Impl K),
      (∀ a ∈ l, a.1.solidColorBrush.isSome = true ∧ a.1.gradientBrush.isSome = true) →
      ((s.fillBrushStyle_ = BrushStyle.SolidPattern ∧ isSolidBrush s.fillBrush_ = true) ∨
       (s.fillBrushStyle_ = BrushStyle.GradientPattern ∧ isGradientBrush s.fillBrush_ = true)) →
      (((applyBrushes m l s).fillBrushStyle_ = BrushStyle.SolidPattern ∧
          isSolidBrush (applyBrushes m l s).fillBrush_ = true) ∨
       ((applyBrushes m l s).fillBrushStyle_ = BrushStyle.GradientPattern ∧
          isGradientBrush (applyBrushes m l s).fillBrush_ = true)) := by
    intro l
    induction l with
    | nil => intro s _ hs; exact hs
    | cons x rest ih =>
      intro s hl hs
      obtain ⟨e, p⟩ := x
      simp only [applyBrushes]
      apply ih
      · intro a ha; exact hl a (List.mem_cons_of_mem _ ha)
      · rw [(setChanged_brushOnly m e p s).1]
        have hx := hl (e, p) (List.mem_cons_self _ _)
        exact brush_kind_step e p s hx.1 hx.2 hs
  have hI := hinv apps s0 hok hinit
  generalize applyBrushes m apps s0 = s at hI ⊢
  have hexcl : ∀ b : Option (FillBrush K),
      ¬ (isSolidBrush b = true ∧ isGradientBrush b = true) := by
    intro b
    cases b with
    | none => simp [isSolidBrush]
    | some x => cases x <;> simp [isSolidBrush, isGradientBrush]
  simp only [setChanged_brushOnly]
  refine ⟨?_, ?_, ?_, ?_⟩
  · constructor
    · intro hs
      rcases hI with ⟨_, h2⟩ | ⟨h1, _⟩
      · exact h2
      · rw [h1] at hs; cases hs
    · intro hs
      rcases hI with ⟨h1, _⟩ | ⟨_, h2⟩
      · exact h1
      · exact absurd ⟨hs, h2⟩ (hexcl _)
  · constructor
    · intro hs
      rcases hI with ⟨h1, _⟩ | ⟨_, h2⟩
      · rw [h1] at hs; cases hs
      · exact h2
    · intro hs
      rcases hI with ⟨_, h2⟩ | ⟨h1, _⟩
      · exact absurd ⟨h2, hs⟩ (hexcl _)
      · exact h1
  · intro t ht
    cases hb : painter.brush.style with
    | NoBrush =>
      rw [setChangedBrush_noBrush env painter s hb] at ht
      simp [fillSetColorTargets] at ht
    | SolidPattern =>
      by_cases hs : s.fillBrushStyle_ = BrushStyle.SolidPattern
      · rw [setChangedBrush_solid_on_solid env painter s hb hs] at ht
        simp only [fillSetColorTargets, List.mem_singleton] at ht
        rw [ht]
        rcases hI with ⟨_, h2⟩ | ⟨h1, _⟩
        · exact h2
        · rw [h1] at hs; cases hs
      · rw [setChangedBrush_solid_on_other env painter s hb hs] at ht
        cases hfb : s.fillBrush_ <;>
          simp [hfb, releaseFill, fillSetColorTargets] at ht
    | GradientPattern =>
      rw [setChangedBrush_gradient env painter s hb] at ht
      cases hfb : s.fillBrush_ <;> cases hg : env.gradientStopCollection <;>
        cases hst : painter.brush.gradient.style <;>
        simp [hfb, hg, hst, releaseFill, SafeRelease, fillSetColorTargets,
          gradientCreateEvent] at ht
  · intro hne hdiff
    have hsome : ∃ old, s.fillBrush_ = some old := by
      rcases hI with ⟨_, h2⟩ | ⟨_, h2⟩
      · cases hfb : s.fillBrush_ with
        | none => rw [hfb] at h2; simp [isSolidBrush] at h2
        | some b => exact ⟨b, rfl⟩
      · cases hfb : s.fillBrush_ with
        | none => rw [hfb] at h2; simp [isGradientBrush] at h2
        | some b => exact ⟨b, rfl⟩
    obtain ⟨old, hold⟩ := hsome
    cases hb : painter.brush.style with
    | NoBrush => exact absurd hb hne
    | SolidPattern =>
      have hs : s.fillBrushStyle_ ≠ BrushStyle.SolidPattern := by
        intro hs; exact hdiff (by rw [hb, hs])
      rw [setChangedBrush_solid_on_other env painter s hb hs]
      refine ⟨?_, ?_, old, hold, ?_⟩
      · simp [hold, releaseFill, fillSetColorTargets]
      · simp [recreatesFill_append, recreatesFill, Event.isFillCreate]
      · simp [hold, releaseFill, releasedHandles]
    | GradientPattern =>
      rw [setChangedBrush_gradient env painter s hb]
      refine ⟨?_, ?_, old, hold, ?_⟩
      · cases hg : env.gradientStopCollection <;>
          cases hst : painter.brush.gradient.style <;>
          simp [hold, hg, hst, releaseFill, SafeRelease, fillSetColorTargets,
            gradientCreateEvent]
      · simp only [recreatesFill_append, recreatesFill_gradientCreateEvent]
        simp
      · cases hg : env.gradientStopCollection <;>
          cases hst : painter.brush.gradient.style <;>
          simp [hold, hg, hst, releaseFill, SafeRelease, releasedHandles,
            gradientCreateEvent]

/-- C19 on the sample device: after a solid and a gradient brush the cached
style is `GradientPattern`, and a solid brush applied next is created anew
without any `SetColor` call. -/
theorem cached_brush_kind_invariant_witness :
    WRasterImage.new 100 100 sampleCtorEnv = some (sampleDevice ℝ) ∧
    (∀ a ∈ [(Env.allOk 10, solidPainter ℝ ⟨255, 0, 0, 255⟩),
            (Env.allOk 20, gradientPainter ℝ)],
      a.1.solidColorBrush.isSome = true ∧ a.1.gradientBrush.isSome = true) ∧
    isGradientBrush (applyBrushes (⟨Real.cos, Real.sin, Real.pi⟩ : Libm ℝ)
        [(Env.allOk 10, solidPainter ℝ ⟨255, 0, 0, 255⟩), (Env.allOk 20, gradientPainter ℝ)]
        (sampleDevice ℝ)).fillBrush_ = true ∧
    fillSetColorTargets (setChanged (⟨Real.cos, Real.sin, Real.pi⟩ : Libm ℝ) (Env.allOk 30)
        (solidPainter ℝ ⟨0, 0, 255, 255⟩) brushOnly
        (applyBrushes (⟨Real.cos, Real.sin, Real.pi⟩ : Libm ℝ)
          [(Env.allOk 10, solidPainter ℝ ⟨255, 0, 0, 255⟩), (Env.allOk 20, gradientPainter ℝ)]
          (sampleDevice ℝ))).events = [] := by
  have hnew : WRasterImage.new 100 100 sampleCtorEnv = some (sampleDevice ℝ) :=
    sampleDevice_constructed
  have hok : ∀ a ∈ [(Env.allOk 10, solidPainter ℝ ⟨255, 0, 0, 255⟩),
            (Env.allOk 20, gradientPainter ℝ)],
      a.1.solidColorBrush.isSome = true ∧ a.1.gradientBrush.isSome = true := by
    intro a ha
    simp only [List.mem_cons, List.mem_singleton, List.not_mem_nil, or_false] at ha
    rcases ha with h | h <;> subst h <;> exact ⟨rfl, rfl⟩
  have h := cached_brush_kind_invariant (⟨Real.cos, Real.sin, Real.pi⟩ : Libm ℝ) 100 100
    sampleCtorEnv (sampleDevice ℝ) hnew (by decide) (by decide)
    [(Env.allOk 10, solidPainter ℝ ⟨255, 0, 0, 255⟩), (Env.allOk 20, gradientPainter ℝ)] hok
    (Env.allOk 30) (solidPainter ℝ ⟨0, 0, 255, 255⟩)
  have hstyle : (applyBrushes (⟨Real.cos, Real.sin, Real.pi⟩ : Libm ℝ)
        [(Env.allOk 10, solidPainter ℝ ⟨255, 0, 0, 255⟩), (Env.allOk 20, gradientPainter ℝ)]
        (sampleDevice ℝ)).fillBrushStyle_ = BrushStyle.GradientPattern := by
    rw [applyBrushes_style]
    simp [lastAppliedKind, solidPainter, gradientPainter, sampleDevice]
  refine ⟨hnew, hok, h.2.1.mp hstyle, (h.2.2.2 ?_ ?_).1⟩
  · simp [solidPainter]
  · rw [hstyle]; simp [solidPainter]

end BrushKindTheorems

section GeometryLifetimeTheorems

variable {K : Type} [LinearOrderedField K]

/-- C14, evaluated on the code: whenever the path is not empty and the path
geometry `g` is created, `drawPath` creates `g` and returns without releasing
anything, for every painter, path and device state; `drawArc` in the same
situation creates `g` and releases it as its last call. -/
theorem drawPath_never_releases_geometry (m : Libm K) (env : Env) (painter : WPainter K)
    (path : WPainterPath K) (rect : WRectF K) (startAngle spanAngle : K) (s : Impl K)
    (g : Nat) :
    createdGeometries
      (drawPath m { env with pathGeometry := some g } painter path false s) = [g] ∧
    releasedHandles
      (drawPath m { env with pathGeometry := some g } painter path false s) = [] ∧
    createdGeometries
      (drawArc m { env with pathGeometry := some g } painter rect startAngle spanAngle s)
      = [g] ∧
    releasedHandles
      (drawArc m { env with pathGeometry := some g } painter rect startAngle spanAngle s)
      = [g] ∧
    (drawArc m { env with pathGeometry := some g } painter rect startAngle spanAngle s).getLast?
      = some (Event.Release g) := by
  refine ⟨?_, ?_, ?_, ?_, ?_⟩
  · by_cases hb : painter.brush.style = BrushStyle.NoBrush <;>
      by_cases hp : painter.pen.style = PenStyle.NoPen <;>
      simp [drawPath, createdGeometries, hb, hp]
  · by_cases hb : painter.brush.style = BrushStyle.NoBrush <;>
      by_cases hp : painter.pen.style = PenStyle.NoPen <;>
      simp [drawPath, releasedHandles, hb, hp]
  · by_cases hb : painter.brush.style = BrushStyle.NoBrush <;>
      by_cases hp : painter.pen.style = PenStyle.NoPen <;>
      simp [drawArc, createdGeometries, SafeRelease, hb, hp]
  · by_cases hb : painter.brush.style = BrushStyle.NoBrush <;>
      by_cases hp : painter.pen.style = PenStyle.NoPen <;>
      simp [drawArc, releasedHandles, SafeRelease, hb, hp]
  · by_cases hb : painter.brush.style = BrushStyle.NoBrush <;>
      by_cases hp : painter.pen.style = PenStyle.NoPen <;>
      simp [drawArc, SafeRelease, hb, hp]

end GeometryLifetimeTheorems

section PixelTheorems

variable {K : Type} [LinearOrderedField K]

/-- C12: `setPixel` ends with its `WException` exactly when a painter is
attached, and then the device (its pixels and its session state included) is
the same as before the call. -/
theorem setPixel_raises_iff_painter (d : WRasterImage K) (x y : Int) (c : WColor) :
    ((∃ what, (setPixel d x y c).2 = PixelOutcome.raised what) ↔ d.painter_.isSome = true) ∧
    (d.painter_.isSome = true →
      (setPixel d x y c).1 = d ∧
      (setPixel d x y c).1.bitmap_ = d.bitmap_ ∧
      (setPixel d x y c).1.impl_ = d.impl_) := by
  constructor
  · constructor
    · rintro ⟨what, hw⟩
      by_contra hp
      have hp1 : d.painter_.isSome = false := by simpa using hp
      cases hb : d.bitmap_ with
      | none => simp [setPixel, hp1, hb] at hw
      | some b =>
        cases hin : b.inside x y <;> simp [setPixel, hp1, hb, hin] at hw
    · intro hp
      exact ⟨"WRasterImage::setPixel(): cannot be used while a painter is active",
        by simp [setPixel, hp]⟩
  · intro hp
    simp [setPixel, hp]

/-- C12 on the sample image with a painter attached. -/
theorem setPixel_raises_iff_painter_witness :
    (sampleImage ℝ true).painter_.isSome = true ∧
    (∃ what, (setPixel (sampleImage ℝ true) 0 0 ⟨255, 0, 0, 255⟩).2
      = PixelOutcome.raised what) ∧
    (setPixel (sampleImage ℝ true) 0 0 ⟨255, 0, 0, 255⟩).1 = sampleImage ℝ true :=
  have hp : (sampleImage ℝ true).painter_.isSome = true := rfl
  ⟨hp, (setPixel_raises_iff_painter (sampleImage ℝ true) 0 0 ⟨255, 0, 0, 255⟩).1.mpr hp,
    ((setPixel_raises_iff_painter (sampleImage ℝ true) 0 0 ⟨255, 0, 0, 255⟩).2 hp).1⟩

theorem inside_of_bounds (b : Bitmap) (x y : Int) (hx0 : 0 ≤ x) (hx : x < (b.width : Int))
    (hy0 : 0 ≤ y) (hy : y < (b.height : Int)) : b.inside x y = true := by
  simp only [Bitmap.inside, decide_eq_true_eq]
  omega

/-- C13: with no painter attached and no session open, for a bitmap of the
device's size, every pixel `(x, y)` inside it and every colour with channels
below 256, `setPixel` returns normally and changes nothing but the bitmap,
`getPixel` of `(x, y)` then returns that colour without any renderer call, and
`getPixel` of every other position returns what it returned before. -/
theorem pixel_round_trip (env : Env) (d : WRasterImage K) (b : Bitmap) (x y : Int)
    (c : WColor)
    (hp : d.painter_ = none) (hcount : d.impl_.drawingCount_ = 0)
    (hb : d.bitmap_ = some b) (hbw : b.width = d.impl_.w_) (hbh : b.height = d.impl_.h_)
    (hx0 : 0 ≤ x) (hx : x < (d.impl_.w_ : Int)) (hy0 : 0 ≤ y) (hy : y < (d.impl_.h_ : Int))
    (hc : c.red < 256 ∧ c.green < 256 ∧ c.blue < 256 ∧ c.alpha < 256) :
    (setPixel d x y c).2 = PixelOutcome.returned ∧
    (setPixel d x y c).1.impl_ = d.impl_ ∧
    (setPixel d x y c).1.painter_ = d.painter_ ∧
    (getPixel env (setPixel d x y c).1 x y : Option WColor × List (Event K)) = (some c, []) ∧
    (∀ x1 y1 : Int, (x1, y1) ≠ (x, y) →
      (getPixel env (setPixel d x y c).1 x1 y1 : Option WColor × List (Event K)) =
        getPixel env d x1 y1) := by
  have hin : b.inside x y = true :=
    inside_of_bounds b x y hx0 (by rw [hbw]; exact hx) hy0 (by rw [hbh]; exact hy)
  have hset : setPixel d x y c =
      ({ d with bitmap_ := some (b.write x.toNat y.toNat
            ⟨c.red % 256, c.green % 256, c.blue % 256, c.alpha % 256⟩) },
       PixelOutcome.returned) := by
    simp [setPixel, hp, hb, hin]
  have hmod : (⟨c.red % 256, c.green % 256, c.blue % 256, c.alpha % 256⟩ : Pixel)
      = ⟨c.red, c.green, c.blue, c.alpha⟩ := by
    rw [Nat.mod_eq_of_lt hc.1, Nat.mod_eq_of_lt hc.2.1, Nat.mod_eq_of_lt hc.2.2.1,
      Nat.mod_eq_of_lt hc.2.2.2]
  have hin2 : ∀ x1 y1 : Int,
      (b.write x.toNat y.toNat ⟨c.red, c.green, c.blue, c.alpha⟩).inside x1 y1
        = b.inside x1 y1 := by
    intro x1 y1; rfl
  rw [hset, hmod]
  refine ⟨rfl, rfl, rfl, ?_, ?_⟩
  · simp only [getPixel, Impl.suspendDraw, Impl.resumeDraw, hcount, if_true, hin2, hin]
    simp [Bitmap.write]
  · intro x1 y1 hne
    simp only [getPixel, hb, hin2]
    by_cases h1 : b.inside x1 y1 = true
    · simp only [h1, if_true]
      have hb1 : 0 ≤ x1 ∧ 0 ≤ y1 := by
        simp only [Bitmap.inside, decide_eq_true_eq] at h1
        exact ⟨h1.1, h1.2.1⟩
      have hdiff : ¬ (x1.toNat = x.toNat ∧ y1.toNat = y.toNat) := by
        rintro ⟨e1, e2⟩
        apply hne
        have ex : x1 = x := by
          have := congrArg (fun n : Nat => (n : Int)) e1
          simp only [Int.toNat_of_nonneg hb1.1, Int.toNat_of_nonneg hx0] at this
          exact this
        have ey : y1 = y := by
          have := congrArg (fun n : Nat => (n : Int)) e2
          simp only [Int.toNat_of_nonneg hb1.2, Int.toNat_of_nonneg hy0] at this
          exact this
        rw [ex, ey]
      simp [Bitmap.write, hdiff]
    · have h2 : b.inside x1 y1 = false := by simpa using h1
      simp only [h2, Bool.false_eq_true, if_false]

/-- C13 on the sample image: the pixel (0,0) set to (255,0,0,255) reads back as
that colour. -/
theorem pixel_round_trip_witness :
    (sampleImage ℝ false).painter_ = none ∧
    (sampleImage ℝ false).impl_.drawingCount_ = 0 ∧
    (sampleImage ℝ false).bitmap_ = some ⟨100, 100, fun _ _ => ⟨0, 0, 0, 0⟩⟩ ∧
    ((0 : Int) < ((sampleImage ℝ false).impl_.w_ : Int)) ∧
    ((0 : Int) < ((sampleImage ℝ false).impl_.h_ : Int)) ∧
    (setPixel (sampleImage ℝ false) 0 0 ⟨255, 0, 0, 255⟩).2 = PixelOutcome.returned ∧
    (getPixel (Env.allOk 10) (setPixel (sampleImage ℝ false) 0 0 ⟨255, 0, 0, 255⟩).1 0 0 :
        Option WColor × List (Event ℝ)) = (some ⟨255, 0, 0, 255⟩, []) := by
  have hp : (sampleImage ℝ false).painter_ = none := rfl
  have hcount : (sampleImage ℝ false).impl_.drawingCount_ = 0 := rfl
  have hb : (sampleImage ℝ false).bitmap_ = some ⟨100, 100, fun _ _ => ⟨0, 0, 0, 0⟩⟩ := rfl
  have hw : ((0 : Int) < ((sampleImage ℝ false).impl_.w_ : Int)) := by
    simp [sampleImage, sampleDevice]
  have hh : ((0 : Int) < ((sampleImage ℝ false).impl_.h_ : Int)) := by
    simp [sampleImage, sampleDevice]
  have h := pixel_round_trip (Env.allOk 10) (sampleImage ℝ false)
    ⟨100, 100, fun _ _ => ⟨0, 0, 0, 0⟩⟩ 0 0 ⟨255, 0, 0, 255⟩ hp hcount hb rfl rfl
    (le_refl 0) hw (le_refl 0) hh (by decide)
  exact ⟨hp, hcount, hb, hw, hh, h.1, h.2.2.2.1⟩

end PixelTheorems

section FigureStartTheorems

variable {K : Type} [LinearOrderedField K]

theorem loop_trace_head (m : Libm K) (path : WPainterPath K) (filled : Bool)
    (gs : List (PathGroup K)) (hv : ∀ g ∈ gs, g.headValid = true) :
    ∀ (i : Nat) (st : PathLoop K),
      path.segments.drop i = gs.flatMap PathGroup.records →
      ∃ st1, drawPlainPathLoop m path filled i st = Except.ok st1 ∧
        st1.out ++ (if st1.started then [SinkCall.EndFigure FigureEnd.END_OPEN] else []) =
          st.out ++ remainingCalls m path filled st.started st.startPoint (indexGroups i gs) := by
  induction gs with
  | nil =>
    intro i st hd
    refine ⟨st, loop_end m path filled i st (by simpa using hd), ?_⟩
    simp [indexGroups, remaining_nil]
  | cons g gs ih =>
    intro i st hd
    have hvg := hv g (List.mem_cons_self _ _)
    have hvs : ∀ g ∈ gs, g.headValid = true := fun x hx => hv x (List.mem_cons_of_mem _ hx)
    have hd2 : path.segments.drop (i + g.records.length) = gs.flatMap PathGroup.records :=
      drop_add_of_drop g.records _ (by simpa [List.flatMap_cons] using hd)
    cases g with
    | move s =>
      simp only [PathGroup.headValid, decide_eq_true_eq] at hvg
      obtain ⟨st1, h1, h2⟩ := ih hvs (i + 1)
        { startPoint := ⟨s.x, s.y⟩, started := false,
          out := st.out ++
            (if st.started then [SinkCall.EndFigure FigureEnd.END_OPEN] else []) }
        (by simpa [PathGroup.records] using hd2)
      refine ⟨st1, ?_, ?_⟩
      · rw [loop_move m path filled i st s _ (by simpa [List.flatMap_cons, PathGroup.records] using hd) hvg]
        exact h1
      · rw [h2]
        simp [indexGroups, remaining_move, PathGroup.records, List.append_assoc]
    | line s =>
      simp only [PathGroup.headValid, decide_eq_true_eq] at hvg
      obtain ⟨st1, h1, h2⟩ := ih hvs (i + 1)
        { startPoint := st.startPoint, started := true,
          out := st.out ++
            (if st.started then [] else [SinkCall.BeginFigure st.startPoint
              (if filled then FigureBegin.FILLED else FigureBegin.HOLLOW)]) ++
            [SinkCall.AddLine ⟨s.x, s.y⟩] }
        (by simpa [PathGroup.records] using hd2)
      refine ⟨st1, ?_, ?_⟩
      · rw [loop_line m path filled i st s _ (by simpa [List.flatMap_cons, PathGroup.records] using hd) hvg]
        exact h1
      · rw [h2]
        simp [indexGroups, remaining_draw, PathGroup.isMove, groupCalls, PathGroup.records,
          List.append_assoc]
    | cubic c1 c2 e =>
      simp only [PathGroup.headValid, decide_eq_true_eq] at hvg
      obtain ⟨st1, h1, h2⟩ := ih hvs (i + 3)
        { startPoint := st.startPoint, started := true,
          out := st.out ++
            (if st.started then [] else [SinkCall.BeginFigure st.startPoint
              (if filled then FigureBegin.FILLED else FigureBegin.HOLLOW)]) ++
            [SinkCall.AddBezier ⟨c1.x, c1.y⟩ ⟨c2.x, c2.y⟩ ⟨e.x, e.y⟩] }
        (by simpa [PathGroup.records] using hd2)
      refine ⟨st1, ?_, ?_⟩
      · rw [loop_cubic m path filled i st c1 c2 e _
          (by simpa [List.flatMap_cons, PathGroup.records] using hd) hvg]
        exact h1
      · rw [h2]
        simp [indexGroups, remaining_draw, PathGroup.isMove, groupCalls, PathGroup.records,
          List.append_assoc]
    | quad c e =>
      simp only [PathGroup.headValid, decide_eq_true_eq] at hvg
      obtain ⟨st1, h1, h2⟩ := ih hvs (i + 2)
        { startPoint := st.startPoint, started := true,
          out := st.out ++
            (if st.started then [] else [SinkCall.BeginFigure st.startPoint
              (if filled then FigureBegin.FILLED else FigureBegin.HOLLOW)]) ++
            [SinkCall.AddQuadraticBezier ⟨c.x, c.y⟩ ⟨e.x, e.y⟩] }
        (by simpa [PathGroup.records] using hd2)
      refine ⟨st1, ?_, ?_⟩
      · rw [loop_quad m path filled i st c e _
          (by simpa [List.flatMap_cons, PathGroup.records] using hd) hvg]
        exact h1
      · rw [h2]
        simp [indexGroups, remaining_draw, PathGroup.isMove, groupCalls, PathGroup.records,
          List.append_assoc]
    | arc c r a =>
      simp only [PathGroup.headValid, decide_eq_true_eq] at hvg
      obtain ⟨st1, h1, h2⟩ := ih hvs (i + 3)
        { startPoint := st.startPoint, started := true,
          out := st.out ++
            (if st.started then [] else [SinkCall.BeginFigure st.startPoint
              (if filled then FigureBegin.FILLED else FigureBegin.HOLLOW)]) ++
            arcSegmentCalls m (path.positionAtSegment i) c r a }
        (by simpa [PathGroup.records] using hd2)
      refine ⟨st1, ?_, ?_⟩
      · rw [loop_arc m path filled i st c r a _
          (by simpa [List.flatMap_cons, PathGroup.records] using hd) hvg]
        exact h1
      · rw [h2]
        simp [indexGroups, remaining_draw, PathGroup.isMove, groupCalls, PathGroup.records,
          List.append_assoc]

theorem drawPlainPath_trace_head (m : Libm K) (path : WPainterPath K) (filled : Bool)
    (gs : List (PathGroup K)) (hv : ∀ g ∈ gs, g.headValid = true)
    (hs : path.segments = gs.flatMap PathGroup.records) :
    drawPlainPath m path filled =
      Except.ok ((figures ⟨0, 0⟩ (indexGroups 0 gs)).flatMap (figureCalls m path filled) ++
        [SinkCall.Close]) := by
  obtain ⟨st1, h1, h2⟩ :=
    loop_trace_head m path filled gs hv 0 ⟨⟨0, 0⟩, false, []⟩ (by simpa using hs)
  unfold drawPlainPath
  rw [h1]
  simp only [List.nil_append, remainingCalls] at h2
  simp only [Bool.false_eq_true, if_false] at h2
  rw [← h2]
  cases hst : st1.started <;> simp [hst]

/-- A run of the loop that ends without fault reads a record sequence that
splits into logical segments whose first records carry the kinds that start
them. -/
theorem loop_parse (m : Libm K) (path : WPainterPath K) (filled : Bool) :
    ∀ (n i : Nat) (st st1 : PathLoop K), path.segments.length - i = n →
      drawPlainPathLoop m path filled i st = Except.ok st1 →
      ∃ gs : List (PathGroup K), (∀ g ∈ gs, g.headValid = true) ∧
        path.segments.drop i = gs.flatMap PathGroup.records := by
  intro n
  induction n using Nat.strong_induction_on with
  | _ n ih =>
    intro i st st1 hn hrun
    by_cases hi : i < path.segments.length
    · have hd : path.segments.drop i = path.segments[i] :: path.segments.drop (i + 1) :=
        List.drop_eq_getElem_cons hi
      obtain ⟨s, hs⟩ : ∃ s, path.segments[i] = s := ⟨_, rfl⟩
      rw [hs] at hd
      cases ht : s.type with
      | MoveTo =>
        rw [loop_move m path filled i st s _ hd ht] at hrun
        obtain ⟨gs, hv, hg⟩ :=
          ih (path.segments.length - (i + 1)) (by omega) (i + 1) _ st1 rfl hrun
        refine ⟨PathGroup.move s :: gs, ?_, ?_⟩
        · intro g hgm
          rcases List.mem_cons.mp hgm with h | h
          · subst h; simp [PathGroup.headValid, ht]
          · exact hv g h
        · rw [hd, hg]; simp [PathGroup.records]
      | LineTo =>
        rw [loop_line m path filled i st s _ hd ht] at hrun
        obtain ⟨gs, hv, hg⟩ :=
          ih (path.segments.length - (i + 1)) (by omega) (i + 1) _ st1 rfl hrun
        refine ⟨PathGroup.line s :: gs, ?_, ?_⟩
        · intro g hgm
          rcases List.mem_cons.mp hgm with h | h
          · subst h; simp [PathGroup.headValid, ht]
          · exact hv g h
        · rw [hd, hg]; simp [PathGroup.records]
      | CubicC1 =>
        by_cases h2 : i + 2 < path.segments.length
        · have hd1 : path.segments.drop (i + 1) =
              path.segments[i + 1] :: path.segments.drop (i + 1 + 1) :=
            List.drop_eq_getElem_cons (by omega)
          have hd2 : path.segments.drop (i + 1 + 1) =
              path.segments[i + 1 + 1] :: path.segments.drop (i + 1 + 1 + 1) :=
            List.drop_eq_getElem_cons (by omega)
          rw [hd1, hd2] at hd
          rw [loop_cubic m path filled i st s _ _ _ hd ht] at hrun
          obtain ⟨gs, hv, hg⟩ :=
            ih (path.segments.length - (i + 3)) (by omega) (i + 3) _ st1 rfl hrun
          refine ⟨PathGroup.cubic s path.segments[i + 1] path.segments[i + 1 + 1] :: gs, ?_, ?_⟩
          · intro g hgm
            rcases List.mem_cons.mp hgm with h | h
            · subst h; simp [PathGroup.headValid, ht]
            · exact hv g h
          · rw [hd]
            have hg2 : path.segments.drop (i + 1 + 1 + 1) = gs.flatMap PathGroup.records := hg
            rw [hg2]; simp [PathGroup.records]
        · exfalso
          have hnone : path.segments[i + 2]? = none := List.getElem?_eq_none (by omega)
          rw [drawPlainPathLoop] at hrun
          simp only [hi, dif_pos, hs, ht, hnone] at hrun
          cases h1 : path.segments[i + 1]? <;> simp [h1] at hrun
      | CubicC2 =>
        exfalso
        rw [drawPlainPathLoop] at hrun
        simp [hi, hs, ht] at hrun
      | CubicEnd =>
        exfalso
        rw [drawPlainPathLoop] at hrun
        simp [hi, hs, ht] at hrun
      | QuadC =>
        by_cases h2 : i + 1 < path.segments.length
        · have hd1 : path.segments.drop (i + 1) =
              path.segments[i + 1] :: path.segments.drop (i + 1 + 1) :=
            List.drop_eq_getElem_cons (by omega)
          rw [hd1] at hd
          rw [loop_quad m path filled i st s _ _ hd ht] at hrun
          obtain ⟨gs, hv, hg⟩ :=
            ih (path.segments.length - (i + 2)) (by omega) (i + 2) _ st1 rfl hrun
          refine ⟨PathGroup.quad s path.segments[i + 1] :: gs, ?_, ?_⟩
          · intro g hgm
            rcases List.mem_cons.mp hgm with h | h
            · subst h; simp [PathGroup.headValid, ht]
            · exact hv g h
          · rw [hd]
            have hg2 : path.segments.drop (i + 1 + 1) = gs.flatMap PathGroup.records := hg
            rw [hg2]; simp [PathGroup.records]
        · exfalso
          have hnone : path.segments[i + 1]? = none := List.getElem?_eq_none (by omega)
          rw [drawPlainPathLoop] at hrun
          simp [hi, hs, ht, hnone] at hrun
      | QuadEnd =>
        exfalso
        rw [drawPlainPathLoop] at hrun
        simp [hi, hs, ht] at hrun
      | ArcC =>
        by_cases h2 : i + 2 < path.segments.length
        · have hd1 : path.segments.drop (i + 1) =
              path.segments[i + 1] :: path.segments.drop (i + 1 + 1) :=
            List.drop_eq_getElem_cons (by omega)
          have hd2 : path.segments.drop (i + 1 + 1) =
              path.segments[i + 1 + 1] :: path.segments.drop (i + 1 + 1 + 1) :=
            List.drop_eq_getElem_cons (by omega)
          rw [hd1, hd2] at hd
          rw [loop_arc m path filled i st s _ _ _ hd ht] at hrun
          obtain ⟨gs, hv, hg⟩ :=
            ih (path.segments.length - (i + 3)) (by omega) (i + 3) _ st1 rfl hrun
          refine ⟨PathGroup.arc s path.segments[i + 1] path.segments[i + 1 + 1] :: gs, ?_, ?_⟩
          · intro g hgm
            rcases List.mem_cons.mp hgm with h | h
            · subst h; simp [PathGroup.headValid, ht]
            · exact hv g h
          · rw [hd]
            have hg2 : path.segments.drop (i + 1 + 1 + 1) = gs.flatMap PathGroup.records := hg
            rw [hg2]; simp [PathGroup.records]
        · exfalso
          have hnone : path.segments[i + 2]? = none := List.getElem?_eq_none (by omega)
          rw [drawPlainPathLoop] at hrun
          simp only [hi, dif_pos, hs, ht, hnone] at hrun
          cases h1 : path.segments[i + 1]? <;> simp [h1] at hrun
      | ArcR =>
        exfalso
        rw [drawPlainPathLoop] at hrun
        simp [hi, hs, ht] at hrun
      | ArcAngleSweep =>
        exfalso
        rw [drawPlainPathLoop] at hrun
        simp [hi, hs, ht] at hrun
    · exact ⟨[], by simp, by simp [List.drop_eq_nil_of_le (Nat.le_of_not_lt hi)]⟩

theorem lastMoveTo_zero (segs : List (Segment K)) : lastMoveTo segs 0 = ⟨0, 0⟩ := by
  simp [lastMoveTo]

theorem lastMoveTo_succ_move (segs : List (Segment K)) (i : Nat) (s : Segment K)
    (rest : List (Segment K)) (hd : segs.drop i = s :: rest)
    (ht : s.type = SegmentType.MoveTo) :
    lastMoveTo segs (i + 1) = ⟨s.x, s.y⟩ := by
  obtain ⟨hi, h1, _⟩ := drop_cons_inv hd
  have htake : segs.take (i + 1) = segs.take i ++ [s] := by
    rw [List.take_succ, List.getElem?_eq_getElem hi, h1]; rfl
  simp [lastMoveTo, htake, List.filter_append, ht]

theorem indexGroups_mem (gs : List (PathGroup K)) :
    ∀ (i : Nat) (x : Nat × PathGroup K), x ∈ indexGroups i gs → x.2 ∈ gs := by
  induction gs with
  | nil => intro i x hx; simp [indexGroups] at hx
  | cons g gs ih =>
    intro i x hx
    simp only [indexGroups, List.mem_cons] at hx
    rcases hx with h | h
    · subst h; exact List.mem_cons_self _ _
    · exact List.mem_cons_of_mem _ (ih _ x h)

theorem indexGroups_chain (segs : List (Segment K)) (gs : List (PathGroup K))
    (hv : ∀ g ∈ gs, g.headValid = true) :
    ∀ i, segs.drop i = gs.flatMap PathGroup.records →
      List.Chain' (fun a b : Nat × PathGroup K =>
        ∀ s, a.2 = PathGroup.move s → lastMoveTo segs b.1 = ⟨s.x, s.y⟩) (indexGroups i gs) := by
  induction gs with
  | nil => intro i _; simp [indexGroups]
  | cons g gs ih =>
    intro i hd
    have hd2 : segs.drop i = g.records ++ gs.flatMap PathGroup.records := by
      simpa [List.flatMap_cons] using hd
    have hnext := drop_add_of_drop g.records _ hd2
    have hch := ih (fun x hx => hv x (List.mem_cons_of_mem _ hx)) (i + g.records.length) hnext
    rw [indexGroups, List.chain'_cons']
    refine ⟨?_, hch⟩
    intro y hy s hs
    have hy1 : y.1 = i + g.records.length := by
      cases gs with
      | nil => simp [indexGroups] at hy
      | cons g2 gs2 =>
        simp only [indexGroups, List.head?_cons, Option.mem_def, Option.some.injEq] at hy
        rw [← hy]
    have hs2 : g = PathGroup.move s := hs
    subst hs2
    rw [hy1]
    have hvg := hv _ (List.mem_cons_self _ _)
    simp only [PathGroup.headValid, decide_eq_true_eq] at hvg
    simp only [PathGroup.records, List.length_singleton]
    exact lastMoveTo_succ_move segs i s _ (by simpa [PathGroup.records] using hd2) hvg

theorem figures_start (segs : List (Segment K)) (p0 : Point K)
    (l : List (Nat × PathGroup K)) :
    List.Chain' (fun a b : Nat × PathGroup K =>
        ∀ s, a.2 = PathGroup.move s → lastMoveTo segs b.1 = ⟨s.x, s.y⟩) l →
    (∀ x l2, l = x :: l2 → x.2.isMove = false → p0 = lastMoveTo segs x.1) →
    ∀ f ∈ figures p0 l, ∃ x rest, f.2 = x :: rest ∧ x ∈ l ∧ x.2.isMove = false ∧
      f.1 = lastMoveTo segs x.1 := by
  obtain ⟨n, hn⟩ : ∃ n, l.length = n := ⟨_, rfl⟩
  induction n using Nat.strong_induction_on generalizing p0 l with
  | _ n ih =>
    intro hc hh f hf
    cases l with
    | nil => simp [figures] at hf
    | cons x l =>
      cases hx : x.2.isMove with
      | true =>
        obtain ⟨i, g⟩ := x
        cases g <;> simp [PathGroup.isMove] at hx
        rename_i s
        rw [figures_move] at hf
        have hc2 := List.chain'_cons'.mp hc
        obtain ⟨y, rest, h1, h2, h3, h4⟩ :=
          ih l.length (by simp at hn; omega) ⟨s.x, s.y⟩ l rfl hc2.2
            (by
              intro y l2 hl _
              subst hl
              exact (hc2.1 y (by simp) s rfl).symm) f hf
        exact ⟨y, rest, h1, List.mem_cons_of_mem _ h2, h3, h4⟩
      | false =>
        rw [figures_draw p0 x l hx] at hf
        rcases List.mem_cons.mp hf with h | h
        · subst h
          exact ⟨x, _, rfl, List.mem_cons_self _ _, hx, hh x l rfl hx⟩
        · have hlen : (l.dropWhile (fun y => !y.2.isMove)).length < n := by
            have h := (List.dropWhile_sublist (fun y : Nat × PathGroup K => !y.2.isMove)
              (l := l)).length_le
            simp at hn; omega
          have hc2 := List.chain'_cons'.mp hc
          obtain ⟨y, rest, h1, h2, h3, h4⟩ :=
            ih _ hlen p0 (l.dropWhile (fun y => !y.2.isMove)) rfl
              (hc2.2.suffix (List.dropWhile_suffix _))
              (by
                intro y l2 hl hy
                exfalso
                have := List.head?_dropWhile_not (fun y : Nat × PathGroup K => !y.2.isMove) l
                rw [hl] at this
                simp [hy] at this) f h
          exact ⟨y, rest, h1,
            List.mem_cons_of_mem _ ((List.dropWhile_sublist _).subset h2), h3, h4⟩

theorem figures_trace_begins (m : Libm K) (path : WPainterPath K) (filled : Bool)
    (fs : List (Point K × List (Nat × PathGroup K))) :
    (fs.flatMap (figureCalls m path filled) ++ [SinkCall.Close]).filter
        SinkCall.isBeginFigure =
      fs.map (fun f => SinkCall.BeginFigure f.1
        (if filled then FigureBegin.FILLED else FigureBegin.HOLLOW)) := by
  induction fs with
  | nil => simp [SinkCall.isBeginFigure]
  | cons f fs ih =>
    have hp : (f.2.flatMap (groupCalls m path)).filter SinkCall.isBeginFigure = [] := by
      rw [List.filter_eq_nil_iff]
      intro c hc
      obtain ⟨ig, _, h⟩ := List.mem_flatMap.mp hc
      have := groupCalls_primitive m path ig c h
      cases c <;> simp_all [SinkCall.isPrimitive, SinkCall.isBeginFigure]
    simp only [List.flatMap_cons, List.append_assoc, List.filter_append, List.map_cons] at ih ⊢
    rw [ih]
    simp [figureCalls, List.filter_append, hp, SinkCall.isBeginFigure, List.filter_cons]

theorem head_not_move (g : PathGroup K) (hv : g.headValid = true) (hm : g.isMove = false) :
    g.head.type ≠ SegmentType.MoveTo := by
  cases g <;> simp_all [PathGroup.headValid, PathGroup.isMove, PathGroup.head]

theorem records_head (g : PathGroup K) : ∃ rest, g.records = g.head :: rest := by
  cases g <;> simp [PathGroup.records, PathGroup.head]

/-- C17: whenever `drawPlainPath` returns its sink trace for a record
sequence, the records split into logical segments (each starting with the
record kind the loop dispatches on), and the `BeginFigure` calls of the trace
are, in order, one per maximal run of segments other than `MoveTo`: each is
opened by the first segment of its run, whose first record (at index `j`) is
not a `MoveTo`; its start point is the coordinates of the last `MoveTo` record
among the records before index `j`, or (0,0) if there is none; and it is tagged
`FILLED` if `filled` is true and `HOLLOW` otherwise. A sequence of `MoveTo`
records only yields no `BeginFigure` call. -/
theorem figure_start_and_fill_tag (m : Libm K) (path : WPainterPath K) (filled : Bool)
    (trace : List (SinkCall K)) (hrun : drawPlainPath m path filled = Except.ok trace) :
    ∃ gs : List (PathGroup K),
      (∀ g ∈ gs, g.headValid = true) ∧
      path.segments = gs.flatMap PathGroup.records ∧
      trace.filter SinkCall.isBeginFigure =
        (figures ⟨0, 0⟩ (indexGroups 0 gs)).map (fun f =>
          SinkCall.BeginFigure f.1
            (if filled then FigureBegin.FILLED else FigureBegin.HOLLOW)) ∧
      (∀ f ∈ figures ⟨0, 0⟩ (indexGroups 0 gs), ∃ j g rest,
        f.2 = (j, g) :: rest ∧ (j, g) ∈ indexGroups 0 gs ∧
        (∀ x ∈ f.2, x.2.isMove = false) ∧
        path.segments[j]? = some g.head ∧ g.head.type ≠ SegmentType.MoveTo ∧
        f.1 = lastMoveTo path.segments j) ∧
      ((∀ s ∈ path.segments, s.type = SegmentType.MoveTo) →
        trace.filter SinkCall.isBeginFigure = []) := by
  have hloop : ∃ st1,
      drawPlainPathLoop m path filled 0 ⟨⟨0, 0⟩, false, []⟩ = Except.ok st1 := by
    unfold drawPlainPath at hrun
    cases h : drawPlainPathLoop m path filled 0 ⟨⟨0, 0⟩, false, []⟩ with
    | error e => rw [h] at hrun; simp at hrun
    | ok st1 => exact ⟨st1, rfl⟩
  obtain ⟨st1, hst1⟩ := hloop
  obtain ⟨gs, hv, hg⟩ := loop_parse m path filled _ 0 _ st1 rfl hst1
  have hs : path.segments = gs.flatMap PathGroup.records := by simpa using hg
  have htr := drawPlainPath_trace_head m path filled gs hv hs
  rw [htr] at hrun
  have htrace := Except.ok.inj hrun
  have hbegin := figures_trace_begins m path filled (figures ⟨0, 0⟩ (indexGroups 0 gs))
  rw [htrace] at hbegin
  have hfig : ∀ f ∈ figures ⟨0, 0⟩ (indexGroups 0 gs), ∃ j g rest,
      f.2 = (j, g) :: rest ∧ (j, g) ∈ indexGroups 0 gs ∧
      (∀ x ∈ f.2, x.2.isMove = false) ∧
      path.segments[j]? = some g.head ∧ g.head.type ≠ SegmentType.MoveTo ∧
      f.1 = lastMoveTo path.segments j := by
    intro f hf
    obtain ⟨x, rest, h1, h2, h3, h4⟩ :=
      figures_start path.segments ⟨0, 0⟩ (indexGroups 0 gs)
        (indexGroups_chain path.segments gs hv 0 hg)
        (by
          intro x l2 hl _
          have hx1 : x.1 = 0 := by
            cases gs with
            | nil => simp [indexGroups] at hl
            | cons g2 gs2 =>
              simp only [indexGroups, List.cons.injEq] at hl
              rw [← hl.1]
          rw [hx1, lastMoveTo_zero]) f hf
    obtain ⟨j, g⟩ := x
    obtain ⟨rest2, hpos⟩ := indexGroups_position path.segments gs 0 hg (j, g) h2
    obtain ⟨rest3, hrec⟩ := records_head g
    have hpos2 : path.segments.drop j = g.head :: (rest3 ++ rest2) := by
      rw [hpos]; simp only [hrec, List.cons_append]
    exact ⟨j, g, rest, h1, h2, (figures_spec _ _).2 f hf |>.2, drop_cons_getElem? hpos2,
      head_not_move g (hv g (indexGroups_mem gs 0 (j, g) h2)) h3, h4⟩
  refine ⟨gs, hv, hs, hbegin, hfig, ?_⟩
  intro hall
  rw [hbegin]
  cases hfs : figures (⟨0, 0⟩ : Point K) (indexGroups 0 gs) with
  | nil => rfl
  | cons f fs =>
    exfalso
    obtain ⟨j, g, rest, _, _, _, h4, h5, _⟩ := hfig f (by rw [hfs]; exact List.mem_cons_self _ _)
    obtain ⟨hj, hjeq⟩ := List.getElem?_eq_some_iff.mp h4
    exact h5 (hall _ (hjeq ▸ List.getElem_mem hj))

/-- C17 on the sample path (filled): the trace has two `BeginFigure` calls, at
(0,0), the first `MoveTo`, and at (30,30), the second of the two `MoveTo`
records in a row, both tagged `FILLED`. -/
theorem figure_start_and_fill_tag_witness :
    ∃ trace,
      drawPlainPath (⟨Real.cos, Real.sin, Real.pi⟩ : Libm ℝ) (samplePath ℝ) true
        = Except.ok trace ∧
      trace.filter SinkCall.isBeginFigure =
        [SinkCall.BeginFigure ⟨0, 0⟩ FigureBegin.FILLED,
         SinkCall.BeginFigure ⟨30, 30⟩ FigureBegin.FILLED] ∧
      lastMoveTo (samplePath ℝ).segments 1 = ⟨0, 0⟩ ∧
      lastMoveTo (samplePath ℝ).segments 5 = ⟨30, 30⟩ ∧
      ∃ gs : List (PathGroup ℝ),
        (∀ g ∈ gs, g.headValid = true) ∧
        (samplePath ℝ).segments = gs.flatMap PathGroup.records ∧
        trace.filter SinkCall.isBeginFigure =
          (figures ⟨0, 0⟩ (indexGroups 0 gs)).map (fun f =>
            SinkCall.BeginFigure f.1
              (if true = true then FigureBegin.FILLED else FigureBegin.HOLLOW)) ∧
        (∀ f ∈ figures ⟨0, 0⟩ (indexGroups 0 gs), ∃ j g rest,
          f.2 = (j, g) :: rest ∧ (j, g) ∈ indexGroups 0 gs ∧
          (∀ x ∈ f.2, x.2.isMove = false) ∧
          (samplePath ℝ).segments[j]? = some g.head ∧ g.head.type ≠ SegmentType.MoveTo ∧
          f.1 = lastMoveTo (samplePath ℝ).segments j) ∧
        ((∀ s ∈ (samplePath ℝ).segments, s.type = SegmentType.MoveTo) →
          trace.filter SinkCall.isBeginFigure = []) := by
  have hv : ∀ g ∈ sampleGroups ℝ, g.headValid = true := by
    simp [sampleGroups, PathGroup.headValid]
  have hs : (samplePath ℝ).segments = (sampleGroups ℝ).flatMap PathGroup.records := by
    simp [samplePath, sampleGroups, PathGroup.records]
  have hrun := drawPlainPath_trace_head (⟨Real.cos, Real.sin, Real.pi⟩ : Libm ℝ)
    (samplePath ℝ) true (sampleGroups ℝ) hv hs
  have hfigs : figures (⟨0, 0⟩ : Point ℝ) (indexGroups 0 (sampleGroups ℝ)) =
      [(⟨0, 0⟩, [(1, PathGroup.line ⟨SegmentType.LineTo, 10, 0⟩),
                 (2, PathGroup.line ⟨SegmentType.LineTo, 10, 10⟩)]),
       (⟨30, 30⟩, [(5, PathGroup.cubic ⟨SegmentType.CubicC1, 1, 1⟩ ⟨SegmentType.CubicC2, 2, 2⟩
                      ⟨SegmentType.CubicEnd, 3, 3⟩),
                   (8, PathGroup.quad ⟨SegmentType.QuadC, 4, 4⟩ ⟨SegmentType.QuadEnd, 5, 5⟩),
                   (10, PathGroup.arc ⟨SegmentType.ArcC, 0, 0⟩ ⟨SegmentType.ArcR, 10, 10⟩
                      ⟨SegmentType.ArcAngleSweep, 0, 180⟩)])] := by
    simp [sampleGroups, indexGroups, figures_move, figures_draw, PathGroup.isMove,
      PathGroup.records, figures]
  refine ⟨_, hrun, ?_, ?_, ?_, figure_start_and_fill_tag _ _ _ _ hrun⟩
  · rw [figures_trace_begins, hfigs]
    simp
  · simp [lastMoveTo, samplePath]
  · simp [lastMoveTo, samplePath]

end FigureStartTheorems

end Wt
